import Mathlib

/-!
# bpc / gpt2: the decode loop, the step executor and the sampler

A shallow embedding of `src/gpt2/model.go`.

* float32 values are elements of a linearly ordered field `α` (exact
  arithmetic, no NaN and no infinity); the composite
  `float32(math.Exp(float64(x)))` is the parameter `exp`, and each theorem
  states what it assumes of it.
* `sort.Slice` belongs to Go's standard library: it is the parameter
  `sortSlice`, constrained in the theorems by its documented contract
  (`SortSliceSpec`), which promises a sorted permutation and no stability.
* onnxruntime values are indices into the list of tensors of a `World`,
  which also logs every `Destroy` and every forward pass; the operations of
  the runtime that can fail are oracles of an `Env`.
* a Go panic and a returned error are the two constructors of `Fault`.
* int64 values are integers; where the source adds, the sum is reduced into
  the int64 range by `wrapInt64`, and `make` panics on a negative size and
  beyond the limit `Env.makeLimit` of the runtime.
-/

namespace Gpt2

/-! ## Constants (model.go, lines 15-20) -/

def vocabSize : Nat := 50257
def nLayers : Nat := 12
def nHeads : Nat := 12
def headDim : Nat := 64

/-- Go's int64 arithmetic: a result is reduced modulo `2^64` into
`[-2^63, 2^63)`. -/
def wrapInt64 (x : Int) : Int := (x + 2 ^ 63) % 2 ^ 64 - 2 ^ 63

/-- The two ways a Go call can end without its normal result: a returned
`error`, or a run-time panic. -/
inductive Fault where
  | error (msg : String)
  | panic (msg : String)
  deriving DecidableEq, Repr

/-! ## Sampler (model.go, lines 293-338) -/

/-- Go's `slices.Max`: `m := x[0]`, then `m = max(m, x[i])` from left to
right; `none` stands for its panic on an empty slice. -/
def slicesMax {α : Type} [LinearOrderedField α] : List α → Option α
  | [] => none
  | x :: xs => some (xs.foldl max x)

/-- Function `softmax` (lines 293-311): `r[i] = exp (v - m)`, `s` is the
running sum of the `r[i]` starting from `0`, and every `r[i]` is divided by
`s`. -/
def softmax {α : Type} [LinearOrderedField α] (exp : α → α) (logits : List α) :
    Except Fault (List α) :=
  match slicesMax logits with
  | none => .error (.panic "slices.Max: empty list")
  | some m =>
    let r := logits.map (fun v => exp (v - m))
    let s := r.foldl (fun s e => s + e) 0
    .ok (r.map (fun e => e / s))

/-- The comparison closure handed to `sort.Slice` at line 326,
`p[idx[i]] > p[idx[j]]`, as a relation between the two elements of `idx`
being compared. The elements of `idx` are indices of `p` (it is a permutation
of `0..n-1`), so the default of `getD` is never read. -/
def topKLess {α : Type} [LinearOrderedField α] (p : List α) (a b : Nat) : Bool :=
  decide (p.getD a 0 > p.getD b 0)

/-- Function `topK` (lines 313-338): `k` is clamped to `len(p)`, `idx` is
`0..n-1` sorted by `sortSlice` with the closure `topKLess p`, `topIdx` is
`idx[:k]` (a panic for a negative `k`) and `topP[i] = p[topIdx[i]]`. -/
def topK {α : Type} [LinearOrderedField α]
    (sortSlice : (Nat → Nat → Bool) → List Nat → List Nat) (p : List α) (k : Int) :
    Except Fault (List Nat × List α) :=
  let n := p.length
  let k := if k > (n : Int) then (n : Int) else k
  let idx := sortSlice (topKLess p) (List.range n)
  if k < 0 then .error (.panic "slice bounds out of range")
  else
    let topIdx := idx.take k.toNat
    .ok (topIdx, topIdx.map (fun a => p.getD a 0))

/-- What `sort.Slice` requires of its `less`: a strict weak ordering. -/
def StrictWeakOrder (less : Nat → Nat → Bool) : Prop :=
  (∀ a, less a a = false) ∧
  (∀ a b c, less a b = true → less b c = true → less a c = true) ∧
  (∀ a b c, less a b = false → less b c = false → less a c = false)

/-- The documented contract of `sort.Slice`: the slice is permuted so that no
later element is `less` than an earlier one. Equal elements may end up in any
order. -/
def SortSliceSpec (sortSlice : (Nat → Nat → Bool) → List Nat → List Nat) : Prop :=
  ∀ less l, StrictWeakOrder less →
    (sortSlice less l).Perm l ∧ (sortSlice less l).Pairwise (fun a b => less b a = false)

/-- A sort that keeps the elements `less` does not separate in their
original order (what `sort.SliceStable` promises and `sort.Slice` does not). -/
def StableSort (sortSlice : (Nat → Nat → Bool) → List Nat → List Nat) : Prop :=
  ∀ less l a b, StrictWeakOrder less → List.Sublist [a, b] l →
    less a b = false → less b a = false → List.Sublist [a, b] (sortSlice less l)

/-- Insertion sort, the algorithm `sort.Slice` runs on slices of at most 12
elements: a stable instance of `SortSliceSpec`. -/
def insertionSortSlice (less : Nat → Nat → Bool) (l : List Nat) : List Nat :=
  l.insertionSort (fun a b => less b a = false)

/-- An instance of `SortSliceSpec` that is not stable: it sorts the reversed
slice, so equal elements come out in decreasing order of position. -/
def reversingSortSlice (less : Nat → Nat → Bool) (l : List Nat) : List Nat :=
  l.reverse.insertionSort (fun a b => less b a = false)

/-- The token the decode loop selects from a logits vector (lines 123 and
134): `idx[0]` of `topK(softmax(l), 5)`; `none` when that expression panics. -/
def selectToken {α : Type} [LinearOrderedField α] (exp : α → α)
    (sortSlice : (Nat → Nat → Bool) → List Nat → List Nat) (l : List α) : Option Int :=
  match softmax exp l with
  | .error _ => none
  | .ok p =>
    match topK sortSlice p 5 with
    | .error _ => none
    | .ok (idx, _) => idx.head?.map Int.ofNat

/-- A computable function on the rationals with the order properties of the
exponential (positive, strictly increasing, `1` at `0`), to run the sampler
on concrete inputs. -/
def expQ (x : ℚ) : ℚ := if x < 0 then 1 / (1 - x) else 1 + x

/-- A computable stand-in for `float32(math.Exp(float64(x)))` that has its
rounding at `0`: float32 has no value between `1 - 2^-24` and `1`, so the
exponential of every `x` with `-2^-26 ≤ x ≤ 0` is rounded to `1`. Elsewhere it
is `expQ`. It is non-negative, monotone and `1` at `0`, and not strictly
increasing. -/
def roundedExp (x : ℚ) : ℚ := if -(1 / 2 ^ 26) ≤ x ∧ x ≤ 0 then 1 else expQ x

/-- The float32 value nearest to the rational `x` (IEEE 754 binary32, round
to nearest, ties to even): with `2^e ≤ |x| < 2^(e+1)`, and `e` at least `-126`,
the float32 values around `x` are the multiples of `2^(e-23)`. Overflow to an
infinity, beyond the largest float32, is outside the model. -/
def roundFloat32 (x : ℚ) : ℚ :=
  let e : Int := max (Int.log 2 |x|) (-126)
  let ulp : ℚ := (2 : ℚ) ^ (e - 23)
  let q : ℚ := x / ulp
  let n : Int := ⌊q⌋
  if q - n < 1 / 2 then n * ulp
  else if 1 / 2 < q - n then (n + 1) * ulp
  else if n % 2 = 0 then n * ulp
  else (n + 1) * ulp

/-- Go's `+` on two float32 values: the exact sum, rounded. -/
def addFloat32 (x y : ℚ) : ℚ := roundFloat32 (x + y)

/-! ## Tensors and the onnxruntime collaborator -/

/-- The payload of an `ort.Tensor[int64]` or of an `ort.Tensor[float32]`. -/
inductive TensorData (α : Type) where
  | int64 (d : List Int)
  | float32 (d : List α)

/-- An onnxruntime tensor: its shape and its backing data. -/
structure Tensor (α : Type) where
  shape : List Int
  data : TensorData α

/-- Number of elements of a tensor of the given shape. -/
def flattenedSize (shape : List Int) : Nat :=
  (shape.foldl (fun a d => a * d) 1).toNat

/-- Everything the decode loop does to the runtime. An `ort.Value` is the
index of its tensor in `tensors` (tensors are never removed: `destroyed`
logs the `Destroy` calls, oldest first). `runs` logs the forward passes with
the named inputs and outputs bound to each. -/
structure World (α : Type) where
  tensors : List (Tensor α)
  destroyed : List Nat
  bindings : Nat
  bindingsDestroyed : Nat
  runs : List (List (String × Nat) × List (String × Nat))

/-- The collaborators the source calls and does not define. `exp` is
`float32(math.Exp(float64(x)))`, `sortSlice` is `sort.Slice`; the other fields
say when an onnxruntime call fails (`some err`) and what a forward pass
writes: `runWithBinding w ins outs = .ok fill` puts `fill i j` into element
`j` of the `i`-th bound output. Every oracle sees the whole `World`, hence the
history of the call. `makeLimit` is the largest number of elements
`make([]int64, ...)` accepts: Go's runtime panics (`makeslice: len out of
range`, `makeslice: cap out of range`) on a negative size and on one whose
memory exceeds its platform limit. -/
structure Env (α : Type) where
  exp : α → α
  sortSlice : (Nat → Nat → Bool) → List Nat → List Nat
  makeLimit : Nat
  newTensor : World α → List Int → List Int → Option String
  newEmptyTensor : World α → List Int → Option String
  createIoBinding : World α → Option String
  bindInput : World α → String → Nat → Option String
  bindOutput : World α → String → Nat → Option String
  runWithBinding : World α → List (String × Nat) → List (String × Nat) →
    Except String (Nat → Nat → α)

/-- A runtime in which nothing has been created yet. -/
def World.empty {α : Type} : World α := ⟨[], [], 0, 0, []⟩

/-- Registers a new tensor and returns its value. -/
def World.alloc {α : Type} (w : World α) (t : Tensor α) : Nat × World α :=
  (w.tensors.length, { w with tensors := w.tensors ++ [t] })

/-- `ort.NewTensor[int64](shape, data)` with its error checked. -/
def newTensor {α : Type} (e : Env α) (shape data : List Int) (w : World α) :
    Except Fault Nat × World α :=
  match e.newTensor w shape data with
  | some err => (.error (.error err), w)
  | none =>
    let r := w.alloc ⟨shape, .int64 data⟩
    (.ok r.1, r.2)

/-- `ort.NewEmptyTensor[float32](shape)` where the source discards the
error (lines 226, 227, 284, 285): the allocation is taken to succeed, and the
tensor is zero-filled. -/
def emptyTensor {α : Type} [LinearOrderedField α] (shape : List Int) (w : World α) :
    Nat × World α :=
  w.alloc ⟨shape, .float32 (List.replicate (flattenedSize shape) 0)⟩

/-- `ort.NewEmptyTensor[float32](shape)` with its error checked (line 273). -/
def newEmptyTensor {α : Type} [LinearOrderedField α] (e : Env α) (shape : List Int)
    (w : World α) : Except Fault Nat × World α :=
  match e.newEmptyTensor w shape with
  | some err => (.error (.error err), w)
  | none =>
    let r := emptyTensor shape w
    (.ok r.1, r.2)

/-- `v.Destroy()`, its error discarded as everywhere in the source. -/
def destroy {α : Type} (v : Nat) (w : World α) : World α :=
  { w with destroyed := w.destroyed ++ [v] }

/-- Function `destroyValues` (lines 215-219). -/
def destroyValues {α : Type} (values : List Nat) (w : World α) : World α :=
  values.foldl (fun w v => destroy v w) w

/-- The loop shared by `emptyCache` (lines 225-230) and `initOutputs` (lines
283-288): `n` times, a key tensor and a value tensor of the given shape are
created and appended to `values`. -/
def appendLayers {α : Type} [LinearOrderedField α] (shape : List Int) :
    Nat → List Nat → World α → List Nat × World α
  | 0, values, w => (values, w)
  | n + 1, values, w =>
    let k := emptyTensor shape w
    let v := emptyTensor shape k.2
    appendLayers shape n (values ++ [k.1, v.1]) v.2

/-- Function `emptyCache` (lines 221-233). -/
def emptyCache {α : Type} [LinearOrderedField α] (w : World α) : List Nat × World α :=
  appendLayers [1, (nHeads : Int), 0, (headDim : Int)] nLayers [] w

/-- Function `initInputs` (lines 235-268). `position + 1` is an int64 sum
(lines 252 and 253), and `make([]int64, position+1)` panics when it is
negative or beyond the limit of the runtime, after the token and the position
tensors were created. -/
def initInputs {α : Type} (e : Env α) (token position : Int) (w : World α) :
    Except Fault (List Nat) × World α :=
  match newTensor e [1, 1] [token] w with
  | (.error f, w) => (.error f, w)
  | (.ok tokens, w) =>
    match newTensor e [1, 1] [position] w with
    | (.error f, w) => (.error f, w)
    | (.ok positions, w) =>
      let n := wrapInt64 (position + 1)
      if n < 0 ∨ (e.makeLimit : Int) < n then
        (.error (.panic "makeslice: len out of range"), w)
      else
        let maskData : List Int := List.replicate n.toNat 1
        let maskShape : List Int := [1, n]
        match newTensor e maskShape maskData w with
        | (.error f, w) => (.error f, w)
        | (.ok attentionMask, w) => (.ok [tokens, positions, attentionMask], w)

/-- Function `initOutputs` (lines 270-291); `position + 1` is an int64 sum
(line 281). -/
def initOutputs {α : Type} [LinearOrderedField α] (e : Env α) (position : Int)
    (w : World α) : Except Fault (List Nat) × World α :=
  match newEmptyTensor e [1, 1, (vocabSize : Int)] w with
  | (.error f, w) => (.error f, w)
  | (.ok logits, w) =>
    let r := appendLayers [1, (nHeads : Int), wrapInt64 (position + 1), (headDim : Int)]
      nLayers [logits] w
    (.ok r.1, r.2)

/-- The struct `Model` (lines 22-28); its session is the `Env`. -/
structure Model where
  name : String
  deviceID : String
  inputNames : List String
  outputNames : List String

/-- Function `NewModel` (lines 30-35). -/
def NewModel (name deviceID : String) : Model := ⟨name, deviceID, [], []⟩

/-- The name lists built by `Init` (lines 54-63): the three fixed inputs and
`logits`, then a key and a value name for each layer. -/
def initNames : Nat → List String × List String → List String × List String
  | 0, acc => acc
  | n + 1, acc =>
    let i := nLayers - (n + 1)
    initNames n
      (acc.1 ++ ["past_key_values." ++ toString i ++ ".key",
                 "past_key_values." ++ toString i ++ ".value"],
       acc.2 ++ ["present." ++ toString i ++ ".key",
                 "present." ++ toString i ++ ".value"])

/-- Method `Init` (lines 47-87), as far as the model goes: the name lists. Setting
up the onnxruntime environment and the session is the collaborator's work. -/
def Model.Init (m : Model) : Model :=
  let names := initNames nLayers (["input_ids", "position_ids", "attention_mask"], ["logits"])
  { m with inputNames := names.1, outputNames := names.2 }

/-- The loops at lines 182-186 and 200-204: bind each name to its value, stop
at the first failure. -/
def bindAll {α : Type} (bind : World α → String → Nat → Option String) (w : World α) :
    List (String × Nat) → Option String
  | [] => none
  | (name, v) :: rest =>
    match bind w name v with
    | some err => some err
    | none => bindAll bind w rest

/-- The data an `ort.Tensor[float32]` holds; `none` for a value that is not
such a tensor. -/
def getData {α : Type} (w : World α) (v : Nat) : Option (List α) :=
  match w.tensors[v]? with
  | some ⟨_, .float32 d⟩ => some d
  | _ => none

/-- A forward pass fills the bound output number `i`, element by element,
with `fill i`. -/
def writeOutputs {α : Type} (fill : Nat → Nat → α) :
    Nat → List (String × Nat) → List (Tensor α) → List (Tensor α)
  | _, [], ts => ts
  | i, (_, v) :: rest, ts =>
    match ts[v]? with
    | none => writeOutputs fill (i + 1) rest ts
    | some t =>
      writeOutputs fill (i + 1) rest
        (ts.set v { t with data := .float32 ((List.range (flattenedSize t.shape)).map (fill i)) })

/-- The effect of a successful `RunWithBinding`: the outputs are written and
the pass is logged. -/
def World.run {α : Type} (w : World α) (ins outs : List (String × Nat))
    (fill : Nat → Nat → α) : World α :=
  { w with tensors := writeOutputs fill 0 outs w.tensors, runs := w.runs ++ [(ins, outs)] }

/-- The deferred `binding.Destroy()` of line 156. -/
def destroyBinding {α : Type} (w : World α) : World α :=
  { w with bindingsDestroyed := w.bindingsDestroyed + 1 }

/-- Method `forward` (lines 148-213). The deferred calls run in reverse order
of registration on every exit: the outputs are destroyed when `ok` is false
(registered at line 190, after the inputs are bound), then the three tensors
of `initInputs` (line 168), then the binding (line 156). -/
def Model.forward {α : Type} [LinearOrderedField α] (e : Env α) (m : Model)
    (token position : Int) (cacheValues : List Nat) (w : World α) :
    Except Fault (List Nat) × World α :=
  match e.createIoBinding w with
  | some err => (.error (.error err), w)
  | none =>
    let w := { w with bindings := w.bindings + 1 }
    match initInputs e token position w with
    | (.error f, w) => (.error f, destroyBinding w)
    | (.ok created, w) =>
      match initOutputs e position w with
      | (.error f, w) => (.error f, destroyBinding (destroyValues created w))
      | (.ok outputs, w) =>
        let inputs := created ++ cacheValues
        if inputs.length ≠ m.inputNames.length then
          (.error (.panic "unexpected input length"), destroyBinding (destroyValues created w))
        else
          match bindAll e.bindInput w (m.inputNames.zip inputs) with
          | some err => (.error (.error err), destroyBinding (destroyValues created w))
          | none =>
            if outputs.length ≠ m.outputNames.length then
              (.error (.panic "unexpected output length"),
                destroyBinding (destroyValues created (destroyValues outputs w)))
            else
              match bindAll e.bindOutput w (m.outputNames.zip outputs) with
              | some err =>
                (.error (.error err),
                  destroyBinding (destroyValues created (destroyValues outputs w)))
              | none =>
                match e.runWithBinding w (m.inputNames.zip inputs)
                    (m.outputNames.zip outputs) with
                | .error err =>
                  (.error (.error err),
                    destroyBinding (destroyValues created (destroyValues outputs w)))
                | .ok fill =>
                  (.ok outputs,
                    destroyBinding (destroyValues created
                      (w.run (m.inputNames.zip inputs) (m.outputNames.zip outputs) fill)))

/-- The variables of `Generate` that change from one iteration to the next,
with the caller's logits history (`none` for a nil pointer) and the runtime. -/
structure LoopState (α : Type) where
  token : Int
  out : List Int
  cacheValues : List Nat
  logits : Option (List (List α))
  world : World α

/-- One iteration of the loop of `Generate` (lines 111-142) for the given
`step`: the fault that ends the call there, if any, and the variables after
it. -/
def Model.Generate.body {α : Type} [LinearOrderedField α] (e : Env α) (m : Model)
    (prompt : List Int) (step : Nat) (st : LoopState α) : Option Fault × LoopState α :=
  match m.forward e st.token step st.cacheValues st.world with
  | (.error f, w) => (some f, { st with world := w })
  | (.ok [], w) => (some (.panic "index out of range [0]"), { st with world := w })
  | (.ok (o :: rest), w) =>
    match getData w o with
    | none => (some (.panic "interface conversion"), { st with world := w })
    | some l =>
      let logits := st.logits.map (fun h => h ++ [l])
      match softmax e.exp l with
      | .error f => (some f, { st with logits := logits, world := w })
      | .ok p =>
        match topK e.sortSlice p 5 with
        | .error f => (some f, { st with logits := logits, world := w })
        | .ok (idx, _) =>
          let next : Except Fault (Int × List Int) :=
            if (step : Int) < (prompt.length : Int) - 1 then
              match prompt[step + 1]? with
              | none => .error (.panic "index out of range")
              | some t => .ok (t, st.out)
            else
              match idx with
              | [] => .error (.panic "index out of range [0]")
              | i :: _ => .ok ((i : Int), st.out ++ [(i : Int)])
          match next with
          | .error f => (some f, { st with logits := logits, world := w })
          | .ok (token, out) =>
            (none, { token := token, out := out, cacheValues := rest, logits := logits,
                     world := destroyValues st.cacheValues (destroy o w) })

/-- The loop of `Generate` (line 110): `n` more iterations from `step`, unless
one of them ends the call. -/
def Model.Generate.loop {α : Type} [LinearOrderedField α] (e : Env α) (m : Model)
    (prompt : List Int) : Nat → Nat → LoopState α → Option Fault × LoopState α
  | 0, _, st => (none, st)
  | n + 1, step, st =>
    match Model.Generate.body e m prompt step st with
    | (some f, st) => (some f, st)
    | (none, st) => Model.Generate.loop e m prompt n (step + 1) st

/-- What a call of `Generate` leaves behind: the returned tokens or the
fault, the caller's logits history, and the runtime. -/
structure GenerateResult (α : Type) where
  result : Except Fault (List Int)
  logits : Option (List (List α))
  world : World α

/-- Method `Generate` (lines 93-146); `steps` is an int64. The capacity
`steps + 1` (line 108) and the loop bound `context + steps` (line 110) are
int64 sums: `make` panics when the capacity is negative or beyond the limit of
the runtime, and a range over a bound that is not positive has no iteration.
`out[:steps]` (line 145) is a reslice within the capacity of `out`, which
`append` never outgrows (at most `steps + 1` tokens are appended): it panics
for a negative `steps`, and the entries beyond `len(out)` are the zeros of
`make`. The deferred `destroyValues(cacheValues)` of lines 102-104 runs on
every exit after line 100, with the cache current at that moment. -/
def Model.Generate {α : Type} [LinearOrderedField α] (e : Env α) (m : Model)
    (prompt : List Int) (steps : Int) (logits : Option (List (List α))) (w : World α) :
    GenerateResult α :=
  match prompt with
  | [] => ⟨.error (.error "empty prompt"), logits, w⟩
  | token :: _ =>
    let context : Int := prompt.length
    let cache := emptyCache w
    let cap := wrapInt64 (steps + 1)
    if cap < 0 ∨ (e.makeLimit : Int) < cap then
      ⟨.error (.panic "makeslice: cap out of range"), logits, destroyValues cache.1 cache.2⟩
    else
      match Model.Generate.loop e m prompt (wrapInt64 (context + steps)).toNat 0
          ⟨token, [], cache.1, logits, cache.2⟩ with
      | (some f, st) => ⟨.error f, st.logits, destroyValues st.cacheValues st.world⟩
      | (none, st) =>
        if steps < 0 ∨ cap < steps then
          ⟨.error (.panic "slice bounds out of range"), st.logits,
            destroyValues st.cacheValues st.world⟩
        else
          ⟨.ok ((st.out ++ List.replicate (steps.toNat - st.out.length) 0).take steps.toNat),
            st.logits, destroyValues st.cacheValues st.world⟩

/-- The sizes up to `n` fit the machine: `n` is an int64 value and `make`
accepts `n` elements. -/
def Env.Fits {α : Type} (e : Env α) (n : Nat) : Prop :=
  (n : Int) < 2 ^ 63 ∧ n ≤ e.makeLimit

/-- No operation of the runtime fails: tensors and bindings are created,
names are bound and every forward pass succeeds. -/
def Env.NeverFails {α : Type} (e : Env α) : Prop :=
  (∀ w, e.createIoBinding w = none) ∧
  (∀ w shape data, e.newTensor w shape data = none) ∧
  (∀ w shape, e.newEmptyTensor w shape = none) ∧
  (∀ w name v, e.bindInput w name v = none) ∧
  (∀ w name v, e.bindOutput w name v = none) ∧
  (∀ w ins outs, ∃ fill, e.runWithBinding w ins outs = .ok fill)

/-- The zero-filled tensor `NewEmptyTensor` creates. -/
def zeroTensor {α : Type} [LinearOrderedField α] (shape : List Int) : Tensor α :=
  ⟨shape, .float32 (List.replicate (flattenedSize shape) 0)⟩

/-- The 28 tensors a step creates, in order of creation: the token, the
position and the attention mask of `initInputs`, then the logits and the
`2 * nLayers` cache tensors of `initOutputs`. -/
def stepTensors {α : Type} [LinearOrderedField α] (token : Int) (position : Nat) :
    List (Tensor α) :=
  [⟨[1, 1], .int64 [token]⟩, ⟨[1, 1], .int64 [(position : Int)]⟩,
   ⟨[1, (position : Int) + 1], .int64 (List.replicate (position + 1) 1)⟩,
   zeroTensor [1, 1, (vocabSize : Int)]] ++
  List.replicate (2 * nLayers)
    (zeroTensor [1, (nHeads : Int), (position : Int) + 1, (headDim : Int)])

/-- The runtime at the moment a step calls `RunWithBinding`: its binding and
its 28 tensors exist, nothing of the step is destroyed yet. -/
def runWorld {α : Type} [LinearOrderedField α] (token : Int) (position : Nat)
    (w : World α) : World α :=
  { w with bindings := w.bindings + 1, tensors := w.tensors ++ stepTensors token position }

/-- The values a step binds as inputs: its three fresh tensors, then the cache. -/
def stepInputs {α : Type} (w : World α) (cacheValues : List Nat) : List Nat :=
  [w.tensors.length, w.tensors.length + 1, w.tensors.length + 2] ++ cacheValues

/-- The values a step binds as outputs: the logits, then the new cache. -/
def stepOutputs {α : Type} (w : World α) : List Nat :=
  List.range' (w.tensors.length + 3) (1 + 2 * nLayers)

/-- The logits vector read at line 117 after a pass that wrote `fill`. -/
def logitsOf {α : Type} (fill : Nat → Nat → α) : List α :=
  (List.range vocabSize).map (fill 0)

/-- The runtime after a step in which nothing fails: the forward pass has
run and is logged, the deferred calls of `forward` have destroyed its three
input tensors and its binding, and lines 138 and 140 have destroyed the
logits and the previous cache. -/
def afterStep {α : Type} [LinearOrderedField α] (m : Model) (token : Int) (step : Nat)
    (cacheValues : List Nat) (w : World α) (fill : Nat → Nat → α) : World α :=
  destroyValues cacheValues (destroy (w.tensors.length + 3)
    (destroyBinding (destroyValues
      [w.tensors.length, w.tensors.length + 1, w.tensors.length + 2]
      ((runWorld token step w).run (m.inputNames.zip (stepInputs w cacheValues))
        (m.outputNames.zip (stepOutputs w)) fill))))

/-- What the forward pass of a step writes into its outputs (zeros if the
pass fails). -/
def stepFill {α : Type} [LinearOrderedField α] (e : Env α) (m : Model) (step : Nat)
    (st : LoopState α) : Nat → Nat → α :=
  match e.runWithBinding (runWorld st.token step st.world)
      (m.inputNames.zip (stepInputs st.world st.cacheValues))
      (m.outputNames.zip (stepOutputs st.world)) with
  | .ok fill => fill
  | .error _ => fun _ _ => 0

/-- The logits of a step. -/
def stepLogits {α : Type} [LinearOrderedField α] (e : Env α) (m : Model) (step : Nat)
    (st : LoopState α) : List α :=
  logitsOf (stepFill e m step st)

/-- The token selected from a logits vector, `0` if the selection panics. -/
def selected {α : Type} [LinearOrderedField α] (e : Env α) (l : List α) : Int :=
  (selectToken e.exp e.sortSlice l).getD 0

/-- The variables after an iteration in which nothing fails. -/
def nextState {α : Type} [LinearOrderedField α] (e : Env α) (m : Model)
    (prompt : List Int) (step : Nat) (st : LoopState α) : LoopState α :=
  { token := if step + 1 < prompt.length then prompt.getD (step + 1) 0
             else selected e (stepLogits e m step st),
    out := if step + 1 < prompt.length then st.out
           else st.out ++ [selected e (stepLogits e m step st)],
    cacheValues := List.range' (st.world.tensors.length + 4) (2 * nLayers),
    logits := st.logits.map (fun h => h ++ [stepLogits e m step st]),
    world := afterStep m st.token step st.cacheValues st.world (stepFill e m step st) }

/-- The variables after `n` iterations from `step` in which nothing fails. -/
def stateAfter {α : Type} [LinearOrderedField α] (e : Env α) (m : Model)
    (prompt : List Int) : Nat → Nat → LoopState α → LoopState α
  | 0, _, st => st
  | n + 1, step, st => stateAfter e m prompt n (step + 1) (nextState e m prompt step st)

/-- The logits of `n` consecutive steps from `step`, in order. -/
def traceLogits {α : Type} [LinearOrderedField α] (e : Env α) (m : Model)
    (prompt : List Int) : Nat → Nat → LoopState α → List (List α)
  | 0, _, _ => []
  | n + 1, step, st =>
    stepLogits e m step st :: traceLogits e m prompt n (step + 1) (nextState e m prompt step st)

/-- The variables of `Generate` when its loop starts (lines 100-108). -/
def initialState {α : Type} [LinearOrderedField α] (prompt : List Int)
    (logits : Option (List (List α))) (w : World α) : LoopState α :=
  ⟨prompt.headD 0, [], (emptyCache w).1, logits, (emptyCache w).2⟩

/-! ## Concrete collaborators, to run the model -/

/-- A runtime in which nothing fails, with `expQ`, insertion sort, and an
engine that writes the same logits at every step: `1` at index `a` and `0`
elsewhere (the stub engine of the end-to-end scenario). Here and below `make`
accepts `2^45` elements, the `2^48` bytes of Go's runtime on linux/amd64. -/
def constEnv (a : Nat) : Env ℚ where
  exp := expQ
  sortSlice := insertionSortSlice
  makeLimit := 2 ^ 45
  newTensor := fun _ _ _ => none
  newEmptyTensor := fun _ _ => none
  createIoBinding := fun _ => none
  bindInput := fun _ _ _ => none
  bindOutput := fun _ _ _ => none
  runWithBinding := fun _ _ _ => .ok (fun _ j => if j = a then 1 else 0)

/-- Logits with a unique maximum that is within the rounding of `exp`:
`1/10^10` at index `21831` and `0` elsewhere. -/
def tieLogits (j : Nat) : ℚ := if j = 21831 then 1 / 10 ^ 10 else 0

/-- A runtime in which nothing fails, with `roundedExp`, insertion sort, and
an engine that writes the logits `tieLogits` at every step. -/
def tieEnv : Env ℚ where
  exp := roundedExp
  sortSlice := insertionSortSlice
  makeLimit := 2 ^ 45
  newTensor := fun _ _ _ => none
  newEmptyTensor := fun _ _ => none
  createIoBinding := fun _ => none
  bindInput := fun _ _ _ => none
  bindOutput := fun _ _ _ => none
  runWithBinding := fun _ _ _ => .ok (fun _ j => tieLogits j)

/-- The position a forward pass is asked for: the content of the tensor
bound as second input (`position_ids`). -/
def positionOf {α : Type} (w : World α) (ins : List (String × Nat)) : Int :=
  match ins[1]? with
  | none => 0
  | some (_, v) =>
    match w.tensors[v]? with
    | none => 0
    | some t =>
      match t.data with
      | .int64 [p] => p
      | _ => 0

/-- A runtime in which nothing fails and whose engine predicts, at position
`p`, the token `p`: its logits are `1` at index `p` and `0` elsewhere. -/
def positionEnv : Env ℚ where
  exp := expQ
  sortSlice := insertionSortSlice
  makeLimit := 2 ^ 45
  newTensor := fun _ _ _ => none
  newEmptyTensor := fun _ _ => none
  createIoBinding := fun _ => none
  bindInput := fun _ _ _ => none
  bindOutput := fun _ _ _ => none
  runWithBinding := fun w ins _ =>
    .ok (fun _ j => if (j : Int) = positionOf w ins then 1 else 0)

/-- The named inputs and the named outputs a step binds, as `World.run` logs
them. -/
def stepBindings {α : Type} (m : Model) (st : LoopState α) :
    List (String × Nat) × List (String × Nat) :=
  (m.inputNames.zip (stepInputs st.world st.cacheValues),
   m.outputNames.zip (stepOutputs st.world))

/-- A runtime whose engine fails at position `p` and otherwise writes logits
that peak at `21831`; nothing else fails. -/
def failAtEnv (p : Nat) : Env ℚ where
  exp := expQ
  sortSlice := insertionSortSlice
  makeLimit := 2 ^ 45
  newTensor := fun _ _ _ => none
  newEmptyTensor := fun _ _ => none
  createIoBinding := fun _ => none
  bindInput := fun _ _ _ => none
  bindOutput := fun _ _ _ => none
  runWithBinding := fun w ins _ =>
    if positionOf w ins = (p : Int) then .error "forward pass failed"
    else .ok (fun _ j => if j = 21831 then 1 else 0)

/-- A runtime in which `BindInput` fails and nothing else does. -/
def bindInputFailEnv : Env ℚ where
  exp := expQ
  sortSlice := insertionSortSlice
  makeLimit := 2 ^ 45
  newTensor := fun _ _ _ => none
  newEmptyTensor := fun _ _ => none
  createIoBinding := fun _ => none
  bindInput := fun _ _ _ => some "bind input failed"
  bindOutput := fun _ _ _ => none
  runWithBinding := fun _ _ _ => .ok (fun _ j => if j = 21831 then 1 else 0)

/-- A runtime in which `NewTensor` fails for the position tensor of step 0
(the data `[0]`) and nothing else fails. -/
def positionTensorFailEnv : Env ℚ where
  exp := expQ
  sortSlice := insertionSortSlice
  makeLimit := 2 ^ 45
  newTensor := fun _ _ data => if data = [0] then some "new tensor failed" else none
  newEmptyTensor := fun _ _ => none
  createIoBinding := fun _ => none
  bindInput := fun _ _ _ => none
  bindOutput := fun _ _ _ => none
  runWithBinding := fun _ _ _ => .ok (fun _ j => if j = 21831 then 1 else 0)

/-! ## Lemmas: slicesMax and softmax -/

section Sampler

variable {α : Type} [LinearOrderedField α]

theorem le_foldl_max (xs : List α) (x : α) :
    x ≤ xs.foldl max x ∧ ∀ y ∈ xs, y ≤ xs.foldl max x := by
  induction xs generalizing x with
  | nil => simp
  | cons z zs ih =>
    obtain ⟨h1, h2⟩ := ih (max x z)
    refine ⟨le_trans (le_max_left x z) h1, ?_⟩
    intro y hy
    rcases List.mem_cons.mp hy with rfl | hy
    · exact le_trans (le_max_right x y) h1
    · exact h2 y hy

theorem foldl_max_mem (xs : List α) (x : α) :
    xs.foldl max x = x ∨ xs.foldl max x ∈ xs := by
  induction xs generalizing x with
  | nil => simp
  | cons z zs ih =>
    rcases ih (max x z) with h | h
    · rcases max_choice x z with hm | hm
      · left
        rw [List.foldl_cons, h, hm]
      · right
        rw [List.foldl_cons, h, hm]
        exact List.mem_cons_self _ _
    · right; exact List.mem_cons_of_mem _ h

theorem slicesMax_spec (l : List α) (hl : l ≠ []) :
    ∃ m, slicesMax l = some m ∧ m ∈ l ∧ ∀ x ∈ l, x ≤ m := by
  cases l with
  | nil => exact absurd rfl hl
  | cons x xs =>
    refine ⟨xs.foldl max x, rfl, ?_, ?_⟩
    · rcases foldl_max_mem xs x with h | h
      · rw [h]; exact List.mem_cons_self _ _
      · exact List.mem_cons_of_mem _ h
    · intro y hy
      rcases List.mem_cons.mp hy with rfl | hy
      · exact (le_foldl_max xs y).1
      · exact (le_foldl_max xs x).2 y hy

theorem foldl_add_eq_sum (r : List α) (a : α) :
    r.foldl (fun s e => s + e) a = a + r.sum := by
  induction r generalizing a with
  | nil => simp
  | cons x xs ih => simp [List.foldl_cons, ih, add_assoc]

/-- The normaliser `s` of `softmax`. -/
theorem softmax_eq (exp : α → α) (l : List α) (hl : l ≠ []) :
    ∃ m, m ∈ l ∧ (∀ x ∈ l, x ≤ m) ∧
      softmax exp l =
        .ok (l.map (fun v => exp (v - m) / (l.map (fun v => exp (v - m))).sum)) := by
  obtain ⟨m, hm, hmem, hmax⟩ := slicesMax_spec l hl
  refine ⟨m, hmem, hmax, ?_⟩
  simp [softmax, hm, foldl_add_eq_sum, List.map_map, Function.comp_def]

theorem sum_nonneg_of_forall (r : List α) (h : ∀ x ∈ r, 0 ≤ x) : 0 ≤ r.sum := by
  induction r with
  | nil => simp
  | cons x xs ih =>
    simp only [List.sum_cons]
    exact add_nonneg (h x (List.mem_cons_self _ _))
      (ih (fun y hy => h y (List.mem_cons_of_mem _ hy)))

theorem le_sum_of_mem_nonneg (r : List α) (h : ∀ x ∈ r, 0 ≤ x) (y : α) (hy : y ∈ r) :
    y ≤ r.sum := by
  induction r with
  | nil => simp at hy
  | cons x xs ih =>
    simp only [List.sum_cons]
    have hxs : ∀ z ∈ xs, 0 ≤ z := fun z hz => h z (List.mem_cons_of_mem _ hz)
    rcases List.mem_cons.mp hy with rfl | hy
    · have := sum_nonneg_of_forall xs hxs
      linarith
    · have := ih hxs hy
      have := h x (List.mem_cons_self _ _)
      linarith

theorem sum_map_div_const (r : List α) (s : α) :
    (r.map (fun e => e / s)).sum = r.sum / s := by
  induction r with
  | nil => simp
  | cons x xs ih => simp [ih, add_div]

/-! ## Lemmas: sort.Slice and topK -/

theorem topKLess_strictWeakOrder (p : List α) : StrictWeakOrder (topKLess p) := by
  refine ⟨?_, ?_, ?_⟩
  · intro a
    simp [topKLess]
  · intro a b c hab hbc
    simp only [topKLess, decide_eq_true_eq, gt_iff_lt] at *
    exact lt_trans hbc hab
  · intro a b c hab hbc
    simp only [topKLess, decide_eq_false_iff_not, gt_iff_lt, not_lt] at *
    exact le_trans hab hbc

/-- The sorted index slice `idx` of `topK`, under the contract of `sort.Slice`. -/
theorem sortSlice_topK_spec (sortSlice : (Nat → Nat → Bool) → List Nat → List Nat)
    (hs : SortSliceSpec sortSlice) (p : List α) :
    (sortSlice (topKLess p) (List.range p.length)).Perm (List.range p.length) ∧
    (sortSlice (topKLess p) (List.range p.length)).Pairwise
      (fun a b => p.getD b 0 ≤ p.getD a 0) := by
  obtain ⟨h1, h2⟩ := hs (topKLess p) (List.range p.length) (topKLess_strictWeakOrder p)
  refine ⟨h1, h2.imp ?_⟩
  intro a b hab
  simpa [topKLess] using hab

theorem topK_eq (sortSlice : (Nat → Nat → Bool) → List Nat → List Nat)
    (p : List α) (k : Int) (hk : 0 ≤ k) :
    topK sortSlice p k =
      .ok ((sortSlice (topKLess p) (List.range p.length)).take (min k.toNat p.length),
           ((sortSlice (topKLess p) (List.range p.length)).take (min k.toNat p.length)).map
             (fun a => p.getD a 0)) := by
  unfold topK
  by_cases h : k > (p.length : Int)
  · have h1 : ¬ ((p.length : Int) < 0) := by omega
    have h2 : min k.toNat p.length = p.length := by omega
    simp [h, h1, h2]
  · have h1 : ¬ (k < 0) := by omega
    have h2 : min k.toNat p.length = k.toNat := by omega
    simp [h, h1, h2]

theorem pair_sublist_range (a b n : Nat) (hab : a < b) (hb : b < n) :
    List.Sublist [a, b] (List.range n) := by
  have h : List.range n = List.range (a + 1) ++ List.range' (a + 1) (n - (a + 1)) := by
    rw [List.range_eq_range', List.range_eq_range']
    have h0 := List.range'_append_1 0 (a + 1) (n - (a + 1))
    rw [Nat.zero_add] at h0
    rw [h0]
    congr 1
    omega
  rw [h]
  have h1 : List.Sublist [a] (List.range (a + 1)) :=
    List.singleton_sublist.mpr (List.mem_range.mpr (by omega))
  have h2 : List.Sublist [b] (List.range' (a + 1) (n - (a + 1))) :=
    List.singleton_sublist.mpr (List.mem_range'_1.mpr (by omega))
  exact List.Sublist.append h1 h2

theorem nodup_pair_sublist_index (l : List Nat) (hl : l.Nodup) (a b : Nat)
    (h : List.Sublist [a, b] l) (i j : Nat) (hi : l[i]? = some a) (hj : l[j]? = some b) :
    i < j := by
  induction l generalizing i j with
  | nil => simp at hi
  | cons x xs ih =>
    obtain ⟨hx, hxs⟩ := List.nodup_cons.mp hl
    cases h with
    | cons _ h' =>
      have ha : a ∈ xs := h'.subset (by simp)
      have hb : b ∈ xs := h'.subset (by simp)
      cases i with
      | zero =>
        simp at hi
        exact absurd (hi ▸ ha) hx
      | succ i =>
        cases j with
        | zero =>
          simp at hj
          exact absurd (hj ▸ hb) hx
        | succ j =>
          simp at hi hj
          have := ih hxs h' i j hi hj
          omega
    | cons₂ _ h' =>
      have hb : b ∈ xs := h'.subset (by simp)
      cases j with
      | zero =>
        simp at hj
        exact absurd (hj ▸ hb) hx
      | succ j =>
        cases i with
        | zero => omega
        | succ i =>
          simp at hi
          have : a ∈ xs := List.getElem?_mem hi
          exact absurd this hx

theorem insertionSort_spec (less : Nat → Nat → Bool) (h : StrictWeakOrder less)
    (l : List Nat) :
    (l.insertionSort (fun a b => less b a = false)).Perm l ∧
    (l.insertionSort (fun a b => less b a = false)).Pairwise
      (fun a b => less b a = false) := by
  obtain ⟨hirr, htr, hneg⟩ := h
  haveI : IsTotal Nat (fun a b => less b a = false) := by
    constructor
    intro a b
    by_contra hc
    simp only [not_or, Bool.not_eq_false] at hc
    have := htr a b a hc.2 hc.1
    rw [hirr a] at this
    exact Bool.noConfusion this
  haveI : IsTrans Nat (fun a b => less b a = false) := by
    constructor
    intro a b c hab hbc
    exact hneg c b a hbc hab
  exact ⟨List.perm_insertionSort _ l, List.sorted_insertionSort _ l⟩

theorem insertionSortSlice_spec : SortSliceSpec insertionSortSlice := by
  intro less l h
  exact insertionSort_spec less h l

theorem insertionSortSlice_stable : StableSort insertionSortSlice := by
  intro less l a b _ hsub _ hba
  exact List.pair_sublist_insertionSort hba hsub

theorem reversingSortSlice_spec : SortSliceSpec reversingSortSlice := by
  intro less l h
  obtain ⟨h1, h2⟩ := insertionSort_spec less h l.reverse
  exact ⟨h1.trans (List.reverse_perm l), h2⟩

/-! ## Claims about topK -/

/-- Ranking: for every vector `p` and every `k ≥ 0`, `topK p k` returns
`min k n` distinct indices and as many probabilities, with
`topP[i] = p[topIdx[i]]` for every `i`, the probabilities are in
non-increasing order (`topP[i+1] ≤ topP[i]` for every consecutive pair), and
every index that is not returned has a probability at most every returned
one, the last in particular. -/
theorem topK_ranked_aux (sortSlice : (Nat → Nat → Bool) → List Nat → List Nat)
    (hs : SortSliceSpec sortSlice) (p : List α) (k : Int) (hk : 0 ≤ k) :
    ∃ topIdx topP, topK sortSlice p k = .ok (topIdx, topP) ∧
      topIdx.length = min k.toNat p.length ∧
      topP.length = min k.toNat p.length ∧
      topIdx.Nodup ∧
      topP.length = topIdx.length ∧
      (∀ a ∈ topIdx, a < p.length) ∧
      (∀ i (hi : i < topIdx.length) (hp : i < topP.length) (ha : topIdx[i] < p.length),
        topP[i] = p[topIdx[i]]) ∧
      (∀ i (h : i + 1 < topP.length), topP[i + 1] ≤ topP[i]) ∧
      (∀ j (hj : j < p.length), j ∉ topIdx → ∀ x ∈ topP, p[j] ≤ x) ∧
      (∀ j (hj : j < p.length), j ∉ topIdx →
        ∀ x, topP.getLast? = some x → p[j] ≤ x) := by
  obtain ⟨hperm, hsorted⟩ := sortSlice_topK_spec sortSlice hs p
  have hlen : (sortSlice (topKLess p) (List.range p.length)).length = p.length := by
    rw [hperm.length_eq, List.length_range]
  have hrank : ∀ j (hj : j < p.length),
      j ∉ (sortSlice (topKLess p) (List.range p.length)).take (min k.toNat p.length) →
      ∀ x ∈ ((sortSlice (topKLess p) (List.range p.length)).take
        (min k.toNat p.length)).map (fun a => p.getD a 0), p[j] ≤ x := by
    intro j hj hnot x hxmem
    have hjmem : j ∈ sortSlice (topKLess p) (List.range p.length) :=
      hperm.mem_iff.mpr (List.mem_range.mpr hj)
    rw [← List.take_append_drop (min k.toNat p.length)
      (sortSlice (topKLess p) (List.range p.length))] at hjmem hsorted
    have hjdrop := (List.mem_append.mp hjmem).resolve_left hnot
    obtain ⟨a, ha, rfl⟩ := List.mem_map.mp hxmem
    have := (List.pairwise_append.mp hsorted).2.2 a ha j hjdrop
    rwa [List.getD_eq_getElem _ _ hj] at this
  refine ⟨_, _, topK_eq sortSlice p k hk, ?_, ?_, ?_, ?_, ?_, ?_, ?_, hrank, ?_⟩
  · rw [List.length_take, hlen]
    omega
  · rw [List.length_map, List.length_take, hlen]
    omega
  · exact (hperm.nodup_iff.mpr (List.nodup_range _)).sublist (List.take_sublist _ _)
  · simp
  · intro a ha
    have := hperm.mem_iff.mp (List.mem_of_mem_take ha)
    exact List.mem_range.mp this
  · intro i hi hp ha
    rw [List.getElem_map, List.getD_eq_getElem _ _ ha]
  · intro i h
    have hs2 : (((sortSlice (topKLess p) (List.range p.length)).take
        (min k.toNat p.length)).map (fun a => p.getD a 0)).Pairwise (fun x y => y ≤ x) := by
      rw [List.pairwise_map]
      exact hsorted.sublist (List.take_sublist _ _)
    exact (List.pairwise_iff_getElem.mp hs2) i (i + 1) (by omega) h (by omega)
  · intro j hj hnot x hx
    exact hrank j hj hnot x (List.mem_of_getLast?_eq_some hx)

/-- Indices: for every vector `p` of length `n` and every `k ≥ 0`, `topK p k`
returns (without a panic) exactly `min k n` pairwise distinct indices, each
below `n`; when `k` is at least `n` the returned indices are a permutation of
`0..n-1`. -/
theorem topK_indices_aux (sortSlice : (Nat → Nat → Bool) → List Nat → List Nat)
    (hs : SortSliceSpec sortSlice) (p : List α) (k : Int) (hk : 0 ≤ k) :
    ∃ topIdx topP, topK sortSlice p k = .ok (topIdx, topP) ∧
      topIdx.length = min k.toNat p.length ∧
      topIdx.Nodup ∧
      (∀ a ∈ topIdx, a < p.length) ∧
      ((p.length : Int) ≤ k → topIdx.Perm (List.range p.length)) := by
  obtain ⟨hperm, -⟩ := sortSlice_topK_spec sortSlice hs p
  have hlen : (sortSlice (topKLess p) (List.range p.length)).length = p.length := by
    rw [hperm.length_eq, List.length_range]
  refine ⟨_, _, topK_eq sortSlice p k hk, ?_, ?_, ?_, ?_⟩
  · rw [List.length_take, hlen]
    omega
  · exact (hperm.nodup_iff.mpr (List.nodup_range _)).sublist (List.take_sublist _ _)
  · intro a ha
    exact List.mem_range.mp (hperm.mem_iff.mp (List.mem_of_mem_take ha))
  · intro hle
    have h2 : min k.toNat p.length = p.length := by omega
    rw [h2, List.take_of_length_le (le_of_eq hlen)]
    exact hperm

theorem stable_ties_index (sortSlice : (Nat → Nat → Bool) → List Nat → List Nat)
    (hs : SortSliceSpec sortSlice) (hst : StableSort sortSlice) (p : List α)
    (i j a b : Nat) (hij : i < j)
    (hi : (sortSlice (topKLess p) (List.range p.length))[i]? = some a)
    (hj : (sortSlice (topKLess p) (List.range p.length))[j]? = some b)
    (htie : p.getD a 0 = p.getD b 0) : a < b := by
  obtain ⟨hperm, -⟩ := sortSlice_topK_spec sortSlice hs p
  have hnodup := hperm.nodup_iff.mpr (List.nodup_range _)
  have ha : a < p.length := List.mem_range.mp (hperm.mem_iff.mp (List.getElem?_mem hi))
  by_contra hlt
  have hne : a ≠ b := by
    rintro rfl
    obtain ⟨hi', hia⟩ := List.getElem?_eq_some.mp hi
    obtain ⟨hj', hjb⟩ := List.getElem?_eq_some.mp hj
    have := (List.Nodup.getElem_inj_iff hnodup).mp (hia.trans hjb.symm)
    omega
  have hba : b < a := by omega
  have hsub := hst (topKLess p) (List.range p.length) b a (topKLess_strictWeakOrder p)
    (pair_sublist_range b a p.length hba ha) (by unfold topKLess; rw [htie]; simp) (by unfold topKLess; rw [htie]; simp)
  have := nodup_pair_sublist_index _ hnodup b a hsub j i hj hi
  omega

/-- Ties: `topK` leaves ties in the order `sort.Slice` leaves them,
which its contract does not fix: two returned candidates are always distinct
indices and `idx[0]` is some index of maximal probability; the candidates of
equal probability are in increasing index order, and `idx[0]` is the smallest
index of maximal probability, whenever the sort is stable. -/
theorem topK_ties_aux (sortSlice : (Nat → Nat → Bool) → List Nat → List Nat)
    (hs : SortSliceSpec sortSlice) (p : List α) (k : Int) (hk : 0 ≤ k) :
    ∃ topIdx topP, topK sortSlice p k = .ok (topIdx, topP) ∧
      (∀ i j a b : Nat, i < j → topIdx[i]? = some a → topIdx[j]? = some b → a ≠ b) ∧
      (∀ t, topIdx[0]? = some t →
        t < p.length ∧ ∀ c, c < p.length → p.getD c 0 ≤ p.getD t 0) ∧
      (StableSort sortSlice →
        (∀ i j a b : Nat, i < j → topIdx[i]? = some a → topIdx[j]? = some b →
          p.getD a 0 = p.getD b 0 → a < b) ∧
        (∀ t, topIdx[0]? = some t →
          ∀ c, c < p.length → p.getD c 0 = p.getD t 0 → t ≤ c)) := by
  obtain ⟨hperm, hsorted⟩ := sortSlice_topK_spec sortSlice hs p
  have hnodup := hperm.nodup_iff.mpr (List.nodup_range _)
  have htake : ∀ (i a : Nat), ((sortSlice (topKLess p) (List.range p.length)).take
      (min k.toNat p.length))[i]? = some a →
      (sortSlice (topKLess p) (List.range p.length))[i]? = some a := by
    intro i a h
    rw [List.getElem?_take] at h
    split at h
    · exact h
    · exact absurd h (by simp)
  refine ⟨_, _, topK_eq sortSlice p k hk, ?_, ?_, ?_⟩
  · intro i j a b hij hi hj hab
    subst hab
    obtain ⟨hi', hia⟩ := List.getElem?_eq_some.mp (htake i a hi)
    obtain ⟨hj', hjb⟩ := List.getElem?_eq_some.mp (htake j a hj)
    have := (List.Nodup.getElem_inj_iff hnodup).mp (hia.trans hjb.symm)
    omega
  · intro t ht
    have ht0 := htake 0 t ht
    have htmem := hperm.mem_iff.mp (List.getElem?_mem ht0)
    refine ⟨List.mem_range.mp htmem, ?_⟩
    intro c hc
    have hcmem := hperm.mem_iff.mpr (List.mem_range.mpr hc)
    obtain ⟨j, hj⟩ := List.mem_iff_getElem?.mp hcmem
    obtain ⟨h0', h0⟩ := List.getElem?_eq_some.mp ht0
    obtain ⟨hj', hjc⟩ := List.getElem?_eq_some.mp hj
    rcases Nat.eq_zero_or_pos j with rfl | hpos
    · have : c = t := hjc.symm.trans h0
      rw [this]
    · have := (List.pairwise_iff_getElem.mp hsorted) 0 j h0' hj' hpos
      rwa [h0, hjc] at this
  · intro hst
    refine ⟨?_, ?_⟩
    · intro i j a b hij hi hj htie
      exact stable_ties_index sortSlice hs hst p i j a b hij (htake i a hi) (htake j b hj) htie
    · intro t ht c hc htie
      have ht0 := htake 0 t ht
      have hcmem := hperm.mem_iff.mpr (List.mem_range.mpr hc)
      obtain ⟨j, hj⟩ := List.mem_iff_getElem?.mp hcmem
      rcases Nat.eq_zero_or_pos j with rfl | hpos
      · have : some c = some t := hj.symm.trans ht0
        exact le_of_eq (Option.some.inj this).symm
      · exact le_of_lt (stable_ties_index sortSlice hs hst p 0 j t c hpos ht0 hj htie.symm)

theorem sum_pos_of_forall_pos (r : List α) (hr : r ≠ []) (h : ∀ x ∈ r, 0 < x) :
    0 < r.sum := by
  cases r with
  | nil => exact absurd rfl hr
  | cons x xs =>
    have h1 := h x (List.mem_cons_self _ _)
    have h2 := le_sum_of_mem_nonneg (x :: xs) (fun y hy => le_of_lt (h y hy)) x
      (List.mem_cons_self _ _)
    exact lt_of_lt_of_le h1 h2

/-- The first element of the sorted index slice is returned as `idx[0]` by
`topK` for every `k ≥ 1`, and has maximal probability. -/
theorem topK_head (sortSlice : (Nat → Nat → Bool) → List Nat → List Nat)
    (hs : SortSliceSpec sortSlice) (p : List α) (hp : p ≠ []) :
    ∃ (t : Nat) (rest : List Nat), t < p.length ∧
      (∀ c, c < p.length → p.getD c 0 ≤ p.getD t 0) ∧
      ∀ k : Int, 1 ≤ k →
        topK sortSlice p k =
          .ok (t :: rest.take (min k.toNat p.length - 1),
               (t :: rest.take (min k.toNat p.length - 1)).map (fun a => p.getD a 0)) := by
  obtain ⟨hperm, hsorted⟩ := sortSlice_topK_spec sortSlice hs p
  have hlpos : 0 < p.length := List.length_pos.mpr hp
  have hlen : (sortSlice (topKLess p) (List.range p.length)).length = p.length := by
    rw [hperm.length_eq, List.length_range]
  cases hidx : sortSlice (topKLess p) (List.range p.length) with
  | nil =>
    rw [hidx] at hlen
    simp at hlen
    omega
  | cons t rest =>
    rw [hidx] at hperm hsorted
    refine ⟨t, rest, ?_, ?_, ?_⟩
    · exact List.mem_range.mp (hperm.mem_iff.mp (List.mem_cons_self _ _))
    · intro c hc
      have hcmem := hperm.mem_iff.mpr (List.mem_range.mpr hc)
      rcases List.mem_cons.mp hcmem with rfl | hcr
      · exact le_refl _
      · exact (List.pairwise_cons.mp hsorted).1 c hcr
    · intro k hk1
      have hmin : min k.toNat p.length = (min k.toNat p.length - 1) + 1 := by omega
      rw [topK_eq sortSlice p k (by omega), hidx]
      conv_lhs => rw [hmin, List.take_succ_cons]

/-- The sampling expression of the decode loop never panics on a non-empty
logits vector, and its first candidate has maximal probability. -/
theorem sample_ok (exp : α → α) (sortSlice : (Nat → Nat → Bool) → List Nat → List Nat)
    (hs : SortSliceSpec sortSlice) (l : List α) (hl : l ≠ []) :
    ∃ m p t rest topP, m ∈ l ∧
      p = l.map (fun v => exp (v - m) / (l.map (fun v => exp (v - m))).sum) ∧
      softmax exp l = .ok p ∧
      topK sortSlice p 5 = .ok (t :: rest, topP) ∧
      selectToken exp sortSlice l = some (t : Int) ∧ t < l.length ∧
      (∀ c, c < l.length → p.getD c 0 ≤ p.getD t 0) ∧
      (∀ k : Int, 1 ≤ k → ∃ rest' topP', topK sortSlice p k = .ok (t :: rest', topP')) := by
  obtain ⟨m, hm, -, hsm⟩ := softmax_eq exp l hl
  have hpl : (l.map (fun v => exp (v - m) / (l.map (fun v => exp (v - m))).sum)).length
      = l.length := by simp
  have hpne : l.map (fun v => exp (v - m) / (l.map (fun v => exp (v - m))).sum) ≠ [] := by
    simpa using hl
  obtain ⟨t, rest, htl, hmax, hk⟩ := topK_head sortSlice hs _ hpne
  rw [hpl] at htl
  refine ⟨m, _, t, _, _, hm, rfl, hsm, hk 5 (by decide), ?_, htl, ?_, ?_⟩
  · simp [selectToken, hsm, hk 5 (by decide)]
  · intro c hc
    exact hmax c (by rw [hpl]; exact hc)
  · intro k hk1
    exact ⟨_, _, hk k hk1⟩

/-- With a positive, strictly increasing `exp`, a probability that is
maximal belongs to a logit that is maximal. -/
theorem softmax_order (exp : α → α) (hpos : ∀ x, 0 < exp x) (hmono : StrictMono exp)
    (l : List α) (m : α) (c t : Nat) (hc : c < l.length) (ht : t < l.length)
    (h : (l.map (fun v => exp (v - m) / (l.map (fun v => exp (v - m))).sum)).getD c 0 ≤
         (l.map (fun v => exp (v - m) / (l.map (fun v => exp (v - m))).sum)).getD t 0) :
    l[c] ≤ l[t] := by
  have hl : l ≠ [] := by
    intro h0
    rw [h0] at hc
    simp at hc
  have hS : 0 < (l.map (fun v => exp (v - m))).sum := by
    apply sum_pos_of_forall_pos
    · simpa using hl
    · intro x hx
      obtain ⟨v, -, rfl⟩ := List.mem_map.mp hx
      exact hpos _
  rw [List.getD_eq_getElem _ _ (by simpa using hc),
    List.getD_eq_getElem _ _ (by simpa using ht), List.getElem_map, List.getElem_map,
    div_le_div_iff_of_pos_right hS, hmono.le_iff_le] at h
  linarith

/-- A logits vector with a strict maximum at `a`: `a` is the selected token. -/
theorem selectToken_unique_max (exp : α → α)
    (sortSlice : (Nat → Nat → Bool) → List Nat → List Nat)
    (hs : SortSliceSpec sortSlice) (hpos : ∀ x, 0 < exp x) (hmono : StrictMono exp)
    (l : List α) (a : Nat) (ha : a < l.length)
    (hmax : ∀ j (hj : j < l.length), j ≠ a → l[j] < l[a]) :
    selectToken exp sortSlice l = some (a : Int) := by
  have hl : l ≠ [] := by
    intro h0
    rw [h0] at ha
    simp at ha
  obtain ⟨m, p, t, rest, topP, -, hp, -, -, hsel, htl, hle, -⟩ := sample_ok exp sortSlice hs l hl
  have h1 := hle a ha
  rw [hp] at h1
  have h2 := softmax_order exp hpos hmono l m a t ha htl h1
  by_cases hta : t = a
  · rw [hsel, hta]
  · exact absurd (hmax t htl hta) (not_lt.mpr h2)

/-- With a non-negative `exp` and `exp 0 > 0` the normaliser of `softmax` is
positive: the maximum contributes `exp 0`. -/
theorem softmax_sum_pos (exp : α → α) (hnn : ∀ x, 0 ≤ exp x) (h0 : 0 < exp 0)
    (l : List α) (m : α) (hm : m ∈ l) : 0 < (l.map (fun v => exp (v - m))).sum := by
  have h1 : exp (m - m) ∈ l.map (fun v => exp (v - m)) := List.mem_map.mpr ⟨m, hm, rfl⟩
  have h2 := le_sum_of_mem_nonneg (l.map (fun v => exp (v - m)))
    (by
      intro x hx
      obtain ⟨v, -, rfl⟩ := List.mem_map.mp hx
      exact hnn _) _ h1
  rw [sub_self] at h2
  exact lt_of_lt_of_le h0 h2

/-- The sampling expression of the decode loop, with the maximum `m` that
`softmax` subtracts. -/
theorem sample_max (exp : α → α) (sortSlice : (Nat → Nat → Bool) → List Nat → List Nat)
    (hs : SortSliceSpec sortSlice) (l : List α) (hl : l ≠ []) :
    ∃ m p t rest topP, slicesMax l = some m ∧ m ∈ l ∧ (∀ x ∈ l, x ≤ m) ∧
      p = l.map (fun v => exp (v - m) / (l.map (fun v => exp (v - m))).sum) ∧
      softmax exp l = .ok p ∧
      topK sortSlice p 5 = .ok (t :: rest, topP) ∧
      selectToken exp sortSlice l = some (t : Int) ∧ t < l.length ∧
      (∀ c, c < l.length → p.getD c 0 ≤ p.getD t 0) ∧
      (∀ k : Int, 1 ≤ k → ∃ rest' topP', topK sortSlice p k = .ok (t :: rest', topP')) := by
  obtain ⟨m, hm, hmem, hmax⟩ := slicesMax_spec l hl
  have hsm : softmax exp l =
      .ok (l.map (fun v => exp (v - m) / (l.map (fun v => exp (v - m))).sum)) := by
    simp [softmax, hm, foldl_add_eq_sum, List.map_map, Function.comp_def]
  have hpl : (l.map (fun v => exp (v - m) / (l.map (fun v => exp (v - m))).sum)).length
      = l.length := by simp
  have hpne : l.map (fun v => exp (v - m) / (l.map (fun v => exp (v - m))).sum) ≠ [] := by
    simpa using hl
  obtain ⟨t, rest, htl, hle, hk⟩ := topK_head sortSlice hs _ hpne
  rw [hpl] at htl
  refine ⟨m, _, t, _, _, hm, hmem, hmax, rfl, hsm, hk 5 (by decide), ?_, htl, ?_, ?_⟩
  · simp [selectToken, hsm, hk 5 (by decide)]
  · intro c hc
    exact hle c (by rw [hpl]; exact hc)
  · intro k hk1
    exact ⟨_, _, hk k hk1⟩

/-- A probability that is maximal belongs to a logit that is maximal, when
the computed exponentials separate every smaller logit from the maximum. -/
theorem softmax_order_sep (exp : α → α) (hnn : ∀ x, 0 ≤ exp x) (h0 : 0 < exp 0)
    (l : List α) (m : α) (hm : m ∈ l) (hmax : ∀ x ∈ l, x ≤ m)
    (hsep : ∀ v ∈ l, v < m → exp (v - m) < exp 0) (t : Nat) (ht : t < l.length)
    (h : ∀ c, c < l.length →
      (l.map (fun v => exp (v - m) / (l.map (fun v => exp (v - m))).sum)).getD c 0 ≤
      (l.map (fun v => exp (v - m) / (l.map (fun v => exp (v - m))).sum)).getD t 0) :
    l[t] = m := by
  have hS := softmax_sum_pos exp hnn h0 l m hm
  obtain ⟨a, ha, hla⟩ := List.getElem_of_mem hm
  have h1 := h a ha
  rw [List.getD_eq_getElem _ _ (by simpa using ha),
    List.getD_eq_getElem _ _ (by simpa using ht), List.getElem_map, List.getElem_map,
    div_le_div_iff_of_pos_right hS, hla, sub_self] at h1
  by_contra hne
  have hlt : l[t] < m := lt_of_le_of_ne (hmax _ (List.getElem_mem _)) hne
  exact absurd (hsep _ (List.getElem_mem _) hlt) (not_lt.mpr h1)

/-- A logits vector whose maximum at `a` is strict and separated from the
other logits by the computed exponentials: `a` is the selected token. -/
theorem selectToken_separated_max (exp : α → α)
    (sortSlice : (Nat → Nat → Bool) → List Nat → List Nat)
    (hs : SortSliceSpec sortSlice) (hnn : ∀ x, 0 ≤ exp x) (h0 : 0 < exp 0)
    (l : List α) (a : Nat) (ha : a < l.length)
    (hmax : ∀ j (hj : j < l.length), j ≠ a → l[j] < l[a])
    (hsep : ∀ j (hj : j < l.length), j ≠ a → exp (l[j] - l[a]) < exp 0) :
    selectToken exp sortSlice l = some (a : Int) := by
  have hl : l ≠ [] := by
    intro h
    rw [h] at ha
    simp at ha
  obtain ⟨m, p, t, rest, topP, -, hm, hmx, hp, -, -, hsel, htl, hle, -⟩ :=
    sample_max exp sortSlice hs l hl
  have hma : m = l[a] := by
    apply le_antisymm
    · obtain ⟨j, hj, hlj⟩ := List.getElem_of_mem hm
      by_cases hja : j = a
      · subst hja
        exact le_of_eq hlj.symm
      · rw [← hlj]
        exact le_of_lt (hmax j hj hja)
    · exact hmx _ (List.getElem_mem _)
  have ht : l[t] = m := by
    apply softmax_order_sep exp hnn h0 l m hm hmx _ t htl
    · intro c hc
      have := hle c hc
      rwa [hp] at this
    · intro v hv hvm
      obtain ⟨j, hj, hlj⟩ := List.getElem_of_mem hv
      have hja : j ≠ a := by
        intro hja
        subst hja
        rw [← hlj, hma] at hvm
        exact lt_irrefl _ hvm
      rw [← hlj, hma]
      exact hsep j hj hja
  by_cases hta : t = a
  · rw [hsel, hta]
  · have := hmax t htl hta
    rw [ht, hma] at this
    exact absurd this (lt_irrefl _)

/-- When every computed exponential is the same, all probabilities tie and a
stable sort leaves token `0` in front. -/
theorem selectToken_ties (exp : α → α) (l : List α) (hl : l ≠ []) (c : α)
    (hc : ∀ m ∈ l, (∀ x ∈ l, x ≤ m) → ∀ v ∈ l, exp (v - m) = c) :
    selectToken exp insertionSortSlice l = some 0 := by
  obtain ⟨m, hm, hmem, hmax⟩ := slicesMax_spec l hl
  have hr : l.map (fun v => exp (v - m)) = l.map (fun _ => c) :=
    List.map_congr_left (hc m hmem hmax)
  have hsm : softmax exp l = .ok (l.map (fun _ => c / (l.map (fun _ => c)).sum)) := by
    simp [softmax, hm, hr, foldl_add_eq_sum, List.map_map, Function.comp_def]
  have hlen : 0 < l.length := List.length_pos.mpr hl
  have hsorted : (List.range (l.map (fun _ => c / (l.map (fun _ => c)).sum)).length).Sorted
      (fun a b => topKLess (l.map (fun _ => c / (l.map (fun _ => c)).sum)) b a = false) := by
    apply (List.pairwise_lt_range _).imp_of_mem
    intro a b ha hb _
    rw [List.mem_range] at ha hb
    have e1 : (l.map (fun _ => c / (l.map (fun _ => c)).sum)).getD a 0 =
        c / (l.map (fun _ => c)).sum := by
      rw [List.getD_eq_getElem _ _ ha, List.getElem_map]
    have e2 : (l.map (fun _ => c / (l.map (fun _ => c)).sum)).getD b 0 =
        c / (l.map (fun _ => c)).sum := by
      rw [List.getD_eq_getElem _ _ hb, List.getElem_map]
    simp only [topKLess, e1, e2, gt_iff_lt, lt_self_iff_false, decide_False]
  have hidx : insertionSortSlice (topKLess (l.map (fun _ => c / (l.map (fun _ => c)).sum)))
      (List.range (l.map (fun _ => c / (l.map (fun _ => c)).sum)).length) =
      List.range (l.map (fun _ => c / (l.map (fun _ => c)).sum)).length :=
    hsorted.insertionSort_eq
  obtain ⟨n, hn⟩ : ∃ n, l.length = n + 1 := ⟨l.length - 1, by omega⟩
  have hmin : min (5 : Int).toNat (n + 1) = (min (5 : Int).toNat (n + 1) - 1) + 1 := by
    have : (5 : Int).toNat = 5 := rfl
    omega
  have htk := topK_eq insertionSortSlice (l.map (fun _ => c / (l.map (fun _ => c)).sum)) 5
    (by decide)
  rw [hidx] at htk
  simp only [List.length_map, hn] at htk
  rw [hmin, List.range_succ_eq_map, List.take_succ_cons] at htk
  simp only [selectToken, hsm, htk, List.head?_cons, Option.map_some']
  rfl

theorem softmax_distribution_aux (exp : α → α) (hnonneg : ∀ x, 0 ≤ exp x)
    (hzero : exp 0 = 1) (l : List α) (hl : l ≠ []) :
    ∃ m p, slicesMax l = some m ∧ softmax exp l = .ok p ∧ p.length = l.length ∧
      1 ≤ (l.map (fun v => exp (v - m))).foldl (fun s e => s + e) 0 ∧
      (∀ x ∈ p, 0 ≤ x) ∧ p.sum = 1 := by
  obtain ⟨m, hm, hmem, -⟩ := slicesMax_spec l hl
  have hr : ∀ x ∈ l.map (fun v => exp (v - m)), 0 ≤ x := by
    intro x hx
    obtain ⟨v, -, rfl⟩ := List.mem_map.mp hx
    exact hnonneg _
  have h1mem : (1 : α) ∈ l.map (fun v => exp (v - m)) := by
    refine List.mem_map.mpr ⟨m, hmem, ?_⟩
    simp [hzero]
  have hS : 1 ≤ (l.map (fun v => exp (v - m))).sum :=
    le_sum_of_mem_nonneg _ hr 1 h1mem
  have hS0 : (l.map (fun v => exp (v - m))).sum ≠ 0 := by
    intro h0
    rw [h0] at hS
    exact absurd hS (by norm_num)
  refine ⟨m, (l.map (fun v => exp (v - m))).map
    (fun e => e / (l.map (fun v => exp (v - m))).foldl (fun s e => s + e) 0), hm, ?_, ?_, ?_, ?_, ?_⟩
  · simp [softmax, hm]
  · simp
  · rw [foldl_add_eq_sum, zero_add]
    exact hS
  · intro x hx
    rw [foldl_add_eq_sum, zero_add] at hx
    obtain ⟨y, hy, rfl⟩ := List.mem_map.mp hx
    exact div_nonneg (hr y hy) (le_trans zero_le_one hS)
  · rw [foldl_add_eq_sum, zero_add, sum_map_div_const, div_self hS0]

theorem sample_greedy_aux (exp : α → α)
    (sortSlice : (Nat → Nat → Bool) → List Nat → List Nat)
    (hs : SortSliceSpec sortSlice) (hnn : ∀ x, 0 ≤ exp x) (h0 : exp 0 = 1)
    (l : List α) (hl : l ≠ []) :
    ∃ (m : α) (p : List α) (idx : List Nat) (topP : List α) (t : Nat),
      slicesMax l = some m ∧
      softmax exp l = .ok p ∧ topK sortSlice p 5 = .ok (idx, topP) ∧
      idx[0]? = some t ∧ selectToken exp sortSlice l = some (t : Int) ∧
      p.length = l.length ∧ t < l.length ∧
      (∀ i (hi : i < p.length) (ht : t < p.length), p[i] ≤ p[t]) ∧
      ((∀ v ∈ l, v < m → exp (v - m) < exp 0) →
        ∀ i (hi : i < l.length) (ht : t < l.length), l[i] ≤ l[t]) ∧
      (∀ k : Int, 1 ≤ k →
        ∃ idx' topP', topK sortSlice p k = .ok (idx', topP') ∧ idx'[0]? = some t) := by
  obtain ⟨m, p, t, rest, topP, hmx, hm, hmle, hp, hsm, hk, hsel, htl, hle, hks⟩ :=
    sample_max exp sortSlice hs l hl
  have hpl : p.length = l.length := by rw [hp]; simp
  refine ⟨m, p, t :: rest, topP, t, hmx, hsm, hk, by simp, hsel, hpl, htl, ?_, ?_, ?_⟩
  · intro i hi ht
    have := hle i (by omega)
    rwa [List.getD_eq_getElem _ _ hi, List.getD_eq_getElem _ _ ht] at this
  · intro hsep i hi ht
    have h1 : l[t] = m := by
      apply softmax_order_sep exp hnn (by rw [h0]; exact one_pos) l m hm hmle hsep t ht
      intro c hc
      have := hle c hc
      rwa [hp] at this
    rw [h1]
    exact hmle _ (List.getElem_mem _)
  · intro k hk1
    obtain ⟨rest', topP', h⟩ := hks k hk1
    exact ⟨t :: rest', topP', h, by simp⟩

theorem expQ_pos (x : ℚ) : 0 < expQ x := by
  unfold expQ
  split
  · apply div_pos one_pos
    linarith
  · linarith

theorem expQ_zero : expQ 0 = 1 := by
  simp [expQ]

theorem expQ_strictMono : StrictMono expQ := by
  intro x y hxy
  unfold expQ
  by_cases hx : x < 0
  · by_cases hy : y < 0
    · simp only [hx, hy, if_true]
      apply one_div_lt_one_div_of_lt <;> linarith
    · simp only [hx, hy, if_true, if_false]
      have h1 : 1 / (1 - x) < 1 := by
        rw [div_lt_one (by linarith)]
        linarith
      linarith
  · have hy : ¬ y < 0 := by linarith
    simp only [hx, hy, if_false]
    linarith

theorem roundedExp_nonneg (x : ℚ) : 0 ≤ roundedExp x := by
  unfold roundedExp
  split
  · exact zero_le_one
  · exact le_of_lt (expQ_pos x)

theorem roundedExp_zero : roundedExp 0 = 1 := by
  norm_num [roundedExp]

theorem roundedExp_tie (x : ℚ) (h1 : -(1 / 2 ^ 26) ≤ x) (h2 : x ≤ 0) : roundedExp x = 1 := by
  unfold roundedExp
  rw [if_pos ⟨h1, h2⟩]

theorem roundedExp_monotone : Monotone roundedExp := by
  intro x y hxy
  unfold roundedExp
  by_cases hx : -(1 / 2 ^ 26) ≤ x ∧ x ≤ 0
  · rw [if_pos hx]
    by_cases hy : -(1 / 2 ^ 26) ≤ y ∧ y ≤ 0
    · rw [if_pos hy]
    · rw [if_neg hy]
      have hy0 : 0 < y := by
        by_contra h
        exact hy ⟨le_trans hx.1 hxy, not_lt.mp h⟩
      have : ¬ y < 0 := not_lt.mpr (le_of_lt hy0)
      simp only [expQ, this, if_false]
      linarith
  · rw [if_neg hx]
    by_cases hy : -(1 / 2 ^ 26) ≤ y ∧ y ≤ 0
    · rw [if_pos hy]
      have hx0 : x < 0 := by
        by_contra h
        have hx1 : x ≤ 0 := le_trans hxy hy.2
        have hx2 : 0 ≤ x := not_lt.mp h
        exact hx ⟨by linarith [hy.1, le_antisymm hx1 hx2], hx1⟩
      simp only [expQ, hx0, if_true]
      rw [div_le_one (by linarith)]
      linarith
    · rw [if_neg hy]
      exact expQ_strictMono.monotone hxy

/-- The float32 nearest to a positive `x` in the binade of `2^e` whose
quotient by the spacing `2^(e-23)` is less than half a unit above the integer
`n`. -/
theorem roundFloat32_eq (x : ℚ) (e n : Int) (hx : 0 < x) (h1 : (2 : ℚ) ^ e ≤ x)
    (h2 : x < (2 : ℚ) ^ (e + 1)) (he : -126 ≤ e)
    (hn : (n : ℚ) ≤ x / 2 ^ (e - 23)) (hr : x / 2 ^ (e - 23) - n < 1 / 2) :
    roundFloat32 x = n * 2 ^ (e - 23) := by
  have hlog : Int.log 2 |x| = e := by
    rw [abs_of_pos hx]
    apply le_antisymm
    · have := (Int.lt_zpow_iff_log_lt (by norm_num : 1 < 2) hx).mp (by exact_mod_cast h2)
      omega
    · exact (Int.zpow_le_iff_le_log (by norm_num : 1 < 2) hx).mp (by exact_mod_cast h1)
  have hfloor : ⌊x / 2 ^ (e - 23)⌋ = n := by
    rw [Int.floor_eq_iff]
    exact ⟨hn, by linarith⟩
  simp only [roundFloat32, hlog, max_eq_left he, hfloor, hr, if_true]

end Sampler

/-! ## Lemmas: the step executor -/

section Decode

variable {α : Type} [LinearOrderedField α]

theorem appendLayers_eq (shape : List Int) (n : Nat) (values : List Nat) (w : World α) :
    appendLayers shape n values w =
      (values ++ List.range' w.tensors.length (2 * n),
       { w with tensors := w.tensors ++ List.replicate (2 * n) (zeroTensor shape) }) := by
  induction n generalizing values w with
  | zero => simp [appendLayers]
  | succ n ih =>
    have h2 : 2 * (n + 1) = (2 * n + 1) + 1 := by ring
    simp only [appendLayers, emptyTensor, World.alloc, ih, h2, List.range'_succ,
      List.replicate_succ, List.length_append, List.length_singleton, List.length_cons,
      List.length_nil, zeroTensor]
    simp [List.append_assoc, Nat.add_assoc]

theorem wrapInt64_eq (x : Int) (h1 : -2 ^ 63 ≤ x) (h2 : x < 2 ^ 63) : wrapInt64 x = x := by
  unfold wrapInt64
  omega

omit [LinearOrderedField α] in
theorem Fits_of_le (e : Env α) (a b : Nat) (h : e.Fits b) (hab : a ≤ b) : e.Fits a := by
  obtain ⟨h1, h2⟩ := h
  exact ⟨by omega, by omega⟩

omit [LinearOrderedField α] in
theorem Fits_of_bounds (e : Env α) (prompt : List Int) (steps : Int) (hsteps : 0 ≤ steps)
    (hmax : (prompt.length : Int) + steps < 2 ^ 63)
    (hmake : (prompt.length : Int) + steps ≤ e.makeLimit) :
    e.Fits (prompt.length + steps.toNat) := by
  constructor
  · push_cast
    omega
  · omega

omit [LinearOrderedField α] in
/-- Function `initInputs` at a position of the loop: no sum wraps and `make`
succeeds. -/
theorem initInputs_of_fits (e : Env α) (token : Int) (position : Nat) (w : World α)
    (hfit : e.Fits (position + 1)) :
    initInputs e token (position : Int) w =
      match newTensor e [1, 1] [token] w with
      | (.error f, w) => (.error f, w)
      | (.ok tokens, w) =>
        match newTensor e [1, 1] [(position : Int)] w with
        | (.error f, w) => (.error f, w)
        | (.ok positions, w) =>
          match newTensor e [1, (position : Int) + 1] (List.replicate (position + 1) 1) w with
          | (.error f, w) => (.error f, w)
          | (.ok attentionMask, w) => (.ok [tokens, positions, attentionMask], w) := by
  obtain ⟨h1, h2⟩ := hfit
  have hw : wrapInt64 ((position : Int) + 1) = (position : Int) + 1 :=
    wrapInt64_eq _ (by omega) (by push_cast at h1; omega)
  have hc : ¬ ((position : Int) + 1 < 0 ∨ (e.makeLimit : Int) < (position : Int) + 1) := by
    omega
  have ht : ((position : Int) + 1).toNat = position + 1 := by omega
  simp only [initInputs, hw, hc, if_false, ht]

theorem initOutputs_of_fits (e : Env α) (position : Nat) (w : World α)
    (hfit : e.Fits (position + 1)) :
    initOutputs e (position : Int) w =
      match newEmptyTensor e [1, 1, (vocabSize : Int)] w with
      | (.error f, w) => (.error f, w)
      | (.ok logits, w) =>
        (.ok (appendLayers [1, (nHeads : Int), (position : Int) + 1, (headDim : Int)]
          nLayers [logits] w).1,
         (appendLayers [1, (nHeads : Int), (position : Int) + 1, (headDim : Int)]
          nLayers [logits] w).2) := by
  obtain ⟨h1, h2⟩ := hfit
  have hw : wrapInt64 ((position : Int) + 1) = (position : Int) + 1 :=
    wrapInt64_eq _ (by omega) (by push_cast at h1; omega)
  simp only [initOutputs, hw]

omit [LinearOrderedField α] in
theorem bindAll_none (bind : World α → String → Nat → Option String)
    (h : ∀ w name v, bind w name v = none) (w : World α) (l : List (String × Nat)) :
    bindAll bind w l = none := by
  induction l with
  | nil => rfl
  | cons x xs ih =>
    obtain ⟨name, v⟩ := x
    simp [bindAll, h, ih]

omit [LinearOrderedField α] in
theorem destroyValues_eq (values : List Nat) (w : World α) :
    destroyValues values w = { w with destroyed := w.destroyed ++ values } := by
  induction values generalizing w with
  | nil => simp [destroyValues]
  | cons v vs ih =>
    have h : destroyValues (v :: vs) w = destroyValues vs (destroy v w) := rfl
    rw [h, ih]
    simp [destroy]

/-- Method `forward` when only the forward pass itself may fail. -/
theorem forward_eq (e : Env α) (m : Model) (token : Int) (position : Nat)
    (cache : List Nat) (w : World α)
    (h1 : ∀ w, e.createIoBinding w = none)
    (h2 : ∀ w shape data, e.newTensor w shape data = none)
    (h3 : ∀ w shape, e.newEmptyTensor w shape = none)
    (h4 : ∀ w name v, e.bindInput w name v = none)
    (h5 : ∀ w name v, e.bindOutput w name v = none)
    (hfit : e.Fits (position + 1))
    (hin : m.inputNames.length = 3 + cache.length)
    (hout : m.outputNames.length = 1 + 2 * nLayers) :
    m.forward e token position cache w =
      match e.runWithBinding (runWorld token position w)
          (m.inputNames.zip (stepInputs w cache)) (m.outputNames.zip (stepOutputs w)) with
      | .error err =>
        (.error (.error err),
          destroyBinding (destroyValues
            [w.tensors.length, w.tensors.length + 1, w.tensors.length + 2]
            (destroyValues (stepOutputs w) (runWorld token position w))))
      | .ok fill =>
        (.ok (stepOutputs w),
          destroyBinding (destroyValues
            [w.tensors.length, w.tensors.length + 1, w.tensors.length + 2]
            ((runWorld token position w).run (m.inputNames.zip (stepInputs w cache))
              (m.outputNames.zip (stepOutputs w)) fill))) := by
  have hw : (⟨w.tensors ++ [⟨[1, 1], .int64 [token]⟩] ++ [⟨[1, 1], .int64 [(position : Int)]⟩] ++
        [⟨[1, (position : Int) + 1], .int64 (List.replicate (position + 1) 1)⟩] ++
        [⟨[1, 1, (vocabSize : Int)],
          .float32 (List.replicate (flattenedSize [1, 1, (vocabSize : Int)]) 0)⟩] ++
        List.replicate (2 * nLayers)
          (zeroTensor [1, (nHeads : Int), (position : Int) + 1, (headDim : Int)]),
        w.destroyed, w.bindings + 1, w.bindingsDestroyed, w.runs⟩ : World α) =
      runWorld token position w := by
    simp [runWorld, stepTensors, zeroTensor]
  have hO : (w.tensors.length + 1 + 1 + 1) ::
      List.range' (w.tensors.length + 1 + 1 + 1 + 1) (2 * nLayers) = stepOutputs w := by
    simp [stepOutputs, Nat.add_comm 1 (2 * nLayers), List.range'_succ]
  have hI : [w.tensors.length, w.tensors.length + 1, w.tensors.length + 1 + 1] ++ cache
      = stepInputs w cache := by
    simp [stepInputs]
  have hout' : (stepOutputs w).length = m.outputNames.length := by
    simp [stepOutputs, hout]
  have hin' : (stepInputs w cache).length = m.inputNames.length := by
    simp [stepInputs, hin]
    omega
  have hII := fun w' => initInputs_of_fits e token position w' hfit
  have hIO := fun w' => initOutputs_of_fits e position w' hfit
  simp only [Model.forward, h1, hII, newTensor, h2, World.alloc, hIO,
    newEmptyTensor, h3, emptyTensor, appendLayers_eq, List.length_append,
    List.length_singleton, List.singleton_append]
  have hlen3 : [w.tensors.length, w.tensors.length + 1, w.tensors.length + 1 + 1].length +
      cache.length = m.inputNames.length := by
    simp [hin]
  simp only [hw, hO, hI, hlen3, hout', ne_eq, not_true_eq_false, if_false,
    bindAll_none e.bindInput h4, bindAll_none e.bindOutput h5]

omit [LinearOrderedField α] in
theorem writeOutputs_length (fill : Nat → Nat → α) (i : Nat) (outs : List (String × Nat))
    (ts : List (Tensor α)) : (writeOutputs fill i outs ts).length = ts.length := by
  induction outs generalizing i ts with
  | nil => rfl
  | cons x xs ih =>
    obtain ⟨name, v⟩ := x
    unfold writeOutputs
    split
    · exact ih _ _
    · rw [ih, List.length_set]

omit [LinearOrderedField α] in
theorem writeOutputs_shape (fill : Nat → Nat → α) (i : Nat) (outs : List (String × Nat))
    (ts : List (Tensor α)) (v : Nat) :
    ((writeOutputs fill i outs ts)[v]?).map Tensor.shape = (ts[v]?).map Tensor.shape := by
  induction outs generalizing i ts with
  | nil => rfl
  | cons x xs ih =>
    obtain ⟨name, u⟩ := x
    unfold writeOutputs
    split
    · exact ih _ _
    · rename_i t ht
      rw [ih]
      by_cases huv : u = v
      · subst huv
        have hlt : u < ts.length := (List.getElem?_eq_some.mp ht).1
        simp [List.getElem?_set_self, hlt, ht]
      · rw [List.getElem?_set_ne huv]

omit [LinearOrderedField α] in
theorem writeOutputs_other (fill : Nat → Nat → α) (i : Nat) (outs : List (String × Nat))
    (ts : List (Tensor α)) (v : Nat) (hv : v ∉ outs.map Prod.snd) :
    (writeOutputs fill i outs ts)[v]? = ts[v]? := by
  induction outs generalizing i ts with
  | nil => rfl
  | cons x xs ih =>
    obtain ⟨name, u⟩ := x
    have hne : u ≠ v := by
      intro h
      apply hv
      simp [h]
    have hv' : v ∉ xs.map Prod.snd := by
      intro h
      apply hv
      simp only [List.map_cons, List.mem_cons]
      exact Or.inr h
    unfold writeOutputs
    split
    · exact ih _ _ hv'
    · rw [ih _ _ hv', List.getElem?_set_ne hne]

omit [LinearOrderedField α] in
theorem writeOutputs_head (fill : Nat → Nat → α) (i : Nat) (name : String) (v : Nat)
    (rest : List (String × Nat)) (ts : List (Tensor α)) (t : Tensor α)
    (ht : ts[v]? = some t) (hv : v ∉ rest.map Prod.snd) :
    (writeOutputs fill i ((name, v) :: rest) ts)[v]? =
      some { t with data := .float32 ((List.range (flattenedSize t.shape)).map (fill i)) } := by
  have hlt : v < ts.length := (List.getElem?_eq_some.mp ht).1
  unfold writeOutputs
  simp only [ht]
  rw [writeOutputs_other _ _ _ _ _ hv]
  simp [List.getElem?_set_self, hlt]

theorem flattenedSize_logits : flattenedSize [1, 1, (vocabSize : Int)] = vocabSize := by
  simp [flattenedSize]

omit [LinearOrderedField α] in
theorem stepOutputs_eq (w : World α) :
    stepOutputs w =
      (w.tensors.length + 3) :: List.range' (w.tensors.length + 4) (2 * nLayers) := by
  simp [stepOutputs, Nat.add_comm 1 (2 * nLayers), List.range'_succ]

omit [LinearOrderedField α] in
theorem snd_of_mem_zip_range' (names : List String) (a n v : Nat)
    (h : v ∈ (names.zip (List.range' a n)).map Prod.snd) : a ≤ v ∧ v < a + n := by
  obtain ⟨x, hx, rfl⟩ := List.mem_map.mp h
  obtain ⟨name, u⟩ := x
  have := (List.of_mem_zip hx).2
  simpa [List.mem_range'_1] using this

/-- The tensors after a successful forward pass of the step run in `w`:
those of `runWorld`, with the 25 outputs written. -/
theorem run_tensors (m : Model) (token : Int) (step : Nat) (w : World α)
    (ins : List (String × Nat)) (fill : Nat → Nat → α) :
    (destroyBinding (destroyValues
      [w.tensors.length, w.tensors.length + 1, w.tensors.length + 2]
      ((runWorld token step w).run ins (m.outputNames.zip (stepOutputs w)) fill))).tensors =
    writeOutputs fill 0 (m.outputNames.zip (stepOutputs w))
      (w.tensors ++ stepTensors token step) := by
  simp [destroyBinding, destroyValues_eq, World.run, runWorld]

theorem getData_logits (m : Model) (hout : m.outputNames.length = 1 + 2 * nLayers)
    (token : Int) (step : Nat) (w : World α) (ins : List (String × Nat))
    (fill : Nat → Nat → α) :
    getData (destroyBinding (destroyValues
      [w.tensors.length, w.tensors.length + 1, w.tensors.length + 2]
      ((runWorld token step w).run ins (m.outputNames.zip (stepOutputs w)) fill)))
      (w.tensors.length + 3) = some (logitsOf fill) := by
  unfold getData
  rw [run_tensors, stepOutputs_eq]
  cases hn : m.outputNames with
  | nil =>
    rw [hn] at hout
    simp only [List.length_nil] at hout
    omega
  | cons name rest =>
    rw [List.zip_cons_cons]
    have ht : (w.tensors ++ stepTensors token step)[w.tensors.length + 3]? =
        some (zeroTensor [1, 1, (vocabSize : Int)]) := by
      rw [List.getElem?_append_right (by omega)]
      simp [stepTensors]
    have hv : w.tensors.length + 3 ∉
        (rest.zip (List.range' (w.tensors.length + 4) (2 * nLayers))).map Prod.snd := by
      intro h
      have := snd_of_mem_zip_range' _ _ _ _ h
      omega
    rw [writeOutputs_head fill 0 name _ _ _ _ ht hv]
    simp [zeroTensor, flattenedSize_logits, logitsOf]

omit [LinearOrderedField α] in
theorem logitsOf_ne_nil (fill : Nat → Nat → α) : logitsOf fill ≠ [] := by
  intro h
  have := congrArg List.length h
  simp [logitsOf, vocabSize] at this

omit [LinearOrderedField α] in
theorem logitsOf_length (fill : Nat → Nat → α) : (logitsOf fill).length = vocabSize := by
  simp [logitsOf]

/-- One iteration of the decode loop when nothing fails. -/
theorem body_ok (e : Env α) (hnf : e.NeverFails) (hs : SortSliceSpec e.sortSlice)
    (m : Model) (hin : m.inputNames.length = 3 + 2 * nLayers)
    (hout : m.outputNames.length = 1 + 2 * nLayers)
    (prompt : List Int) (step : Nat) (st : LoopState α)
    (hc : st.cacheValues.length = 2 * nLayers) (hfit : e.Fits (step + 1)) :
    ∃ (fill : Nat → Nat → α) (sel : Nat),
      e.runWithBinding (runWorld st.token step st.world)
        (m.inputNames.zip (stepInputs st.world st.cacheValues))
        (m.outputNames.zip (stepOutputs st.world)) = .ok fill ∧
      selectToken e.exp e.sortSlice (logitsOf fill) = some (sel : Int) ∧
      sel < vocabSize ∧
      Model.Generate.body e m prompt step st =
        (none,
          { token := if step + 1 < prompt.length then prompt.getD (step + 1) 0 else (sel : Int),
            out := if step + 1 < prompt.length then st.out else st.out ++ [(sel : Int)],
            cacheValues := List.range' (st.world.tensors.length + 4) (2 * nLayers),
            logits := st.logits.map (fun h => h ++ [logitsOf fill]),
            world := afterStep m st.token step st.cacheValues st.world fill }) := by
  obtain ⟨h1, h2, h3, h4, h5, h6⟩ := hnf
  obtain ⟨fill, hfill⟩ := h6 (runWorld st.token step st.world)
    (m.inputNames.zip (stepInputs st.world st.cacheValues))
    (m.outputNames.zip (stepOutputs st.world))
  obtain ⟨-, p, t, rest, topP, -, -, hp, hk, hsel, htlt, -, -⟩ :=
    sample_ok e.exp e.sortSlice hs (logitsOf fill) (logitsOf_ne_nil fill)
  rw [logitsOf_length] at htlt
  refine ⟨fill, t, hfill, hsel, htlt, ?_⟩
  unfold Model.Generate.body
  rw [forward_eq e m st.token step st.cacheValues st.world h1 h2 h3 h4 h5 hfit
    (by rw [hin, hc]) hout, hfill]
  simp only []
  rw [stepOutputs_eq]
  simp only []
  rw [← stepOutputs_eq, getData_logits m hout]
  simp only [hp, hk]
  by_cases hlt : step + 1 < prompt.length
  · have hcond : (step : Int) < (prompt.length : Int) - 1 := by omega
    have hget : prompt[step + 1]? = some (prompt.getD (step + 1) 0) := by
      rw [List.getD_eq_getElem _ _ hlt]
      exact List.getElem?_eq_getElem hlt
    simp only [hcond, hlt, if_true, hget, afterStep]
  · have hcond : ¬ ((step : Int) < (prompt.length : Int) - 1) := by omega
    simp only [hcond, hlt, if_false, afterStep]

theorem body_eq_nextState (e : Env α) (hnf : e.NeverFails) (hs : SortSliceSpec e.sortSlice)
    (m : Model) (hin : m.inputNames.length = 3 + 2 * nLayers)
    (hout : m.outputNames.length = 1 + 2 * nLayers)
    (prompt : List Int) (step : Nat) (st : LoopState α)
    (hc : st.cacheValues.length = 2 * nLayers) (hfit : e.Fits (step + 1)) :
    Model.Generate.body e m prompt step st = (none, nextState e m prompt step st) := by
  obtain ⟨fill, sel, hfill, hsel, -, hbody⟩ :=
    body_ok e hnf hs m hin hout prompt step st hc hfit
  have hf : stepFill e m step st = fill := by
    simp [stepFill, hfill]
  have hsel' : selected e (stepLogits e m step st) = (sel : Int) := by
    simp [selected, stepLogits, hf, hsel]
  rw [hbody]
  unfold nextState
  rw [hsel']
  simp only [stepLogits, hf]

theorem loop_eq_stateAfter (e : Env α) (hnf : e.NeverFails) (hs : SortSliceSpec e.sortSlice)
    (m : Model) (hin : m.inputNames.length = 3 + 2 * nLayers)
    (hout : m.outputNames.length = 1 + 2 * nLayers)
    (prompt : List Int) (n step : Nat) (st : LoopState α)
    (hc : st.cacheValues.length = 2 * nLayers) (hfit : e.Fits (step + n)) :
    Model.Generate.loop e m prompt n step st = (none, stateAfter e m prompt n step st) := by
  induction n generalizing step st with
  | zero => rfl
  | succ n ih =>
    unfold Model.Generate.loop
    rw [body_eq_nextState e hnf hs m hin hout prompt step st hc
      (Fits_of_le e _ _ hfit (by omega))]
    simp only [stateAfter]
    exact ih (step + 1) _ (by simp [nextState]) (Fits_of_le e _ _ hfit (by omega))

/-! ## Lemmas: the decode loop -/

theorem stateAfter_succ (e : Env α) (m : Model) (prompt : List Int) (n step : Nat)
    (st : LoopState α) :
    stateAfter e m prompt (n + 1) step st =
      nextState e m prompt (step + n) (stateAfter e m prompt n step st) := by
  induction n generalizing step st with
  | zero => rfl
  | succ n ih =>
    have h : stateAfter e m prompt (n + 1 + 1) step st =
        stateAfter e m prompt (n + 1) (step + 1) (nextState e m prompt step st) := rfl
    rw [h, ih]
    have h2 : stateAfter e m prompt (n + 1) step st =
        stateAfter e m prompt n (step + 1) (nextState e m prompt step st) := rfl
    rw [h2]
    congr 1
    omega

theorem traceLogits_length (e : Env α) (m : Model) (prompt : List Int) (n step : Nat)
    (st : LoopState α) : (traceLogits e m prompt n step st).length = n := by
  induction n generalizing step st with
  | zero => rfl
  | succ n ih => simp [traceLogits, ih]

theorem stateAfter_logits (e : Env α) (m : Model) (prompt : List Int) (n step : Nat)
    (st : LoopState α) :
    (stateAfter e m prompt n step st).logits =
      st.logits.map (fun h => h ++ traceLogits e m prompt n step st) := by
  induction n generalizing step st with
  | zero => simp [stateAfter, traceLogits]
  | succ n ih =>
    simp only [stateAfter, traceLogits]
    rw [ih]
    cases h : st.logits <;> simp [nextState, h]

/-- The logits history the caller passes has no influence on the run. -/
theorem stateAfter_congr (e : Env α) (m : Model) (prompt : List Int) (n step : Nat)
    (st st' : LoopState α) (ht : st.token = st'.token) (ho : st.out = st'.out)
    (hc : st.cacheValues = st'.cacheValues) (hw : st.world = st'.world) :
    traceLogits e m prompt n step st = traceLogits e m prompt n step st' ∧
    (stateAfter e m prompt n step st).token = (stateAfter e m prompt n step st').token ∧
    (stateAfter e m prompt n step st).out = (stateAfter e m prompt n step st').out ∧
    (stateAfter e m prompt n step st).cacheValues =
      (stateAfter e m prompt n step st').cacheValues ∧
    (stateAfter e m prompt n step st).world = (stateAfter e m prompt n step st').world := by
  induction n generalizing step st st' with
  | zero => exact ⟨rfl, ht, ho, hc, hw⟩
  | succ n ih =>
    have hf : stepFill e m step st = stepFill e m step st' := by
      simp only [stepFill, ht, hc, hw]
    have hl : stepLogits e m step st = stepLogits e m step st' := by
      simp only [stepLogits, hf]
    obtain ⟨h1, h2, h3, h4, h5⟩ := ih (step + 1) (nextState e m prompt step st)
      (nextState e m prompt step st')
      (by simp only [nextState, hl])
      (by simp only [nextState, hl, ho])
      (by simp only [nextState, hw])
      (by simp only [nextState, hf, ht, hc, hw])
    refine ⟨?_, h2, h3, h4, h5⟩
    simp only [traceLogits, hl, h1]

theorem stateAfter_out (e : Env α) (m : Model) (prompt : List Int) (n step : Nat)
    (st : LoopState α) :
    (stateAfter e m prompt n step st).out =
      st.out ++ ((traceLogits e m prompt n step st).drop (prompt.length - 1 - step)).map
        (selected e) := by
  induction n generalizing step st with
  | zero => simp [stateAfter, traceLogits]
  | succ n ih =>
    simp only [stateAfter, traceLogits]
    rw [ih]
    by_cases hlt : step + 1 < prompt.length
    · have h1 : prompt.length - 1 - step = (prompt.length - 1 - (step + 1)) + 1 := by omega
      rw [h1, List.drop_succ_cons]
      simp [nextState, hlt]
    · have h1 : prompt.length - 1 - step = 0 := by omega
      have h2 : prompt.length - 1 - (step + 1) = 0 := by omega
      rw [h1, h2]
      simp [nextState, hlt]

omit [LinearOrderedField α] in
theorem afterStep_runs_aux (values created : List Nat) (v : Nat)
    (ins outs : List (String × Nat)) (fill : Nat → Nat → α) (w' : World α) :
    (destroyValues values (destroy v (destroyBinding (destroyValues created
      (w'.run ins outs fill))))).runs = w'.runs ++ [(ins, outs)] := by
  simp [destroyValues_eq, destroy, destroyBinding, World.run]

theorem stateAfter_runs (e : Env α) (m : Model) (prompt : List Int) (n step : Nat)
    (st : LoopState α) :
    (stateAfter e m prompt n step st).world.runs.length = st.world.runs.length + n := by
  induction n generalizing step st with
  | zero => rfl
  | succ n ih =>
    simp only [stateAfter]
    rw [ih]
    simp only [nextState, afterStep]
    rw [afterStep_runs_aux]
    simp [runWorld]
    omega

theorem stateAfter_cache_length (e : Env α) (m : Model) (prompt : List Int) (n step : Nat)
    (st : LoopState α) (hc : st.cacheValues.length = 2 * nLayers) :
    (stateAfter e m prompt n step st).cacheValues.length = 2 * nLayers := by
  induction n generalizing step st with
  | zero => exact hc
  | succ n ih =>
    simp only [stateAfter]
    exact ih _ _ (by simp [nextState])

theorem afterStep_tensors (m : Model) (token : Int) (step : Nat) (cache : List Nat)
    (w : World α) (fill : Nat → Nat → α) :
    (afterStep m token step cache w fill).tensors =
      writeOutputs fill 0 (m.outputNames.zip (stepOutputs w))
        (w.tensors ++ stepTensors token step) := by
  simp [afterStep, destroyBinding, destroyValues_eq, destroy, World.run, runWorld]

theorem stepTensors_cache (token : Int) (step k : Nat) (h4 : 4 ≤ k)
    (hk : k < 4 + 2 * nLayers) :
    (stepTensors token step : List (Tensor α))[k]? =
      some (zeroTensor [1, (nHeads : Int), (step : Int) + 1, (headDim : Int)]) := by
  unfold stepTensors
  rw [List.getElem?_append_right (by simp; omega)]
  simp only [List.length_cons, List.length_nil]
  rw [List.getElem?_replicate]
  have : k - (0 + 1 + 1 + 1 + 1) < 2 * nLayers := by omega
  simp [this]

/-- The cache a step hands to the next one: `2 * nLayers` tensors whose third
dimension is the number of positions processed so far. -/
theorem nextState_cache_shape (e : Env α) (m : Model) (prompt : List Int) (step : Nat)
    (st : LoopState α) (v : Nat)
    (hv : v ∈ (nextState e m prompt step st).cacheValues) :
    ∃ t, (nextState e m prompt step st).world.tensors[v]? = some t ∧
      t.shape = [1, (nHeads : Int), (step : Int) + 1, (headDim : Int)] := by
  simp only [nextState, List.mem_range'_1] at hv
  have hsh := writeOutputs_shape (stepFill e m step st) 0
    (m.outputNames.zip (stepOutputs st.world))
    (st.world.tensors ++ stepTensors st.token step) v
  rw [List.getElem?_append_right (by omega),
    stepTensors_cache st.token step (v - st.world.tensors.length) (by omega) (by omega)] at hsh
  simp only [nextState, afterStep_tensors]
  cases hx : (writeOutputs (stepFill e m step st) 0
      (m.outputNames.zip (stepOutputs st.world))
      (st.world.tensors ++ stepTensors st.token step))[v]? with
  | none => simp [hx] at hsh
  | some t =>
    rw [hx] at hsh
    simp only [Option.map_some', Option.some.injEq] at hsh
    exact ⟨t, rfl, by rw [hsh]; rfl⟩

theorem emptyCache_eq (w : World α) :
    emptyCache w =
      (List.range' w.tensors.length (2 * nLayers),
       { w with
         tensors := w.tensors ++
           List.replicate (2 * nLayers) (zeroTensor [1, (nHeads : Int), 0, (headDim : Int)]) }) := by
  simp [emptyCache, appendLayers_eq]

theorem initNames_length (n : Nat) (acc : List String × List String) :
    (initNames n acc).1.length = acc.1.length + 2 * n ∧
    (initNames n acc).2.length = acc.2.length + 2 * n := by
  induction n generalizing acc with
  | zero => simp [initNames]
  | succ n ih =>
    simp only [initNames]
    obtain ⟨h1, h2⟩ := ih
      (acc.1 ++ ["past_key_values." ++ toString (nLayers - (n + 1)) ++ ".key",
                 "past_key_values." ++ toString (nLayers - (n + 1)) ++ ".value"],
       acc.2 ++ ["present." ++ toString (nLayers - (n + 1)) ++ ".key",
                 "present." ++ toString (nLayers - (n + 1)) ++ ".value"])
    rw [h1, h2]
    simp
    omega

theorem Init_names_length (m : Model) :
    m.Init.inputNames.length = 3 + 2 * nLayers ∧
    m.Init.outputNames.length = 1 + 2 * nLayers := by
  obtain ⟨h1, h2⟩ := initNames_length nLayers
    (["input_ids", "position_ids", "attention_mask"], ["logits"])
  exact ⟨by simp [Model.Init, h1], by simp [Model.Init, h2]⟩

theorem initialState_cache_length (prompt : List Int) (logits : Option (List (List α)))
    (w : World α) : (initialState prompt logits w).cacheValues.length = 2 * nLayers := by
  simp [initialState, emptyCache_eq]

/-- The whole call when nothing fails: the loop runs `len(prompt) + steps`
times and the first `steps` collected tokens are returned. -/
theorem Generate_eq (e : Env α) (hnf : e.NeverFails) (hs : SortSliceSpec e.sortSlice)
    (m : Model) (hin : m.inputNames.length = 3 + 2 * nLayers)
    (hout : m.outputNames.length = 1 + 2 * nLayers)
    (prompt : List Int) (hp : prompt ≠ []) (steps : Int) (hsteps : 0 ≤ steps)
    (hfit : e.Fits (prompt.length + steps.toNat))
    (logits : Option (List (List α))) (w : World α) :
    Model.Generate e m prompt steps logits w =
      ⟨.ok ((stateAfter e m prompt (prompt.length + steps.toNat) 0
          (initialState prompt logits w)).out.take steps.toNat),
        (stateAfter e m prompt (prompt.length + steps.toNat) 0
          (initialState prompt logits w)).logits,
        destroyValues
          (stateAfter e m prompt (prompt.length + steps.toNat) 0
            (initialState prompt logits w)).cacheValues
          (stateAfter e m prompt (prompt.length + steps.toNat) 0
            (initialState prompt logits w)).world⟩ := by
  cases prompt with
  | nil => exact absurd rfl hp
  | cons token rest =>
    obtain ⟨hf1, hf2⟩ := hfit
    have hlen : ((token :: rest).length : Int) = (rest.length : Int) + 1 := by simp
    have hcap : wrapInt64 (steps + 1) = steps + 1 :=
      wrapInt64_eq _ (by omega) (by push_cast at hf1; omega)
    have hbound : wrapInt64 (((token :: rest).length : Int) + steps) =
        ((token :: rest).length : Int) + steps :=
      wrapInt64_eq _ (by omega) (by push_cast at hf1; omega)
    have hn : (((token :: rest).length : Int) + steps).toNat =
        (token :: rest).length + steps.toNat := by omega
    have h0 : ¬ (steps + 1 < 0 ∨ (e.makeLimit : Int) < steps + 1) := by
      simp only [List.length_cons] at hf2
      omega
    have h1 : ¬ (steps < 0 ∨ steps + 1 < steps) := by omega
    have hst : (⟨token, [], (emptyCache w).1, logits, (emptyCache w).2⟩ : LoopState α) =
        initialState (token :: rest) logits w := rfl
    unfold Model.Generate
    simp only [hcap, hbound, h0, h1, if_false, hn, hst]
    rw [loop_eq_stateAfter e hnf hs m hin hout (token :: rest) _ 0 _
      (initialState_cache_length _ _ _) (by rw [Nat.zero_add]; exact ⟨hf1, hf2⟩)]
    simp only []
    have hout_len : steps.toNat -
        (stateAfter e m (token :: rest) ((token :: rest).length + steps.toNat) 0
          (initialState (token :: rest) logits w)).out.length = 0 := by
      rw [stateAfter_out]
      simp [initialState, traceLogits_length]
      omega
    rw [hout_len, List.replicate_zero, List.append_nil]

theorem selectToken_eq_selected (e : Env α) (hs : SortSliceSpec e.sortSlice) (l : List α)
    (hl : l ≠ []) : selectToken e.exp e.sortSlice l = some (selected e l) := by
  obtain ⟨-, -, t, -, -, -, -, -, -, hsel, -, -, -⟩ := sample_ok e.exp e.sortSlice hs l hl
  simp [selected, hsel]

theorem traceLogits_mem (e : Env α) (m : Model) (prompt : List Int) (n step : Nat)
    (st : LoopState α) (l : List α) (hl : l ∈ traceLogits e m prompt n step st) :
    ∃ step' st', l = stepLogits e m step' st' := by
  induction n generalizing step st with
  | zero => simp [traceLogits] at hl
  | succ n ih =>
    simp only [traceLogits, List.mem_cons] at hl
    rcases hl with h | hl
    · exact ⟨step, st, h⟩
    · exact ih _ _ hl

theorem traceLogits_ne_nil (e : Env α) (m : Model) (prompt : List Int) (n step : Nat)
    (st : LoopState α) (l : List α) (hl : l ∈ traceLogits e m prompt n step st) : l ≠ [] := by
  obtain ⟨step', st', h⟩ := traceLogits_mem e m prompt n step st l hl
  rw [h]
  exact logitsOf_ne_nil _

theorem initialState_congr (prompt : List Int) (logits logits' : Option (List (List α)))
    (w : World α) (e : Env α) (m : Model) (n : Nat) :
    traceLogits e m prompt n 0 (initialState prompt logits w) =
      traceLogits e m prompt n 0 (initialState prompt logits' w) ∧
    (stateAfter e m prompt n 0 (initialState prompt logits w)).out =
      (stateAfter e m prompt n 0 (initialState prompt logits' w)).out ∧
    (stateAfter e m prompt n 0 (initialState prompt logits w)).cacheValues =
      (stateAfter e m prompt n 0 (initialState prompt logits' w)).cacheValues ∧
    (stateAfter e m prompt n 0 (initialState prompt logits w)).world =
      (stateAfter e m prompt n 0 (initialState prompt logits' w)).world := by
  obtain ⟨h1, -, h3, h4, h5⟩ := stateAfter_congr e m prompt n 0
    (initialState prompt logits w) (initialState prompt logits' w) rfl rfl rfl rfl
  exact ⟨h1, h3, h4, h5⟩

/-- The tokens `Generate` returns and the logits it records, when nothing
fails. -/
theorem Generate_tokens_aux (e : Env α) (hnf : e.NeverFails)
    (hs : SortSliceSpec e.sortSlice) (m : Model)
    (hin : m.inputNames.length = 3 + 2 * nLayers)
    (hout : m.outputNames.length = 1 + 2 * nLayers)
    (prompt : List Int) (hp : prompt ≠ []) (steps : Int) (hsteps : 0 ≤ steps)
    (hfit : e.Fits (prompt.length + steps.toNat))
    (w : World α) :
    ∃ (ls : List (List α)) (out : List Int),
      ls.length = prompt.length + steps.toNat ∧ out.length = steps.toNat ∧
      (∀ logits : Option (List (List α)),
        (m.Generate e prompt steps logits w).result = .ok out ∧
        (m.Generate e prompt steps logits w).logits = logits.map (fun h => h ++ ls)) ∧
      (∀ i (hi : i < out.length) (hl : prompt.length - 1 + i < ls.length),
        selectToken e.exp e.sortSlice ls[prompt.length - 1 + i] = some out[i]) := by
  have hlen : 0 < prompt.length := List.length_pos.mpr hp
  refine ⟨traceLogits e m prompt (prompt.length + steps.toNat) 0 (initialState prompt none w),
    (((traceLogits e m prompt (prompt.length + steps.toNat) 0
      (initialState prompt none w)).drop (prompt.length - 1)).map (selected e)).take
      steps.toNat, traceLogits_length _ _ _ _ _ _, ?_, ?_, ?_⟩
  · simp [traceLogits_length]
    omega
  · intro logits
    obtain ⟨h1, h3, -, -⟩ := initialState_congr prompt logits none w e m
      (prompt.length + steps.toNat)
    rw [Generate_eq e hnf hs m hin hout prompt hp steps hsteps hfit logits w]
    refine ⟨?_, ?_⟩
    · simp only []
      rw [h3, stateAfter_out]
      simp [initialState]
    · simp only []
      rw [stateAfter_logits, h1]
      simp [initialState]
  · intro i hi hl
    have hmem : (traceLogits e m prompt (prompt.length + steps.toNat) 0
        (initialState prompt none w))[prompt.length - 1 + i] ∈
        traceLogits e m prompt (prompt.length + steps.toNat) 0
          (initialState prompt none w) := List.getElem_mem _
    rw [selectToken_eq_selected e hs _ (traceLogits_ne_nil _ _ _ _ _ _ _ hmem)]
    simp [List.getElem_take']

theorem Generate_runs_aux (e : Env α) (hnf : e.NeverFails)
    (hs : SortSliceSpec e.sortSlice) (m : Model)
    (hin : m.inputNames.length = 3 + 2 * nLayers)
    (hout : m.outputNames.length = 1 + 2 * nLayers)
    (prompt : List Int) (hp : prompt ≠ []) (steps : Int) (hsteps : 0 ≤ steps)
    (hfit : e.Fits (prompt.length + steps.toNat))
    (logits : Option (List (List α))) (w : World α) :
    (m.Generate e prompt steps logits w).world.runs.length =
      w.runs.length + (prompt.length + steps.toNat) := by
  rw [Generate_eq e hnf hs m hin hout prompt hp steps hsteps hfit logits w]
  simp only [destroyValues_eq]
  rw [stateAfter_runs]
  simp [initialState, emptyCache_eq]

theorem loop_cache_aux (e : Env α) (hnf : e.NeverFails)
    (hs : SortSliceSpec e.sortSlice) (m : Model)
    (hin : m.inputNames.length = 3 + 2 * nLayers)
    (hout : m.outputNames.length = 1 + 2 * nLayers)
    (prompt : List Int) (logits : Option (List (List α))) (w : World α) (p : Nat)
    (hfit : e.Fits (p + 1)) :
    ∃ st, Model.Generate.loop e m prompt (p + 1) 0 (initialState prompt logits w) = (none, st) ∧
      st = stateAfter e m prompt (p + 1) 0 (initialState prompt logits w) ∧
      st.cacheValues.length = 2 * nLayers ∧
      ∀ v ∈ st.cacheValues, ∃ t, st.world.tensors[v]? = some t ∧
        t.shape = [1, (nHeads : Int), (p : Int) + 1, (headDim : Int)] := by
  refine ⟨_, loop_eq_stateAfter e hnf hs m hin hout prompt (p + 1) 0 _
    (initialState_cache_length _ _ _) (by rw [Nat.zero_add]; exact hfit), rfl,
    stateAfter_cache_length e m prompt (p + 1) 0 _ (initialState_cache_length _ _ _), ?_⟩
  intro v hv
  rw [stateAfter_succ] at hv ⊢
  have := nextState_cache_shape e m prompt (0 + p) _ v hv
  simpa using this

theorem emptyCache_shape_aux (w : World α) :
    (emptyCache w).1.length = 2 * nLayers ∧
    ∀ v ∈ (emptyCache w).1, ∃ t, (emptyCache w).2.tensors[v]? = some t ∧
      t.shape = [1, (nHeads : Int), 0, (headDim : Int)] := by
  rw [emptyCache_eq]
  refine ⟨by simp, ?_⟩
  intro v hv
  simp only [List.mem_range'_1] at hv
  refine ⟨zeroTensor [1, (nHeads : Int), 0, (headDim : Int)], ?_, rfl⟩
  simp only []
  rw [List.getElem?_append_right (by omega), List.getElem?_replicate]
  have : v - w.tensors.length < 2 * nLayers := by omega
  simp [this]

/-- An engine that writes the logits `l` at every step. -/
theorem stepLogits_const (e : Env α) (m : Model) (l : Nat → α)
    (hengine : ∀ w ins outs, ∃ fill, e.runWithBinding w ins outs = .ok fill ∧
      ∀ j, j < vocabSize → fill 0 j = l j)
    (step : Nat) (st : LoopState α) :
    stepLogits e m step st = (List.range vocabSize).map l := by
  obtain ⟨fill, hfill, hl⟩ := hengine (runWorld st.token step st.world)
    (m.inputNames.zip (stepInputs st.world st.cacheValues))
    (m.outputNames.zip (stepOutputs st.world))
  simp only [stepLogits, stepFill, hfill, logitsOf]
  apply List.map_congr_left
  intro j hj
  exact hl j (List.mem_range.mp hj)

theorem traceLogits_const (e : Env α) (m : Model) (prompt : List Int) (L : List α)
    (hL : ∀ step st, stepLogits e m step st = L) (n step : Nat) (st : LoopState α) :
    traceLogits e m prompt n step st = List.replicate n L := by
  induction n generalizing step st with
  | zero => rfl
  | succ n ih =>
    simp only [traceLogits, List.replicate_succ]
    rw [hL, ih]

theorem Generate_constant_aux (e : Env α) (hnf : e.NeverFails)
    (hs : SortSliceSpec e.sortSlice)
    (m : Model) (hin : m.inputNames.length = 3 + 2 * nLayers)
    (hout : m.outputNames.length = 1 + 2 * nLayers)
    (prompt : List Int) (hp : prompt ≠ []) (steps : Int) (hsteps : 0 ≤ steps)
    (hfit : e.Fits (prompt.length + steps.toNat))
    (logits : Option (List (List α))) (w : World α)
    (l : Nat → α) (a : Int)
    (hsel : selectToken e.exp e.sortSlice ((List.range vocabSize).map l) = some a)
    (hengine : ∀ w ins outs, ∃ fill, e.runWithBinding w ins outs = .ok fill ∧
      ∀ j, j < vocabSize → fill 0 j = l j) :
    (m.Generate e prompt steps logits w).result =
      .ok (List.replicate steps.toNat a) := by
  have hlen : 0 < prompt.length := List.length_pos.mpr hp
  have hsel' : selected e ((List.range vocabSize).map l) = a := by
    simp [selected, hsel]
  rw [Generate_eq e hnf hs m hin hout prompt hp steps hsteps hfit logits w]
  simp only []
  rw [stateAfter_out, traceLogits_const e m prompt _ (stepLogits_const e m l hengine)]
  simp only [initialState, List.nil_append, List.drop_replicate, List.map_replicate, hsel',
    List.take_replicate, Nat.sub_zero]
  have hmin : min steps.toNat (prompt.length + steps.toNat - (prompt.length - 1)) =
      steps.toNat := by omega
  rw [hmin]

/-! ## Lemmas: the concrete collaborators -/

theorem constEnv_neverFails (a : Nat) : (constEnv a).NeverFails := by
  refine ⟨?_, ?_, ?_, ?_, ?_, ?_⟩ <;> intros <;> first | rfl | exact ⟨_, rfl⟩

theorem positionEnv_neverFails : positionEnv.NeverFails := by
  refine ⟨?_, ?_, ?_, ?_, ?_, ?_⟩ <;> intros <;> first | rfl | exact ⟨_, rfl⟩

theorem initNames_prefix (n : Nat) (acc : List String × List String) :
    ∃ X, (initNames n acc).1 = acc.1 ++ X := by
  induction n generalizing acc with
  | zero => exact ⟨[], by simp [initNames]⟩
  | succ n ih =>
    simp only [initNames]
    obtain ⟨X, hX⟩ := ih
      (acc.1 ++ ["past_key_values." ++ toString (nLayers - (n + 1)) ++ ".key",
                 "past_key_values." ++ toString (nLayers - (n + 1)) ++ ".value"],
       acc.2 ++ ["present." ++ toString (nLayers - (n + 1)) ++ ".key",
                 "present." ++ toString (nLayers - (n + 1)) ++ ".value"])
    exact ⟨_, by rw [hX, List.append_assoc]⟩

theorem Init_inputNames_prefix (m : Model) :
    ∃ X, m.Init.inputNames = "input_ids" :: "position_ids" :: "attention_mask" :: X := by
  obtain ⟨X, hX⟩ := initNames_prefix nLayers
    (["input_ids", "position_ids", "attention_mask"], ["logits"])
  exact ⟨X, by simp [Model.Init, hX]⟩

/-- The engine of `positionEnv` is asked for the position of the step. -/
theorem positionOf_runWorld (m : Model) (token : Int) (step : Nat) (w : World ℚ)
    (cache : List Nat) :
    positionOf (runWorld token step w) (m.Init.inputNames.zip (stepInputs w cache)) =
      (step : Int) := by
  obtain ⟨X, hX⟩ := Init_inputNames_prefix m
  have h1 : (m.Init.inputNames.zip (stepInputs w cache))[1]? =
      some ("position_ids", w.tensors.length + 1) := by
    rw [hX]
    simp [stepInputs]
  have h2 : (runWorld token step w).tensors[w.tensors.length + 1]? =
      some ⟨[1, 1], .int64 [(step : Int)]⟩ := by
    simp only [runWorld]
    rw [List.getElem?_append_right (by omega)]
    simp [stepTensors]
  simp only [positionOf, h1, h2]

theorem stepLogits_positionEnv (m : Model) (step : Nat) (st : LoopState ℚ) :
    stepLogits positionEnv m.Init step st =
      (List.range vocabSize).map (fun (j : Nat) => if (j : Int) = (step : Int) then (1 : ℚ) else 0) := by
  simp only [stepLogits, stepFill, positionEnv, positionOf_runWorld, logitsOf]

theorem selected_oneHot (e : Env ℚ) (he : e.exp = expQ) (hs : e.sortSlice = insertionSortSlice)
    (q : Nat) (hq : q < vocabSize) :
    selectToken e.exp e.sortSlice
      ((List.range vocabSize).map (fun (j : Nat) => if (j : Int) = (q : Int) then (1 : ℚ) else 0)) =
      some (q : Int) := by
  rw [he, hs]
  apply selectToken_unique_max expQ insertionSortSlice insertionSortSlice_spec expQ_pos
    expQ_strictMono _ q (by simpa using hq)
  intro j hj hjq
  simp [hjq]

end Decode

/-! ## Lemmas: shift invariance, inputs, names -/

section Later

variable {α : Type} [LinearOrderedField α]

theorem foldl_max_shift (xs : List α) (x c : α) :
    (xs.map (fun v => v + c)).foldl max (x + c) = xs.foldl max x + c := by
  induction xs generalizing x with
  | nil => rfl
  | cons z zs ih =>
    simp only [List.map_cons, List.foldl_cons]
    rw [max_add_add_right, ih]

theorem slicesMax_shift (l : List α) (c : α) :
    slicesMax (l.map (fun v => v + c)) = (slicesMax l).map (fun m => m + c) := by
  cases l with
  | nil => rfl
  | cons x xs =>
    simp only [List.map_cons, slicesMax, Option.map_some']
    rw [foldl_max_shift]

theorem softmax_shift (exp : α → α) (l : List α) (c : α) :
    softmax exp (l.map (fun v => v + c)) = softmax exp l := by
  unfold softmax
  rw [slicesMax_shift]
  cases slicesMax l with
  | none => rfl
  | some m =>
    simp only [Option.map_some', List.map_map, Function.comp_def, add_sub_add_right_eq_sub]

omit [LinearOrderedField α] in
theorem initInputs_eq (e : Env α) (h : ∀ w shape data, e.newTensor w shape data = none)
    (token : Int) (position : Nat) (w : World α) (hfit : e.Fits (position + 1)) :
    initInputs e token position w =
      (.ok [w.tensors.length, w.tensors.length + 1, w.tensors.length + 2],
       { w with
         tensors := w.tensors ++
           [⟨[1, 1], .int64 [token]⟩, ⟨[1, 1], .int64 [(position : Int)]⟩,
            ⟨[1, (position : Int) + 1], .int64 (List.replicate (position + 1) 1)⟩] }) := by
  rw [initInputs_of_fits e token position w hfit]
  simp [newTensor, h, World.alloc, Nat.add_assoc]

theorem Init_names (m : Model) :
    m.Init.inputNames =
      ["input_ids", "position_ids", "attention_mask",
       "past_key_values.0.key", "past_key_values.0.value",
       "past_key_values.1.key", "past_key_values.1.value",
       "past_key_values.2.key", "past_key_values.2.value",
       "past_key_values.3.key", "past_key_values.3.value",
       "past_key_values.4.key", "past_key_values.4.value",
       "past_key_values.5.key", "past_key_values.5.value",
       "past_key_values.6.key", "past_key_values.6.value",
       "past_key_values.7.key", "past_key_values.7.value",
       "past_key_values.8.key", "past_key_values.8.value",
       "past_key_values.9.key", "past_key_values.9.value",
       "past_key_values.10.key", "past_key_values.10.value",
       "past_key_values.11.key", "past_key_values.11.value"] ∧
    m.Init.outputNames =
      ["logits",
       "present.0.key", "present.0.value", "present.1.key", "present.1.value",
       "present.2.key", "present.2.value", "present.3.key", "present.3.value",
       "present.4.key", "present.4.value", "present.5.key", "present.5.value",
       "present.6.key", "present.6.value", "present.7.key", "present.7.value",
       "present.8.key", "present.8.value", "present.9.key", "present.9.value",
       "present.10.key", "present.10.value", "present.11.key", "present.11.value"] := by
  constructor <;> rfl

/-! ## Lemmas: the runtime along the loop -/

theorem stepTensors_length (token : Int) (step : Nat) :
    (stepTensors token step : List (Tensor α)).length = 4 + 2 * nLayers := by
  simp [stepTensors]
  omega

theorem afterStep_eq (m : Model) (token : Int) (step : Nat) (cache : List Nat)
    (w : World α) (fill : Nat → Nat → α) :
    afterStep m token step cache w fill =
      { tensors := writeOutputs fill 0 (m.outputNames.zip (stepOutputs w))
          (w.tensors ++ stepTensors token step),
        destroyed := w.destroyed ++
          [w.tensors.length, w.tensors.length + 1, w.tensors.length + 2,
           w.tensors.length + 3] ++ cache,
        bindings := w.bindings + 1,
        bindingsDestroyed := w.bindingsDestroyed + 1,
        runs := w.runs ++ [(m.inputNames.zip (stepInputs w cache),
          m.outputNames.zip (stepOutputs w))] } := by
  simp [afterStep, destroyBinding, destroyValues_eq, destroy, World.run, runWorld]

theorem nextState_tensors_length (e : Env α) (m : Model) (prompt : List Int) (step : Nat)
    (st : LoopState α) :
    (nextState e m prompt step st).world.tensors.length =
      st.world.tensors.length + (4 + 2 * nLayers) := by
  simp only [nextState, afterStep_eq, writeOutputs_length, List.length_append,
    stepTensors_length]

theorem stateAfter_tensors_length (e : Env α) (m : Model) (prompt : List Int)
    (n step : Nat) (st : LoopState α) :
    (stateAfter e m prompt n step st).world.tensors.length =
      st.world.tensors.length + (4 + 2 * nLayers) * n := by
  induction n with
  | zero => simp [stateAfter]
  | succ n ih =>
    rw [stateAfter_succ, nextState_tensors_length, ih]
    ring

theorem stateAfter_runs_eq (e : Env α) (m : Model) (prompt : List Int) (n step : Nat)
    (st : LoopState α) :
    (stateAfter e m prompt n step st).world.runs =
      st.world.runs ++
        (List.range n).map (fun i => stepBindings m (stateAfter e m prompt i step st)) := by
  induction n with
  | zero => simp [stateAfter]
  | succ n ih =>
    rw [stateAfter_succ, List.range_succ, List.map_append, ← List.append_assoc, ← ih]
    simp [nextState, afterStep_eq, stepBindings]

theorem traceLogits_eq_map (e : Env α) (m : Model) (prompt : List Int) (n step : Nat)
    (st : LoopState α) :
    traceLogits e m prompt n step st =
      (List.range n).map
        (fun i => stepLogits e m (step + i) (stateAfter e m prompt i step st)) := by
  induction n generalizing step st with
  | zero => rfl
  | succ n ih =>
    rw [List.range_succ_eq_map, List.map_cons, List.map_map]
    have h0 : stateAfter e m prompt 0 step st = st := rfl
    have hs : ∀ i, stateAfter e m prompt (i + 1) step st =
        stateAfter e m prompt i (step + 1) (nextState e m prompt step st) := fun _ => rfl
    have ha : ∀ i, step + 1 + i = step + (i + 1) := fun i => by omega
    simp only [traceLogits, ih, Nat.add_zero, h0, Function.comp_def, Nat.succ_eq_add_one, hs, ha]

/-- Ownership along the loop: the `Destroy` calls made so far (`D`) and the
current cache are, together, exactly the tensors created so far, each once. -/
theorem nextState_owned (e : Env α) (m : Model) (prompt : List Int) (step : Nat)
    (st : LoopState α) (base D : List Nat) (N0 : Nat)
    (hd : st.world.destroyed = base ++ D) (hN : N0 ≤ st.world.tensors.length)
    (hperm : (D ++ st.cacheValues).Perm
      (List.range' N0 (st.world.tensors.length - N0))) :
    ∃ D', (nextState e m prompt step st).world.destroyed = base ++ D' ∧
      N0 ≤ (nextState e m prompt step st).world.tensors.length ∧
      (D' ++ (nextState e m prompt step st).cacheValues).Perm
        (List.range' N0 ((nextState e m prompt step st).world.tensors.length - N0)) := by
  refine ⟨D ++ [st.world.tensors.length, st.world.tensors.length + 1,
    st.world.tensors.length + 2, st.world.tensors.length + 3] ++ st.cacheValues, ?_, ?_, ?_⟩
  · simp only [nextState, afterStep_eq, hd, List.append_assoc]
  · rw [nextState_tensors_length]
    omega
  · rw [nextState_tensors_length]
    have hlen : st.world.tensors.length + (4 + 2 * nLayers) - N0 =
        (4 + 2 * nLayers) + (st.world.tensors.length - N0) := by omega
    have hstart : N0 + (st.world.tensors.length - N0) = st.world.tensors.length := by omega
    have hnew : List.range' st.world.tensors.length (4 + 2 * nLayers) =
        [st.world.tensors.length, st.world.tensors.length + 1,
          st.world.tensors.length + 2, st.world.tensors.length + 3] ++
          List.range' (st.world.tensors.length + 4) (2 * nLayers) := by
      simp [Nat.add_comm 4 (2 * nLayers), List.range'_succ]
    have hsplit := List.range'_append_1 N0 (st.world.tensors.length - N0) (4 + 2 * nLayers)
    rw [hstart] at hsplit
    rw [hlen, ← hsplit, hnew]
    simp only [nextState]
    have h1 : (D ++ [st.world.tensors.length, st.world.tensors.length + 1,
        st.world.tensors.length + 2, st.world.tensors.length + 3] ++ st.cacheValues ++
        List.range' (st.world.tensors.length + 4) (2 * nLayers)).Perm
        ((D ++ st.cacheValues) ++ ([st.world.tensors.length, st.world.tensors.length + 1,
          st.world.tensors.length + 2, st.world.tensors.length + 3] ++
          List.range' (st.world.tensors.length + 4) (2 * nLayers))) := by
      simp only [List.append_assoc]
      apply List.Perm.append_left
      rw [← List.append_assoc, ← List.append_assoc]
      exact List.Perm.append_right _ List.perm_append_comm
    exact h1.trans (List.Perm.append_right _ hperm)

theorem stateAfter_owned (e : Env α) (m : Model) (prompt : List Int) (n step : Nat)
    (st : LoopState α) (base D : List Nat) (N0 : Nat)
    (hd : st.world.destroyed = base ++ D) (hN : N0 ≤ st.world.tensors.length)
    (hperm : (D ++ st.cacheValues).Perm
      (List.range' N0 (st.world.tensors.length - N0))) :
    ∃ D', (stateAfter e m prompt n step st).world.destroyed = base ++ D' ∧
      N0 ≤ (stateAfter e m prompt n step st).world.tensors.length ∧
      (D' ++ (stateAfter e m prompt n step st).cacheValues).Perm
        (List.range' N0 ((stateAfter e m prompt n step st).world.tensors.length - N0)) := by
  induction n with
  | zero => exact ⟨D, hd, hN, hperm⟩
  | succ n ih =>
    obtain ⟨D1, h1, h2, h3⟩ := ih
    rw [stateAfter_succ]
    exact nextState_owned e m prompt (step + n) _ base D1 N0 h1 h2 h3

theorem initialState_owned (prompt : List Int) (logits : Option (List (List α)))
    (w : World α) :
    (initialState prompt logits w).world.destroyed = w.destroyed ++ [] ∧
    w.tensors.length ≤ (initialState prompt logits w).world.tensors.length ∧
    (([] : List Nat) ++ (initialState prompt logits w).cacheValues).Perm
      (List.range' w.tensors.length
        ((initialState prompt logits w).world.tensors.length - w.tensors.length)) := by
  simp [initialState, emptyCache_eq]

theorem initialState_tensors_length (prompt : List Int) (logits : Option (List (List α)))
    (w : World α) :
    (initialState prompt logits w).world.tensors.length = w.tensors.length + 2 * nLayers := by
  simp [initialState, emptyCache_eq]

theorem Generate_buffers_aux (e : Env α) (hnf : e.NeverFails)
    (hs : SortSliceSpec e.sortSlice) (m : Model)
    (hin : m.inputNames.length = 3 + 2 * nLayers)
    (hout : m.outputNames.length = 1 + 2 * nLayers)
    (prompt : List Int) (hp : prompt ≠ []) (steps : Int) (hsteps : 0 ≤ steps)
    (hfit : e.Fits (prompt.length + steps.toNat))
    (logits : Option (List (List α))) (w : World α) :
    ∃ D, (m.Generate e prompt steps logits w).world.destroyed = w.destroyed ++ D ∧
      (m.Generate e prompt steps logits w).world.tensors.length =
        w.tensors.length + (2 * nLayers + (4 + 2 * nLayers) * (prompt.length + steps.toNat)) ∧
      D.Perm (List.range' w.tensors.length
        (2 * nLayers + (4 + 2 * nLayers) * (prompt.length + steps.toNat))) ∧
      ∀ i, i < prompt.length + steps.toNat →
        ∃ st Di, Model.Generate.loop e m prompt i 0 (initialState prompt logits w) = (none, st) ∧
          st.world.destroyed = w.destroyed ++ Di ∧
          ∀ v ∈ stepInputs st.world st.cacheValues, v ∉ Di := by
  obtain ⟨h1, h2, h3⟩ := initialState_owned prompt logits w
  obtain ⟨D, hD, hN, hperm⟩ := stateAfter_owned e m prompt (prompt.length + steps.toNat) 0
    (initialState prompt logits w) w.destroyed [] w.tensors.length h1 h2 h3
  have hlen := stateAfter_tensors_length e m prompt (prompt.length + steps.toNat) 0
    (initialState prompt logits w)
  rw [initialState_tensors_length] at hlen
  refine ⟨D ++ (stateAfter e m prompt (prompt.length + steps.toNat) 0
    (initialState prompt logits w)).cacheValues, ?_, ?_, ?_, ?_⟩
  · rw [Generate_eq e hnf hs m hin hout prompt hp steps hsteps hfit logits w]
    simp only [destroyValues_eq, hD, List.append_assoc]
  · rw [Generate_eq e hnf hs m hin hout prompt hp steps hsteps hfit logits w]
    simp only [destroyValues_eq, hlen]
    omega
  · rw [hlen] at hperm
    have hsub : w.tensors.length + 2 * nLayers +
        (4 + 2 * nLayers) * (prompt.length + steps.toNat) - w.tensors.length =
        2 * nLayers + (4 + 2 * nLayers) * (prompt.length + steps.toNat) := by omega
    rw [hsub] at hperm
    exact hperm
  · intro i _
    obtain ⟨Di, hDi, hNi, hpermi⟩ := stateAfter_owned e m prompt i 0
      (initialState prompt logits w) w.destroyed [] w.tensors.length h1 h2 h3
    refine ⟨_, Di, loop_eq_stateAfter e hnf hs m hin hout prompt i 0 _
      (initialState_cache_length _ _ _) (Fits_of_le e _ _ hfit (by omega)), hDi, ?_⟩
    intro v hv hvD
    have hnodup : (Di ++ (stateAfter e m prompt i 0
        (initialState prompt logits w)).cacheValues).Nodup :=
      hpermi.nodup_iff.mpr (List.nodup_range' _ _)
    have hvlt : v < (stateAfter e m prompt i 0
        (initialState prompt logits w)).world.tensors.length := by
      have := hpermi.mem_iff.mp (List.mem_append_left _ hvD)
      rw [List.mem_range'_1] at this
      omega
    simp only [stepInputs, List.mem_append, List.mem_cons, List.mem_singleton,
      List.not_mem_nil, or_false] at hv
    rcases hv with (h | h | h) | h
    · omega
    · omega
    · omega
    · exact (List.nodup_append.mp hnodup).2.2 hvD h

/-! ## Lemmas: failures -/

/-- The call when the capacity of `out` and the loop bound fit: `make`
succeeds and the loop has `len(prompt) + steps` iterations. -/
theorem Generate_unfold (e : Env α) (m : Model) (prompt : List Int) (hp : prompt ≠ [])
    (steps : Int) (hsteps : 0 ≤ steps) (hfit : e.Fits (prompt.length + steps.toNat))
    (logits : Option (List (List α))) (w : World α) :
    m.Generate e prompt steps logits w =
      match Model.Generate.loop e m prompt (prompt.length + steps.toNat) 0
          (initialState prompt logits w) with
      | (some f, st) => ⟨.error f, st.logits, destroyValues st.cacheValues st.world⟩
      | (none, st) =>
        ⟨.ok ((st.out ++ List.replicate (steps.toNat - st.out.length) 0).take steps.toNat),
          st.logits, destroyValues st.cacheValues st.world⟩ := by
  cases prompt with
  | nil => exact absurd rfl hp
  | cons token rest =>
    obtain ⟨hf1, hf2⟩ := hfit
    have hlen : ((token :: rest).length : Int) = (rest.length : Int) + 1 := by simp
    have hcap : wrapInt64 (steps + 1) = steps + 1 :=
      wrapInt64_eq _ (by omega) (by push_cast at hf1; omega)
    have hbound : wrapInt64 (((token :: rest).length : Int) + steps) =
        ((token :: rest).length : Int) + steps :=
      wrapInt64_eq _ (by omega) (by push_cast at hf1; omega)
    have hn : (((token :: rest).length : Int) + steps).toNat =
        (token :: rest).length + steps.toNat := by omega
    have h0 : ¬ (steps + 1 < 0 ∨ (e.makeLimit : Int) < steps + 1) := by
      simp only [List.length_cons] at hf2
      omega
    have h1 : ¬ (steps < 0 ∨ steps + 1 < steps) := by omega
    have hst : (⟨token, [], (emptyCache w).1, logits, (emptyCache w).2⟩ : LoopState α) =
        initialState (token :: rest) logits w := rfl
    unfold Model.Generate
    simp only [hcap, hbound, h0, h1, if_false, hn, hst]

omit [LinearOrderedField α] in
theorem initInputs_cases (e : Env α) (token : Int) (position : Nat) (w : World α)
    (hfit : e.Fits (position + 1)) :
    (∃ err w', initInputs e token position w = (.error (.error err), w') ∧
      w'.runs = w.runs ∧ w'.destroyed = w.destroyed ∧ w'.bindings = w.bindings ∧
      w'.bindingsDestroyed = w.bindingsDestroyed) ∨
    initInputs e token position w =
      (.ok [w.tensors.length, w.tensors.length + 1, w.tensors.length + 2],
       { w with
         tensors := w.tensors ++
           [⟨[1, 1], .int64 [token]⟩, ⟨[1, 1], .int64 [(position : Int)]⟩,
            ⟨[1, (position : Int) + 1], .int64 (List.replicate (position + 1) 1)⟩] }) := by
  rw [initInputs_of_fits e token position w hfit]
  unfold newTensor
  cases h1 : e.newTensor w [1, 1] [token] with
  | some err => exact Or.inl ⟨err, w, rfl, rfl, rfl, rfl, rfl⟩
  | none =>
    simp only [World.alloc]
    cases h2 : e.newTensor { w with tensors := w.tensors ++ [⟨[1, 1], .int64 [token]⟩] }
        [1, 1] [(position : Int)] with
    | some err => exact Or.inl ⟨err, _, rfl, rfl, rfl, rfl, rfl⟩
    | none =>
      simp only []
      cases h3 : e.newTensor
          { w with tensors := w.tensors ++ [⟨[1, 1], .int64 [token]⟩] ++
              [⟨[1, 1], .int64 [(position : Int)]⟩] }
          [1, (position : Int) + 1] (List.replicate (position + 1) 1) with
      | some err => exact Or.inl ⟨err, _, rfl, rfl, rfl, rfl, rfl⟩
      | none =>
        right
        simp [Nat.add_assoc]

theorem initOutputs_cases (e : Env α) (position : Nat) (w : World α)
    (hfit : e.Fits (position + 1)) :
    (∃ err, initOutputs e position w = (.error (.error err), w)) ∨
    initOutputs e position w =
      (.ok (List.range' w.tensors.length (1 + 2 * nLayers)),
       { w with
         tensors := w.tensors ++ (zeroTensor [1, 1, (vocabSize : Int)] ::
           List.replicate (2 * nLayers)
             (zeroTensor [1, (nHeads : Int), (position : Int) + 1, (headDim : Int)])) }) := by
  rw [initOutputs_of_fits e position w hfit]
  unfold newEmptyTensor
  cases h1 : e.newEmptyTensor w [1, 1, (vocabSize : Int)] with
  | some err => exact Or.inl ⟨err, rfl⟩
  | none =>
    right
    simp only [emptyTensor, World.alloc, appendLayers_eq]
    simp [Nat.add_comm 1 (2 * nLayers), List.range'_succ, zeroTensor]

/-- Method `forward` ends in one of two ways: it returns an error, and then
no forward pass is logged, or every step succeeded and it returns the 25
outputs. It never panics when the cache holds `2 * nLayers` values. -/
theorem forward_cases (e : Env α) (m : Model) (token : Int) (position : Nat)
    (cache : List Nat) (w : World α) (hfit : e.Fits (position + 1))
    (hin : m.inputNames.length = 3 + cache.length)
    (hout : m.outputNames.length = 1 + 2 * nLayers) :
    (∃ err w', m.forward e token position cache w = (.error (.error err), w') ∧
      w'.runs = w.runs) ∨
    (∃ fill, e.runWithBinding (runWorld token position w)
        (m.inputNames.zip (stepInputs w cache)) (m.outputNames.zip (stepOutputs w)) = .ok fill ∧
      m.forward e token position cache w =
        (.ok (stepOutputs w),
          destroyBinding (destroyValues
            [w.tensors.length, w.tensors.length + 1, w.tensors.length + 2]
            ((runWorld token position w).run (m.inputNames.zip (stepInputs w cache))
              (m.outputNames.zip (stepOutputs w)) fill)))) := by
  unfold Model.forward
  cases h1 : e.createIoBinding w with
  | some err => exact Or.inl ⟨err, w, rfl, rfl⟩
  | none =>
    simp only []
    rcases initInputs_cases e token position { w with bindings := w.bindings + 1 } hfit with
      ⟨err, w', h, hr, -, -, -⟩ | h
    · rw [h]
      exact Or.inl ⟨err, _, rfl, by simp [destroyBinding, hr]⟩
    · rw [h]
      simp only []
      rcases initOutputs_cases e position
        { w with bindings := w.bindings + 1,
                 tensors := w.tensors ++
                   [⟨[1, 1], .int64 [token]⟩, ⟨[1, 1], .int64 [(position : Int)]⟩,
                    ⟨[1, (position : Int) + 1], .int64 (List.replicate (position + 1) 1)⟩] }
        hfit with ⟨err, h'⟩ | h'
      · rw [h']
        exact Or.inl ⟨err, _, rfl, by simp [destroyBinding, destroyValues_eq]⟩
      · rw [h']
        have hw : ({ w with
            bindings := w.bindings + 1,
            tensors := w.tensors ++
              [⟨[1, 1], .int64 [token]⟩, ⟨[1, 1], .int64 [(position : Int)]⟩,
               ⟨[1, (position : Int) + 1], .int64 (List.replicate (position + 1) 1)⟩] ++
              (zeroTensor [1, 1, (vocabSize : Int)] ::
                List.replicate (2 * nLayers)
                  (zeroTensor [1, (nHeads : Int), (position : Int) + 1, (headDim : Int)])) }
            : World α) = runWorld token position w := by
          simp [runWorld, stepTensors]
        have hO : List.range' (w.tensors ++
            [(⟨[1, 1], .int64 [token]⟩ : Tensor α), ⟨[1, 1], .int64 [(position : Int)]⟩,
             ⟨[1, (position : Int) + 1], .int64 (List.replicate (position + 1) 1)⟩]).length
            (1 + 2 * nLayers) = stepOutputs w := by
          simp [stepOutputs]
        have hI : [w.tensors.length, w.tensors.length + 1, w.tensors.length + 2] ++ cache =
            stepInputs w cache := rfl
        have hlenI : (stepInputs w cache).length = m.inputNames.length := by
          simp [stepInputs, hin]
          omega
        have hlenO : (stepOutputs w).length = m.outputNames.length := by
          simp [stepOutputs, hout]
        simp only [hw, hO, hI, hlenI, hlenO, ne_eq, not_true_eq_false, if_false]
        cases hb : bindAll e.bindInput (runWorld token position w)
            (m.inputNames.zip (stepInputs w cache)) with
        | some err => exact Or.inl ⟨err, _, rfl, by simp [destroyBinding, destroyValues_eq, runWorld]⟩
        | none =>
          simp only []
          cases hb2 : bindAll e.bindOutput (runWorld token position w)
              (m.outputNames.zip (stepOutputs w)) with
          | some err =>
            exact Or.inl ⟨err, _, rfl, by simp [destroyBinding, destroyValues_eq, runWorld]⟩
          | none =>
            simp only []
            cases hr : e.runWithBinding (runWorld token position w)
                (m.inputNames.zip (stepInputs w cache)) (m.outputNames.zip (stepOutputs w)) with
            | error err =>
              exact Or.inl ⟨err, _, rfl, by simp [destroyBinding, destroyValues_eq, runWorld]⟩
            | ok fill => exact Or.inr ⟨fill, rfl, rfl⟩

theorem body_forward_error (e : Env α) (m : Model) (prompt : List Int) (step : Nat)
    (st : LoopState α) (f : Fault) (w' : World α)
    (h : m.forward e st.token step st.cacheValues st.world = (.error f, w')) :
    Model.Generate.body e m prompt step st = (some f, { st with world := w' }) := by
  unfold Model.Generate.body
  rw [h]

theorem body_forward_ok (e : Env α) (hs : SortSliceSpec e.sortSlice) (m : Model)
    (hout : m.outputNames.length = 1 + 2 * nLayers)
    (prompt : List Int) (step : Nat) (st : LoopState α) (fill : Nat → Nat → α)
    (hfill : e.runWithBinding (runWorld st.token step st.world)
        (m.inputNames.zip (stepInputs st.world st.cacheValues))
        (m.outputNames.zip (stepOutputs st.world)) = .ok fill)
    (hfwd : m.forward e st.token step st.cacheValues st.world =
      (.ok (stepOutputs st.world),
        destroyBinding (destroyValues
          [st.world.tensors.length, st.world.tensors.length + 1, st.world.tensors.length + 2]
          ((runWorld st.token step st.world).run
            (m.inputNames.zip (stepInputs st.world st.cacheValues))
            (m.outputNames.zip (stepOutputs st.world)) fill)))) :
    Model.Generate.body e m prompt step st = (none, nextState e m prompt step st) := by
  obtain ⟨-, p, t, rest, topP, -, -, hp, hk, hsel, -, -, -⟩ :=
    sample_ok e.exp e.sortSlice hs (logitsOf fill) (logitsOf_ne_nil fill)
  have hf : stepFill e m step st = fill := by
    simp [stepFill, hfill]
  have hsel' : selected e (stepLogits e m step st) = (t : Int) := by
    simp [selected, stepLogits, hf, hsel]
  unfold Model.Generate.body
  rw [hfwd]
  simp only []
  rw [stepOutputs_eq]
  simp only []
  rw [← stepOutputs_eq, getData_logits m hout]
  simp only [hp, hk]
  unfold nextState
  rw [hsel']
  simp only [stepLogits, hf]
  by_cases hlt : step + 1 < prompt.length
  · have hcond : (step : Int) < (prompt.length : Int) - 1 := by omega
    have hget : prompt[step + 1]? = some (prompt.getD (step + 1) 0) := by
      rw [List.getD_eq_getElem _ _ hlt]
      exact List.getElem?_eq_getElem hlt
    simp only [hcond, hlt, if_true, hget, afterStep]
  · have hcond : ¬ ((step : Int) < (prompt.length : Int) - 1) := by omega
    simp only [hcond, hlt, if_false, afterStep]

/-- An iteration either ends the call with a returned error, leaving the log
of forward passes as it was, or completes; it never panics. -/
theorem body_cases (e : Env α) (hs : SortSliceSpec e.sortSlice) (m : Model)
    (hin : m.inputNames.length = 3 + 2 * nLayers)
    (hout : m.outputNames.length = 1 + 2 * nLayers)
    (prompt : List Int) (step : Nat) (st : LoopState α)
    (hc : st.cacheValues.length = 2 * nLayers) (hfit : e.Fits (step + 1)) :
    (∃ err w', Model.Generate.body e m prompt step st =
        (some (.error err), { st with world := w' }) ∧ w'.runs = st.world.runs) ∨
    Model.Generate.body e m prompt step st = (none, nextState e m prompt step st) := by
  rcases forward_cases e m st.token step st.cacheValues st.world hfit (by rw [hin, hc])
      hout with
    ⟨err, w', h, hr⟩ | ⟨fill, hfill, h⟩
  · exact Or.inl ⟨err, w', body_forward_error e m prompt step st _ w' h, hr⟩
  · exact Or.inr (body_forward_ok e hs m hout prompt step st fill hfill h)

theorem loop_cases (e : Env α) (hs : SortSliceSpec e.sortSlice) (m : Model)
    (hin : m.inputNames.length = 3 + 2 * nLayers)
    (hout : m.outputNames.length = 1 + 2 * nLayers)
    (prompt : List Int) (n step : Nat) (st : LoopState α)
    (hc : st.cacheValues.length = 2 * nLayers) (hfit : e.Fits (step + n)) :
    (∃ err st', Model.Generate.loop e m prompt n step st = (some (.error err), st')) ∨
    Model.Generate.loop e m prompt n step st = (none, stateAfter e m prompt n step st) := by
  induction n generalizing step st with
  | zero => exact Or.inr rfl
  | succ n ih =>
    unfold Model.Generate.loop
    rcases body_cases e hs m hin hout prompt step st hc (Fits_of_le e _ _ hfit (by omega))
      with ⟨err, w', h, -⟩ | h
    · rw [h]
      exact Or.inl ⟨err, _, rfl⟩
    · rw [h]
      simp only [stateAfter]
      exact ih (step + 1) _ (by simp [nextState]) (Fits_of_le e _ _ hfit (by omega))

theorem loop_append (e : Env α) (m : Model) (prompt : List Int) (a b step : Nat)
    (st : LoopState α) :
    Model.Generate.loop e m prompt (a + b) step st =
      match Model.Generate.loop e m prompt a step st with
      | (some f, st') => (some f, st')
      | (none, st') => Model.Generate.loop e m prompt b (step + a) st' := by
  induction a generalizing step st with
  | zero => simp [Model.Generate.loop]
  | succ a ih =>
    have h : a + 1 + b = (a + b) + 1 := by omega
    rw [h]
    simp only [Model.Generate.loop]
    cases hb : Model.Generate.body e m prompt step st with
    | mk r st1 =>
      cases r with
      | some f => rfl
      | none =>
        simp only []
        rw [ih]
        have h2 : step + 1 + a = step + (a + 1) := by omega
        rw [h2]

/-- The call when `forward` returns an error at position `p`, after `p`
iterations without a fault. -/
theorem Generate_forward_error_aux (e : Env α) (m : Model) (prompt : List Int)
    (hp : prompt ≠ []) (steps : Int) (hsteps : 0 ≤ steps)
    (hfit : e.Fits (prompt.length + steps.toNat))
    (logits : Option (List (List α))) (w : World α) (p : Nat) (st : LoopState α)
    (f : Fault) (w' : World α)
    (hlt : p < prompt.length + steps.toNat)
    (hloop : Model.Generate.loop e m prompt p 0 (initialState prompt logits w) = (none, st))
    (hfwd : m.forward e st.token p st.cacheValues st.world = (.error f, w')) :
    m.Generate e prompt steps logits w =
      ⟨.error f, st.logits, destroyValues st.cacheValues w'⟩ ∧
    ∀ q, p < q → Model.Generate.loop e m prompt q 0 (initialState prompt logits w) =
      (some f, { st with world := w' }) := by
  have hbody := body_forward_error e m prompt p st f w' hfwd
  have hq : ∀ q, p < q → Model.Generate.loop e m prompt q 0 (initialState prompt logits w) =
      (some f, { st with world := w' }) := by
    intro q hq
    have h1 : q = p + ((q - p - 1) + 1) := by omega
    rw [h1, loop_append, hloop]
    simp only [Model.Generate.loop, Nat.zero_add, hbody]
  refine ⟨?_, hq⟩
  rw [Generate_unfold e m prompt hp steps hsteps hfit logits w, hq _ hlt]

theorem failAtEnv_run (p : Nat) (m : Model) (token : Int) (step : Nat) (w : World ℚ)
    (cache : List Nat) :
    (failAtEnv p).runWithBinding (runWorld token step w)
        (m.Init.inputNames.zip (stepInputs w cache)) (m.Init.outputNames.zip (stepOutputs w)) =
      if (step : Int) = (p : Int) then .error "forward pass failed"
      else .ok (fun _ j => if j = 21831 then 1 else 0) := by
  simp only [failAtEnv, positionOf_runWorld]

theorem failAtEnv_forward_error (p : Nat) (m : Model) (token : Int) (w : World ℚ)
    (cache : List Nat) (hc : cache.length = 2 * nLayers) (hfit : (failAtEnv p).Fits (p + 1)) :
    m.Init.forward (failAtEnv p) token p cache w =
      (.error (.error "forward pass failed"),
        destroyBinding (destroyValues
          [w.tensors.length, w.tensors.length + 1, w.tensors.length + 2]
          (destroyValues (stepOutputs w) (runWorld token p w)))) := by
  obtain ⟨hin, hout⟩ := Init_names_length m
  rw [forward_eq (failAtEnv p) m.Init token p cache w (fun _ => rfl) (fun _ _ _ => rfl)
    (fun _ _ => rfl) (fun _ _ _ => rfl) (fun _ _ _ => rfl) hfit (by rw [hin, hc]) hout,
    failAtEnv_run]
  simp

theorem failAtEnv_body (p : Nat) (m : Model) (prompt : List Int) (step : Nat)
    (st : LoopState ℚ) (hc : st.cacheValues.length = 2 * nLayers) (hne : step ≠ p)
    (hfit : (failAtEnv p).Fits (step + 1)) :
    Model.Generate.body (failAtEnv p) m.Init prompt step st =
      (none, nextState (failAtEnv p) m.Init prompt step st) := by
  obtain ⟨hin, hout⟩ := Init_names_length m
  have hne' : ¬ ((step : Int) = (p : Int)) := by omega
  have hrun := failAtEnv_run p m st.token step st.world st.cacheValues
  rw [if_neg hne'] at hrun
  apply body_forward_ok (failAtEnv p) insertionSortSlice_spec m.Init hout prompt step st _ hrun
  rw [forward_eq (failAtEnv p) m.Init st.token step st.cacheValues st.world (fun _ => rfl)
    (fun _ _ _ => rfl) (fun _ _ => rfl) (fun _ _ _ => rfl) (fun _ _ _ => rfl) hfit
    (by rw [hin, hc]) hout, hrun]

theorem failAtEnv_loop (p : Nat) (m : Model) (prompt : List Int) (k step : Nat)
    (st : LoopState ℚ) (hc : st.cacheValues.length = 2 * nLayers) (hk : step + k ≤ p)
    (hfit : (failAtEnv p).Fits (step + k)) :
    Model.Generate.loop (failAtEnv p) m.Init prompt k step st =
      (none, stateAfter (failAtEnv p) m.Init prompt k step st) := by
  induction k generalizing step st with
  | zero => rfl
  | succ k ih =>
    rw [Model.Generate.loop,
      failAtEnv_body p m prompt step st hc (by omega) (Fits_of_le _ _ _ hfit (by omega))]
    exact ih (step + 1) _ (by simp [nextState]) (by omega)
      (Fits_of_le _ _ _ hfit (by omega))

/-- Method `forward` once its binding and its 28 tensors are created: what is
destroyed depends on which of the three remaining stages fails. -/
theorem forward_created (e : Env α) (m : Model) (token : Int) (position : Nat)
    (cache : List Nat) (w : World α)
    (h1 : ∀ w, e.createIoBinding w = none)
    (h2 : ∀ w shape data, e.newTensor w shape data = none)
    (h3 : ∀ w shape, e.newEmptyTensor w shape = none)
    (hfit : e.Fits (position + 1))
    (hin : m.inputNames.length = 3 + cache.length)
    (hout : m.outputNames.length = 1 + 2 * nLayers) :
    m.forward e token position cache w =
      match bindAll e.bindInput (runWorld token position w)
          (m.inputNames.zip (stepInputs w cache)) with
      | some err =>
        (.error (.error err),
          destroyBinding (destroyValues
            [w.tensors.length, w.tensors.length + 1, w.tensors.length + 2]
            (runWorld token position w)))
      | none =>
        match bindAll e.bindOutput (runWorld token position w)
            (m.outputNames.zip (stepOutputs w)) with
        | some err =>
          (.error (.error err),
            destroyBinding (destroyValues
              [w.tensors.length, w.tensors.length + 1, w.tensors.length + 2]
              (destroyValues (stepOutputs w) (runWorld token position w))))
        | none =>
          match e.runWithBinding (runWorld token position w)
              (m.inputNames.zip (stepInputs w cache)) (m.outputNames.zip (stepOutputs w)) with
          | .error err =>
            (.error (.error err),
              destroyBinding (destroyValues
                [w.tensors.length, w.tensors.length + 1, w.tensors.length + 2]
                (destroyValues (stepOutputs w) (runWorld token position w))))
          | .ok fill =>
            (.ok (stepOutputs w),
              destroyBinding (destroyValues
                [w.tensors.length, w.tensors.length + 1, w.tensors.length + 2]
                ((runWorld token position w).run (m.inputNames.zip (stepInputs w cache))
                  (m.outputNames.zip (stepOutputs w)) fill))) := by
  have hw : (⟨w.tensors ++ [⟨[1, 1], .int64 [token]⟩] ++ [⟨[1, 1], .int64 [(position : Int)]⟩] ++
        [⟨[1, (position : Int) + 1], .int64 (List.replicate (position + 1) 1)⟩] ++
        [⟨[1, 1, (vocabSize : Int)],
          .float32 (List.replicate (flattenedSize [1, 1, (vocabSize : Int)]) 0)⟩] ++
        List.replicate (2 * nLayers)
          (zeroTensor [1, (nHeads : Int), (position : Int) + 1, (headDim : Int)]),
        w.destroyed, w.bindings + 1, w.bindingsDestroyed, w.runs⟩ : World α) =
      runWorld token position w := by
    simp [runWorld, stepTensors, zeroTensor]
  have hO : (w.tensors.length + 1 + 1 + 1) ::
      List.range' (w.tensors.length + 1 + 1 + 1 + 1) (2 * nLayers) = stepOutputs w := by
    simp [stepOutputs, Nat.add_comm 1 (2 * nLayers), List.range'_succ]
  have hI : [w.tensors.length, w.tensors.length + 1, w.tensors.length + 1 + 1] ++ cache
      = stepInputs w cache := by
    simp [stepInputs]
  have hout' : (stepOutputs w).length = m.outputNames.length := by
    simp [stepOutputs, hout]
  have hlen3 : [w.tensors.length, w.tensors.length + 1, w.tensors.length + 1 + 1].length +
      cache.length = m.inputNames.length := by
    simp [hin]
  have hII := fun w' => initInputs_of_fits e token position w' hfit
  have hIO := fun w' => initOutputs_of_fits e position w' hfit
  simp only [Model.forward, h1, hII, newTensor, h2, World.alloc, hIO,
    newEmptyTensor, h3, emptyTensor, appendLayers_eq, List.length_append,
    List.length_singleton, List.singleton_append]
  simp only [hw, hO, hI, hlen3, hout', ne_eq, not_true_eq_false, if_false]

theorem bindInputFailEnv_forward (m : Model) (token : Int) (position : Nat)
    (cache : List Nat) (hc : cache.length = 2 * nLayers) (w : World ℚ)
    (hfit : bindInputFailEnv.Fits (position + 1)) :
    m.Init.forward bindInputFailEnv token position cache w =
      (.error (.error "bind input failed"),
        destroyBinding (destroyValues
          [w.tensors.length, w.tensors.length + 1, w.tensors.length + 2]
          (runWorld token position w))) := by
  obtain ⟨hin, hout⟩ := Init_names_length m
  obtain ⟨X, hX⟩ := Init_inputNames_prefix m
  rw [forward_created bindInputFailEnv m.Init token position cache w (fun _ => rfl)
    (fun _ _ _ => rfl) (fun _ _ => rfl) hfit (by rw [hin, hc]) hout]
  have hb : bindAll bindInputFailEnv.bindInput (runWorld token position w)
      (m.Init.inputNames.zip (stepInputs w cache)) = some "bind input failed" := by
    rw [hX]
    simp [stepInputs, bindAll, bindInputFailEnv]
  rw [hb]

theorem positionTensorFailEnv_forward (m : Model) (cache : List Nat) (w : World ℚ) :
    m.forward positionTensorFailEnv 464 0 cache w =
      (.error (.error "new tensor failed"),
        destroyBinding
          { w with
            bindings := w.bindings + 1,
            tensors := w.tensors ++ [⟨[1, 1], .int64 [464]⟩] }) := by
  simp [Model.forward, initInputs, newTensor, positionTensorFailEnv, World.alloc]

theorem Generate_cases_aux (e : Env α) (hs : SortSliceSpec e.sortSlice) (m : Model)
    (hin : m.inputNames.length = 3 + 2 * nLayers)
    (hout : m.outputNames.length = 1 + 2 * nLayers)
    (prompt : List Int) (hp : prompt ≠ []) (steps : Int) (hsteps : 0 ≤ steps)
    (hfit : e.Fits (prompt.length + steps.toNat))
    (logits : Option (List (List α))) (w : World α) :
    (∃ out, (m.Generate e prompt steps logits w).result = .ok out) ∨
    (∃ err, (m.Generate e prompt steps logits w).result = .error (.error err)) := by
  rw [Generate_unfold e m prompt hp steps hsteps hfit logits w]
  rcases loop_cases e hs m hin hout prompt (prompt.length + steps.toNat) 0
    (initialState prompt logits w) (initialState_cache_length _ _ _)
    (by rw [Nat.zero_add]; exact hfit) with ⟨err, st', h⟩ | h
  · rw [h]
    exact Or.inr ⟨err, rfl⟩
  · rw [h]
    exact Or.inl ⟨_, rfl⟩

/-! ## Lemmas: the state at every step -/

theorem stepFill_ok (e : Env α) (hnf : e.NeverFails) (m : Model) (step : Nat)
    (st : LoopState α) :
    e.runWithBinding (runWorld st.token step st.world) (stepBindings m st).1
      (stepBindings m st).2 = .ok (stepFill e m step st) := by
  obtain ⟨fill, h⟩ := hnf.2.2.2.2.2 (runWorld st.token step st.world)
    (m.inputNames.zip (stepInputs st.world st.cacheValues))
    (m.outputNames.zip (stepOutputs st.world))
  simp only [stepBindings, stepFill, h]

theorem runWorld_inputs (token : Int) (position : Nat) (w : World α) :
    (runWorld token position w).tensors[w.tensors.length]? =
      some ⟨[1, 1], .int64 [token]⟩ ∧
    (runWorld token position w).tensors[w.tensors.length + 1]? =
      some ⟨[1, 1], .int64 [(position : Int)]⟩ ∧
    (runWorld token position w).tensors[w.tensors.length + 2]? =
      some ⟨[1, (position : Int) + 1], .int64 (List.replicate (position + 1) 1)⟩ := by
  simp only [runWorld]
  refine ⟨?_, ?_, ?_⟩
  · rw [List.getElem?_append_right (Nat.le_refl _)]
    simp [stepTensors]
  · rw [List.getElem?_append_right (Nat.le_add_right _ _)]
    simp [stepTensors]
  · rw [List.getElem?_append_right (Nat.le_add_right _ _)]
    simp [stepTensors]

theorem forward_ok (e : Env α) (hnf : e.NeverFails) (m : Model)
    (hin : m.inputNames.length = 3 + 2 * nLayers)
    (hout : m.outputNames.length = 1 + 2 * nLayers) (step : Nat) (st : LoopState α)
    (hc : st.cacheValues.length = 2 * nLayers) (hfit : e.Fits (step + 1)) :
    (m.forward e st.token step st.cacheValues st.world).1 = .ok (stepOutputs st.world) := by
  obtain ⟨h1, h2, h3, h4, h5, h6⟩ := hnf
  obtain ⟨fill, hfill⟩ := h6 (runWorld st.token step st.world)
    (m.inputNames.zip (stepInputs st.world st.cacheValues))
    (m.outputNames.zip (stepOutputs st.world))
  rw [forward_eq e m st.token step st.cacheValues st.world h1 h2 h3 h4 h5 hfit
    (by rw [hin, hc]) hout, hfill]

theorem stateAfter_token (e : Env α) (m : Model) (prompt : List Int) (n : Nat)
    (st : LoopState α) :
    (stateAfter e m prompt (n + 1) 0 st).token =
      if n + 1 < prompt.length then prompt.getD (n + 1) 0
      else selected e (stepLogits e m n (stateAfter e m prompt n 0 st)) := by
  rw [stateAfter_succ]
  simp only [nextState, Nat.zero_add]

theorem stateAfter_token_prompt (e : Env α) (m : Model) (prompt : List Int)
    (logits : Option (List (List α))) (w : World α) (i : Nat) (hi : i < prompt.length) :
    prompt[i]? = some (stateAfter e m prompt i 0 (initialState prompt logits w)).token := by
  cases i with
  | zero =>
    cases prompt with
    | nil => simp at hi
    | cons t r => simp [stateAfter, initialState]
  | succ n =>
    rw [stateAfter_token, if_pos hi, List.getD_eq_getElem _ _ hi]
    exact List.getElem?_eq_getElem hi

theorem stateAfter_token_selected (e : Env α) (hs : SortSliceSpec e.sortSlice) (m : Model)
    (prompt : List Int) (n : Nat) (st : LoopState α) (hn : prompt.length ≤ n + 1) :
    selectToken e.exp e.sortSlice (logitsOf (stepFill e m n (stateAfter e m prompt n 0 st))) =
      some (stateAfter e m prompt (n + 1) 0 st).token := by
  rw [stateAfter_token, if_neg (by omega)]
  exact selectToken_eq_selected e hs _ (logitsOf_ne_nil _)

theorem stateAfter_cache_succ (e : Env α) (m : Model) (prompt : List Int) (n : Nat)
    (st : LoopState α) :
    (stateAfter e m prompt (n + 1) 0 st).cacheValues =
      (stepOutputs (stateAfter e m prompt n 0 st).world).tail := by
  rw [stateAfter_succ, stepOutputs_eq]
  simp only [nextState, List.tail_cons]

theorem stateAfter_cache_eq (e : Env α) (m : Model) (prompt : List Int)
    (logits : Option (List (List α))) (w : World α) (n : Nat) :
    (stateAfter e m prompt n 0 (initialState prompt logits w)).cacheValues =
      List.range' (w.tensors.length + (4 + 2 * nLayers) * n) (2 * nLayers) := by
  cases n with
  | zero => simp [stateAfter, initialState, emptyCache_eq]
  | succ n =>
    rw [stateAfter_succ]
    simp only [nextState]
    rw [stateAfter_tensors_length, initialState_tensors_length]
    congr 1
    ring

/-- The tokens collected after `n` iterations: one for each step from
`len(prompt) - 1` on. -/
theorem stateAfter_out_range (e : Env α) (m : Model) (prompt : List Int) (n : Nat)
    (st : LoopState α) :
    (stateAfter e m prompt n 0 st).out =
      st.out ++ (List.range' (prompt.length - 1) (n - (prompt.length - 1))).map
        (fun i => selected e (stepLogits e m i (stateAfter e m prompt i 0 st))) := by
  induction n with
  | zero => simp [stateAfter]
  | succ n ih =>
    rw [stateAfter_succ]
    by_cases hlt : n + 1 < prompt.length
    · have h1 : n + 1 - (prompt.length - 1) = 0 := by omega
      have h2 : n - (prompt.length - 1) = 0 := by omega
      rw [h1]
      rw [h2] at ih
      simp only [nextState, Nat.zero_add, hlt, if_true, ih]
    · have h1 : n + 1 - (prompt.length - 1) = (n - (prompt.length - 1)) + 1 := by omega
      have h2 : prompt.length - 1 + (n - (prompt.length - 1)) = n := by omega
      rw [h1, List.range'_concat, List.map_append, ← List.append_assoc, ← ih]
      simp only [nextState, hlt, if_false, Nat.zero_add, List.map_cons, List.map_nil,
        Nat.mul_one, h2, one_mul]

theorem traceLogits_getElem? (e : Env α) (m : Model) (prompt : List Int) (n : Nat)
    (st : LoopState α) (i : Nat) (hi : i < n) :
    (traceLogits e m prompt n 0 st)[i]? =
      some (logitsOf (stepFill e m i (stateAfter e m prompt i 0 st))) := by
  rw [traceLogits_eq_map, List.getElem?_map, List.getElem?_range hi]
  simp only [Option.map_some', Nat.zero_add, stepLogits]

/-! ## Lemmas: names and buffers of consecutive steps -/

omit [LinearOrderedField α] in
theorem Init_names_at (m : Model) (k : Nat) (hk : k < nLayers) :
    m.Init.inputNames[3 + 2 * k]? = some ("past_key_values." ++ toString k ++ ".key") ∧
    m.Init.inputNames[4 + 2 * k]? = some ("past_key_values." ++ toString k ++ ".value") ∧
    m.Init.outputNames[0]? = some "logits" ∧
    m.Init.outputNames[1 + 2 * k]? = some ("present." ++ toString k ++ ".key") ∧
    m.Init.outputNames[2 + 2 * k]? = some ("present." ++ toString k ++ ".value") := by
  obtain ⟨h1, h2⟩ := Init_names m
  rw [h1, h2]
  unfold nLayers at hk
  interval_cases k <;> exact ⟨rfl, rfl, rfl, rfl, rfl⟩

omit [LinearOrderedField α] in
theorem stepBindings_outputs (m : Model) (st : LoopState α) (k : Nat) (hk : k < nLayers) :
    (stepBindings m.Init st).2[0]? = some ("logits", st.world.tensors.length + 3) ∧
    (stepBindings m.Init st).2[1 + 2 * k]? =
      some ("present." ++ toString k ++ ".key", st.world.tensors.length + 4 + 2 * k) ∧
    (stepBindings m.Init st).2[2 + 2 * k]? =
      some ("present." ++ toString k ++ ".value", st.world.tensors.length + 5 + 2 * k) := by
  obtain ⟨-, -, h0, h1, h2⟩ := Init_names_at m k hk
  simp only [stepBindings, stepOutputs]
  refine ⟨List.getElem?_zip_eq_some.mpr ⟨h0, ?_⟩, List.getElem?_zip_eq_some.mpr ⟨h1, ?_⟩,
    List.getElem?_zip_eq_some.mpr ⟨h2, ?_⟩⟩
  · rw [List.getElem?_range' _ _ (by omega)]
  · rw [List.getElem?_range' _ _ (by omega)]
    simp only [one_mul, Option.some.injEq]
    omega
  · rw [List.getElem?_range' _ _ (by omega)]
    simp only [one_mul, Option.some.injEq]
    omega

omit [LinearOrderedField α] in
theorem stepBindings_inputs (m : Model) (st : LoopState α) (a : Nat)
    (hc : st.cacheValues = List.range' a (2 * nLayers)) (k : Nat) (hk : k < nLayers) :
    (stepBindings m.Init st).1[3 + 2 * k]? =
      some ("past_key_values." ++ toString k ++ ".key", a + 2 * k) ∧
    (stepBindings m.Init st).1[4 + 2 * k]? =
      some ("past_key_values." ++ toString k ++ ".value", a + 1 + 2 * k) := by
  obtain ⟨h3, h4, -, -, -⟩ := Init_names_at m k hk
  simp only [stepBindings, stepInputs, hc]
  refine ⟨List.getElem?_zip_eq_some.mpr ⟨h3, ?_⟩, List.getElem?_zip_eq_some.mpr ⟨h4, ?_⟩⟩
  · rw [List.getElem?_append_right (by simp)]
    have : 3 + 2 * k - [st.world.tensors.length, st.world.tensors.length + 1,
        st.world.tensors.length + 2].length = 2 * k := by simp
    rw [this, List.getElem?_range' _ _ (by omega)]
    simp
  · rw [List.getElem?_append_right (by simp; omega)]
    have : 4 + 2 * k - [st.world.tensors.length, st.world.tensors.length + 1,
        st.world.tensors.length + 2].length = 2 * k + 1 := by
      simp only [List.length_cons, List.length_nil]
      omega
    rw [this, List.getElem?_range' _ _ (by omega)]
    simp only [one_mul, Option.some.injEq]
    omega

omit [LinearOrderedField α] in
theorem map_range_getElem? {β : Type} (f : Nat → β) (n i : Nat) (c : β)
    (h : ((List.range n).map f)[i]? = some c) : i < n ∧ c = f i := by
  rw [List.getElem?_map] at h
  by_cases hi : i < n
  · rw [List.getElem?_range hi] at h
    simp only [Option.map_some', Option.some.injEq] at h
    exact ⟨hi, h.symm⟩
  · rw [List.getElem?_eq_none (by simpa using hi)] at h
    simp at h

/-- The input values of the step after `j` iterations all differ from the
logits tensor of the step after `i` iterations. -/
theorem stepInputs_ne_logits (e : Env α) (m : Model) (prompt : List Int)
    (logits : Option (List (List α))) (w : World α) (i j : Nat) (x : String × Nat)
    (hx : x ∈ (stepBindings m
      (stateAfter e m prompt j 0 (initialState prompt logits w))).1) :
    x.2 ≠ (stateAfter e m prompt i 0 (initialState prompt logits w)).world.tensors.length + 3 := by
  obtain ⟨name, v⟩ := x
  have hv := (List.of_mem_zip hx).2
  simp only [stepInputs, stateAfter_cache_eq, stateAfter_tensors_length,
    initialState_tensors_length, List.mem_append, List.mem_cons, List.mem_singleton,
    List.not_mem_nil, or_false, List.mem_range'_1] at hv
  simp only [stateAfter_tensors_length, initialState_tensors_length]
  unfold nLayers at hv ⊢
  omega

/-- A call of `forward` that fails, by an error or a panic, logs no forward
pass: `RunWithBinding` is its last step. -/
theorem forward_error_runs (e : Env α) (m : Model) (token : Int) (position : Nat)
    (cache : List Nat) (w : World α) (f : Fault) (w' : World α)
    (hfit : e.Fits (position + 1))
    (h : m.forward e token position cache w = (.error f, w')) : w'.runs = w.runs := by
  unfold Model.forward at h
  cases h1 : e.createIoBinding w with
  | some err =>
    rw [h1] at h
    simp only [Prod.mk.injEq] at h
    rw [← h.2]
  | none =>
    rw [h1] at h
    simp only [] at h
    rcases initInputs_cases e token position { w with bindings := w.bindings + 1 } hfit with
      ⟨err, w1, hi, hr, -, -, -⟩ | hi
    · rw [hi] at h
      simp only [Prod.mk.injEq] at h
      rw [← h.2]
      simp [destroyBinding, hr]
    · rw [hi] at h
      simp only [] at h
      rcases initOutputs_cases e position
        { w with bindings := w.bindings + 1,
                 tensors := w.tensors ++
                   [⟨[1, 1], .int64 [token]⟩, ⟨[1, 1], .int64 [(position : Int)]⟩,
                    ⟨[1, (position : Int) + 1], .int64 (List.replicate (position + 1) 1)⟩] }
        hfit with ⟨err, ho⟩ | ho
      · rw [ho] at h
        simp only [Prod.mk.injEq] at h
        rw [← h.2]
        simp [destroyBinding, destroyValues_eq]
      · rw [ho] at h
        simp only [] at h
        split at h
        · simp only [Prod.mk.injEq] at h
          rw [← h.2]
          simp [destroyBinding, destroyValues_eq]
        · split at h
          · simp only [Prod.mk.injEq] at h
            rw [← h.2]
            simp [destroyBinding, destroyValues_eq]
          · split at h
            · simp only [Prod.mk.injEq] at h
              rw [← h.2]
              simp [destroyBinding, destroyValues_eq]
            · split at h
              · simp only [Prod.mk.injEq] at h
                rw [← h.2]
                simp [destroyBinding, destroyValues_eq]
              · split at h
                · simp only [Prod.mk.injEq] at h
                  rw [← h.2]
                  simp [destroyBinding, destroyValues_eq]
                · simp at h

end Later

/-! ## The claims -/

section Claims

variable {α : Type} [LinearOrderedField α]

/-- C1: for every value of `steps`, `Generate` called with an empty prompt
returns the error "empty prompt" and no tokens, and leaves the runtime as it
found it: no tensor has been created and no forward pass has run (the
caller's logits history is untouched as well). -/
theorem Generate_empty_prompt (e : Env α) (m : Model) (steps : Int)
    (logits : Option (List (List α))) (w : World α) :
    (m.Generate e [] steps logits w).result = .error (.error "empty prompt") ∧
    (m.Generate e [] steps logits w).world = w ∧
    (m.Generate e [] steps logits w).world.tensors = w.tensors ∧
    (m.Generate e [] steps logits w).world.runs = w.runs ∧
    (m.Generate e [] steps logits w).logits = logits :=
  ⟨rfl, rfl, rfl, rfl, rfl⟩

/-- C2 (counterexample): with the prompt `[464]`, `steps = 1` and an engine
whose logits at position `p` select the token `p`, `Generate` returns `[0]`,
the token selected at position `0 = len(prompt) - 1`, while the token
selected from the logits of the step at position `len(prompt) + 0 = 1` is
`1`. -/
theorem Generate_last_tokens_counterexample :
    ((NewModel "gpt2" "").Init.Generate positionEnv [464] 1 (some []) World.empty).result
      = .ok [0] ∧
    ∃ l0 l1,
      ((NewModel "gpt2" "").Init.Generate positionEnv [464] 1 (some []) World.empty).logits
        = some [l0, l1] ∧
      selectToken positionEnv.exp positionEnv.sortSlice l0 = some 0 ∧
      selectToken positionEnv.exp positionEnv.sortSlice l1 = some 1 := by
  obtain ⟨hin, hout⟩ := Init_names_length (NewModel "gpt2" "")
  have hsel0 := selected_oneHot positionEnv rfl rfl 0 (by unfold vocabSize; omega)
  have hsel1 := selected_oneHot positionEnv rfl rfl 1 (by unfold vocabSize; omega)
  have htrace : traceLogits positionEnv (NewModel "gpt2" "").Init [464] 2 0
      (initialState [464] (some []) World.empty) =
      [(List.range vocabSize).map (fun (j : Nat) => if (j : Int) = ((0 : Nat) : Int) then (1 : ℚ) else 0),
       (List.range vocabSize).map (fun (j : Nat) => if (j : Int) = ((1 : Nat) : Int) then (1 : ℚ) else 0)] := by
    simp only [traceLogits, stepLogits_positionEnv]
  rw [Generate_eq positionEnv positionEnv_neverFails insertionSortSlice_spec _ hin hout
    [464] (by simp) 1 (by decide) ⟨by decide, by decide⟩ (some []) World.empty]
  have hn : [(464 : Int)].length + (1 : Int).toNat = 2 := rfl
  simp only [hn]
  refine ⟨?_, _, _, ?_, hsel0, hsel1⟩
  · rw [stateAfter_out, htrace]
    simp only [selected, List.length_singleton, Nat.sub_self, Nat.zero_sub, List.drop_zero,
      List.map_cons, List.map_nil, hsel0, hsel1]
    rfl
  · rw [stateAfter_logits, htrace]
    rfl

/-- C2 (amended): for every non-empty prompt, every `steps ≥ 0` (with
`len(prompt) + steps` an int64 that `make` accepts as a length) and every
runtime in which nothing fails, `Generate` returns `steps` tokens and
`output[i]` is the token selected from the logits of the step at position
`len(prompt) - 1 + i`: the returned tokens are the first `steps` of the
selections made from the last prompt position on. Here `ls` is the logits of
the `len(prompt) + steps` steps in order, as `Generate` appends them to the
caller's history; the returned tokens do not depend on that history. -/
theorem Generate_first_tokens (e : Env α) (hnf : e.NeverFails)
    (hs : SortSliceSpec e.sortSlice) (m : Model)
    (prompt : List Int) (hp : prompt ≠ []) (steps : Int) (hsteps : 0 ≤ steps)
    (hmax : (prompt.length : Int) + steps < 2 ^ 63)
    (hmake : (prompt.length : Int) + steps ≤ e.makeLimit)
    (w : World α) :
    ∃ (ls : List (List α)) (out : List Int),
      ls.length = prompt.length + steps.toNat ∧ out.length = steps.toNat ∧
      (∀ logits : Option (List (List α)),
        (m.Init.Generate e prompt steps logits w).result = .ok out ∧
        (m.Init.Generate e prompt steps logits w).logits = logits.map (fun h => h ++ ls)) ∧
      (∀ i (hi : i < out.length) (hl : prompt.length - 1 + i < ls.length),
        selectToken e.exp e.sortSlice ls[prompt.length - 1 + i] = some out[i]) :=
  Generate_tokens_aux e hnf hs m.Init (Init_names_length m).1 (Init_names_length m).2
    prompt hp steps hsteps (Fits_of_bounds e prompt steps hsteps hmax hmake) w

/-- C2 (amended), at the prompt `[464, 2068, 7586, 21831]` with `steps = 5`
and the stub engine whose logits peak at `21831`. -/
theorem Generate_first_tokens_witness :
    ∃ (ls : List (List ℚ)) (out : List Int),
      ls.length = [(464 : Int), 2068, 7586, 21831].length + (5 : Int).toNat ∧
      out.length = (5 : Int).toNat ∧
      (∀ logits : Option (List (List ℚ)),
        ((NewModel "gpt2" "").Init.Generate (constEnv 21831) [464, 2068, 7586, 21831] 5
          logits World.empty).result = .ok out ∧
        ((NewModel "gpt2" "").Init.Generate (constEnv 21831) [464, 2068, 7586, 21831] 5
          logits World.empty).logits = logits.map (fun h => h ++ ls)) ∧
      (∀ i (hi : i < out.length)
          (hl : [(464 : Int), 2068, 7586, 21831].length - 1 + i < ls.length),
        selectToken (constEnv 21831).exp (constEnv 21831).sortSlice
          ls[[(464 : Int), 2068, 7586, 21831].length - 1 + i] = some out[i]) :=
  Generate_first_tokens (constEnv 21831) (constEnv_neverFails 21831) insertionSortSlice_spec
    (NewModel "gpt2" "") [464, 2068, 7586, 21831] (by simp) 5 (by decide) (by decide)
    (by decide) World.empty

/-- C3 (counterexample): `steps = 2^63 - 1` is a non-negative int64, and
the capacity `steps + 1` of line 108 wraps to `-2^63`: `make` panics, and
`Generate` returns no tokens although nothing of the runtime fails. No forward
pass has run. -/
theorem Generate_length_counterexample :
    (constEnv 21831).NeverFails ∧ (0 : Int) ≤ 2 ^ 63 - 1 ∧
    ((NewModel "gpt2" "").Init.Generate (constEnv 21831) [464] (2 ^ 63 - 1) none
      World.empty).result = .error (.panic "makeslice: cap out of range") ∧
    ((NewModel "gpt2" "").Init.Generate (constEnv 21831) [464] (2 ^ 63 - 1) none
      World.empty).world.runs = [] :=
  ⟨constEnv_neverFails 21831, by decide, rfl, by
    simp [Model.Generate, wrapInt64, destroyValues_eq, emptyCache_eq, World.empty]⟩

/-- C3 (amended): for every non-empty prompt, every `steps ≥ 0` such that
`len(prompt) + steps` is an int64 and a length `make` accepts, and every
runtime in which nothing fails, `Generate` returns without error exactly
`steps` tokens, and the engine has run `len(prompt) + steps` times; for
`steps = 0` the returned sequence is empty although the engine has run once
per prompt token. -/
theorem Generate_length (e : Env α) (hnf : e.NeverFails)
    (hs : SortSliceSpec e.sortSlice) (m : Model)
    (prompt : List Int) (hp : prompt ≠ []) (steps : Int) (hsteps : 0 ≤ steps)
    (hmax : (prompt.length : Int) + steps < 2 ^ 63)
    (hmake : (prompt.length : Int) + steps ≤ e.makeLimit)
    (logits : Option (List (List α))) (w : World α) :
    ∃ out, (m.Init.Generate e prompt steps logits w).result = .ok out ∧
      (out.length : Int) = steps ∧
      (m.Init.Generate e prompt steps logits w).world.runs.length =
        w.runs.length + (prompt.length + steps.toNat) ∧
      (steps = 0 → out = [] ∧
        (m.Init.Generate e prompt steps logits w).world.runs.length =
          w.runs.length + prompt.length) := by
  obtain ⟨hin, hout⟩ := Init_names_length m
  have hfit := Fits_of_bounds e prompt steps hsteps hmax hmake
  obtain ⟨ls, out, -, hlen, hres, -⟩ :=
    Generate_tokens_aux e hnf hs m.Init hin hout prompt hp steps hsteps hfit w
  have hruns := Generate_runs_aux e hnf hs m.Init hin hout prompt hp steps hsteps hfit
    logits w
  refine ⟨out, (hres logits).1, by omega, hruns, ?_⟩
  intro h0
  subst h0
  refine ⟨List.eq_nil_of_length_eq_zero (by simpa using hlen), ?_⟩
  rw [hruns]
  simp

/-- C3 (amended) at the prompt `[464, 2068, 7586, 21831]` with `steps = 0`
(the call of `bpc.Run`) and the stub engine. -/
theorem Generate_length_witness :
    ∃ out, ((NewModel "gpt2" "").Init.Generate (constEnv 21831) [464, 2068, 7586, 21831] 0
        (some []) World.empty).result = .ok out ∧
      (out.length : Int) = 0 ∧
      ((NewModel "gpt2" "").Init.Generate (constEnv 21831) [464, 2068, 7586, 21831] 0
        (some []) World.empty).world.runs.length =
        (World.empty : World ℚ).runs.length +
          ([(464 : Int), 2068, 7586, 21831].length + (0 : Int).toNat) ∧
      ((0 : Int) = 0 → out = [] ∧
        ((NewModel "gpt2" "").Init.Generate (constEnv 21831) [464, 2068, 7586, 21831] 0
          (some []) World.empty).world.runs.length =
          (World.empty : World ℚ).runs.length + [(464 : Int), 2068, 7586, 21831].length) :=
  Generate_length (constEnv 21831) (constEnv_neverFails 21831) insertionSortSlice_spec
    (NewModel "gpt2" "") [464, 2068, 7586, 21831] (by simp) 0 (by decide) (by decide)
    (by decide) (some []) World.empty

/-- C4: for every non-empty prompt and every `steps = N ≥ 0` (with
`len(prompt) + N` an int64 that `make` accepts as a length), in a runtime
in which nothing fails, the cache starts as `2 * nLayers` tensors of shape
`[1, nHeads, 0, headDim]`; the cache adopted after the step at position `p`
is `2 * nLayers` tensors of shape `[1, nHeads, p + 1, headDim]`; and the cache
held after the last step, the one the deferred call destroys, has
`len(prompt) + N` cached positions in every tensor. -/
theorem Generate_cache_shapes (e : Env α) (hnf : e.NeverFails)
    (hs : SortSliceSpec e.sortSlice) (m : Model)
    (prompt : List Int) (hp : prompt ≠ []) (steps : Int) (hsteps : 0 ≤ steps)
    (hmax : (prompt.length : Int) + steps < 2 ^ 63)
    (hmake : (prompt.length : Int) + steps ≤ e.makeLimit)
    (logits : Option (List (List α))) (w : World α) :
    ((initialState prompt logits w).cacheValues.length = 2 * nLayers ∧
      ∀ v ∈ (initialState prompt logits w).cacheValues,
        ∃ t, (initialState prompt logits w).world.tensors[v]? = some t ∧
          t.shape = [1, (nHeads : Int), 0, (headDim : Int)]) ∧
    (∀ p, p < prompt.length + steps.toNat →
      ∃ st, Model.Generate.loop e m.Init prompt (p + 1) 0 (initialState prompt logits w)
          = (none, st) ∧
        st.cacheValues.length = 2 * nLayers ∧
        ∀ v ∈ st.cacheValues, ∃ t, st.world.tensors[v]? = some t ∧
          t.shape = [1, (nHeads : Int), (p : Int) + 1, (headDim : Int)]) ∧
    (∃ st, Model.Generate.loop e m.Init prompt (prompt.length + steps.toNat) 0
          (initialState prompt logits w) = (none, st) ∧
        (m.Init.Generate e prompt steps logits w).world =
          destroyValues st.cacheValues st.world ∧
        st.cacheValues.length = 2 * nLayers ∧
        ∀ v ∈ st.cacheValues, ∃ t, st.world.tensors[v]? = some t ∧
          t.shape = [1, (nHeads : Int), (prompt.length : Int) + steps, (headDim : Int)]) := by
  obtain ⟨hin, hout⟩ := Init_names_length m
  have hlen : 0 < prompt.length := List.length_pos.mpr hp
  have hfit := Fits_of_bounds e prompt steps hsteps hmax hmake
  refine ⟨emptyCache_shape_aux w, ?_, ?_⟩
  · intro p hlt
    obtain ⟨st, h1, -, h3, h4⟩ := loop_cache_aux e hnf hs m.Init hin hout prompt logits w p
      (Fits_of_le e _ _ hfit (by omega))
    exact ⟨st, h1, h3, h4⟩
  · obtain ⟨st, h1, h2, h3, h4⟩ := loop_cache_aux e hnf hs m.Init hin hout prompt logits w
      (prompt.length + steps.toNat - 1) (Fits_of_le e _ _ hfit (by omega))
    have hn : prompt.length + steps.toNat - 1 + 1 = prompt.length + steps.toNat := by omega
    rw [hn] at h1 h2
    have hcast : ((prompt.length + steps.toNat - 1 : Nat) : Int) + 1 =
        (prompt.length : Int) + steps := by omega
    rw [hcast] at h4
    refine ⟨st, h1, ?_, h3, h4⟩
    rw [Generate_eq e hnf hs m.Init hin hout prompt hp steps hsteps hfit logits w, h2]

/-- C4 at the prompt `[464, 2068, 7586, 21831]` with `steps = 5` and the stub
engine: the last cache holds `4 + 5` positions. -/
theorem Generate_cache_shapes_witness :
    ((initialState [464, 2068, 7586, 21831] none (World.empty : World ℚ)).cacheValues.length
        = 2 * nLayers ∧
      ∀ v ∈ (initialState [464, 2068, 7586, 21831] none (World.empty : World ℚ)).cacheValues,
        ∃ t, (initialState [464, 2068, 7586, 21831] none
            (World.empty : World ℚ)).world.tensors[v]? = some t ∧
          t.shape = [1, (nHeads : Int), 0, (headDim : Int)]) ∧
    (∀ p, p < [(464 : Int), 2068, 7586, 21831].length + (5 : Int).toNat →
      ∃ st, Model.Generate.loop (constEnv 21831) (NewModel "gpt2" "").Init
          [464, 2068, 7586, 21831] (p + 1) 0
          (initialState [464, 2068, 7586, 21831] none World.empty) = (none, st) ∧
        st.cacheValues.length = 2 * nLayers ∧
        ∀ v ∈ st.cacheValues, ∃ t, st.world.tensors[v]? = some t ∧
          t.shape = [1, (nHeads : Int), (p : Int) + 1, (headDim : Int)]) ∧
    (∃ st, Model.Generate.loop (constEnv 21831) (NewModel "gpt2" "").Init
          [464, 2068, 7586, 21831] ([(464 : Int), 2068, 7586, 21831].length + (5 : Int).toNat) 0
          (initialState [464, 2068, 7586, 21831] none World.empty) = (none, st) ∧
        ((NewModel "gpt2" "").Init.Generate (constEnv 21831) [464, 2068, 7586, 21831] 5
          none World.empty).world = destroyValues st.cacheValues st.world ∧
        st.cacheValues.length = 2 * nLayers ∧
        ∀ v ∈ st.cacheValues, ∃ t, st.world.tensors[v]? = some t ∧
          t.shape = [1, (nHeads : Int),
            (([(464 : Int), 2068, 7586, 21831].length : Nat) : Int) + 5, (headDim : Int)]) :=
  Generate_cache_shapes (constEnv 21831) (constEnv_neverFails 21831) insertionSortSlice_spec
    (NewModel "gpt2" "") [464, 2068, 7586, 21831] (by simp) 5 (by decide) (by decide)
    (by decide) none World.empty

/-- C5 (counterexample): the engine writes at every step the logits
`tieLogits`, `1/10^10` at index `21831` and `0` elsewhere, whose unique
maximum is at `21831`; `exp` is `roundedExp`, non-negative, monotone and `1`
at `0`, which like float32 rounds the exponential of `-1/10^10` to `1`. All
probabilities tie, and with the prompt `[464, 2068, 7586, 21831]` and
`steps = 5` `Generate` returns five times the token `0`, not `21831`. -/
theorem Generate_constant_logits_counterexample :
    tieEnv.NeverFails ∧
    (∀ x, 0 ≤ tieEnv.exp x) ∧ tieEnv.exp 0 = 1 ∧ Monotone tieEnv.exp ∧
    (∀ w ins outs, ∃ fill, tieEnv.runWithBinding w ins outs = .ok fill ∧
      ∀ j, j < vocabSize → fill 0 j = tieLogits j) ∧
    (∀ j, j < vocabSize → j ≠ 21831 → tieLogits j < tieLogits 21831) ∧
    ((NewModel "gpt2" "").Init.Generate tieEnv [464, 2068, 7586, 21831] 5 none
      World.empty).result = .ok [0, 0, 0, 0, 0] := by
  have hnf : tieEnv.NeverFails := by
    refine ⟨?_, ?_, ?_, ?_, ?_, ?_⟩ <;> intros <;> first | rfl | exact ⟨_, rfl⟩
  have hengine : ∀ w ins outs, ∃ fill, tieEnv.runWithBinding w ins outs = .ok fill ∧
      ∀ j, j < vocabSize → fill 0 j = tieLogits j := by
    intro w ins outs
    exact ⟨_, rfl, fun j _ => rfl⟩
  have hsel : selectToken tieEnv.exp tieEnv.sortSlice ((List.range vocabSize).map tieLogits) =
      some 0 := by
    apply selectToken_ties roundedExp _ (by simp [vocabSize]) 1
    intro m hmem hmax v hv
    have h21831 : (1 / 10 ^ 10 : ℚ) ∈ (List.range vocabSize).map tieLogits :=
      List.mem_map.mpr ⟨21831, List.mem_range.mpr (by unfold vocabSize; omega),
        by simp [tieLogits]⟩
    have hm1 := hmax _ h21831
    obtain ⟨j, -, hj⟩ := List.mem_map.mp hmem
    obtain ⟨i, -, hi⟩ := List.mem_map.mp hv
    have hmv : m = 1 / 10 ^ 10 := by
      rw [← hj] at hm1 ⊢
      unfold tieLogits at hm1 ⊢
      split_ifs at hm1 ⊢
      · rfl
      · norm_num at hm1
    have hv2 : v = 1 / 10 ^ 10 ∨ v = 0 := by
      rw [← hi]
      unfold tieLogits
      split_ifs
      · exact Or.inl rfl
      · exact Or.inr rfl
    apply roundedExp_tie
    · rcases hv2 with h | h <;> rw [h, hmv] <;> norm_num
    · rcases hv2 with h | h <;> rw [h, hmv] <;> norm_num
  obtain ⟨hin, hout⟩ := Init_names_length (NewModel "gpt2" "")
  refine ⟨hnf, roundedExp_nonneg, roundedExp_zero, roundedExp_monotone, hengine, ?_, ?_⟩
  · intro j _ hj
    simp [tieLogits, hj]
  · exact Generate_constant_aux tieEnv hnf insertionSortSlice_spec (NewModel "gpt2" "").Init
      hin hout [464, 2068, 7586, 21831] (by simp) 5 (by decide) ⟨by decide, by decide⟩ none
      World.empty tieLogits 0 hsel hengine

/-- C5 (amended): for every non-empty prompt and every `steps ≥ 0` (with
`len(prompt) + steps` an int64 that `make` accepts as a length), if the
engine writes at every step the same logits vector `l`, whose strict maximum
is at index `a`, and the computed exponentials separate that maximum from
every other logit (`exp (l[j] - l[a]) < exp 0` for `j ≠ a`, which float32 does
not give for logits within rounding distance of the maximum), then `Generate`
returns `steps` copies of `a`. `exp` is non-negative with `exp 0 = 1`. -/
theorem Generate_constant_logits (e : Env α) (hnf : e.NeverFails)
    (hs : SortSliceSpec e.sortSlice) (hnn : ∀ x, 0 ≤ e.exp x) (h0 : e.exp 0 = 1)
    (m : Model) (prompt : List Int) (hp : prompt ≠ []) (steps : Int) (hsteps : 0 ≤ steps)
    (hmax : (prompt.length : Int) + steps < 2 ^ 63)
    (hmake : (prompt.length : Int) + steps ≤ e.makeLimit)
    (logits : Option (List (List α))) (w : World α)
    (l : Nat → α) (a : Nat) (ha : a < vocabSize)
    (hlmax : ∀ j, j < vocabSize → j ≠ a → l j < l a)
    (hsep : ∀ j, j < vocabSize → j ≠ a → e.exp (l j - l a) < e.exp 0)
    (hengine : ∀ w ins outs, ∃ fill, e.runWithBinding w ins outs = .ok fill ∧
      ∀ j, j < vocabSize → fill 0 j = l j) :
    (m.Init.Generate e prompt steps logits w).result =
      .ok (List.replicate steps.toNat (a : Int)) := by
  have hsel : selectToken e.exp e.sortSlice ((List.range vocabSize).map l) =
      some (a : Int) := by
    apply selectToken_separated_max e.exp e.sortSlice hs hnn (by rw [h0]; exact one_pos)
      ((List.range vocabSize).map l) a (by simpa using ha)
    · intro j hj hja
      simp only [List.getElem_map, List.getElem_range]
      exact hlmax j (by simpa using hj) hja
    · intro j hj hja
      simp only [List.getElem_map, List.getElem_range]
      exact hsep j (by simpa using hj) hja
  exact Generate_constant_aux e hnf hs m.Init (Init_names_length m).1
    (Init_names_length m).2 prompt hp steps hsteps
    (Fits_of_bounds e prompt steps hsteps hmax hmake) logits w l a hsel hengine

/-- C5 (amended), the end-to-end scenario: the prompt
`[464, 2068, 7586, 21831]`, `steps = 5` and the stub engine whose logits are
`1` at `21831` and `0` elsewhere give `[21831, 21831, 21831, 21831, 21831]`. -/
theorem Generate_constant_logits_witness :
    ((NewModel "gpt2" "").Init.Generate (constEnv 21831) [464, 2068, 7586, 21831] 5 none
      World.empty).result = .ok [21831, 21831, 21831, 21831, 21831] :=
  Generate_constant_logits (constEnv 21831) (constEnv_neverFails 21831)
    insertionSortSlice_spec (fun x => le_of_lt (expQ_pos x)) expQ_zero (NewModel "gpt2" "")
    [464, 2068, 7586, 21831] (by simp) 5 (by decide) (by decide) (by decide) none World.empty
    (fun j => if j = 21831 then 1 else 0) 21831 (by unfold vocabSize; omega)
    (by intro j _ hj; simp [hj])
    (by
      intro j _ hj
      simp only [hj, if_false, if_true]
      exact expQ_strictMono (by norm_num))
    (by intro w ins outs; exact ⟨_, rfl, fun j _ => rfl⟩)

/-- C6 (counterexample): with `roundedExp`, non-negative, monotone and `1` at
`0`, which like float32 rounds the exponential of `-1/10^10` to `1`, the
logits `[0, 1/10^10]` have the distribution `[1/2, 1/2]` and the selected
token is `idx[0] = 0`, an argmax of the distribution whose logit is not the
largest. -/
theorem sample_greedy_counterexample :
    (∀ x, 0 ≤ roundedExp x) ∧ roundedExp 0 = 1 ∧ Monotone roundedExp ∧
    softmax roundedExp [0, 1 / 10 ^ 10] = .ok [1 / 2, 1 / 2] ∧
    topK insertionSortSlice ([1 / 2, 1 / 2] : List ℚ) 5 = .ok ([0, 1], [1 / 2, 1 / 2]) ∧
    selectToken roundedExp insertionSortSlice [0, 1 / 10 ^ 10] = some 0 ∧
    ([0, 1 / 10 ^ 10] : List ℚ)[0] < ([0, 1 / 10 ^ 10] : List ℚ)[1] := by
  have hsm : softmax roundedExp [0, 1 / 10 ^ 10] = .ok [1 / 2, 1 / 2] := by
    norm_num [softmax, slicesMax, roundedExp]
  have htk : topK insertionSortSlice ([1 / 2, 1 / 2] : List ℚ) 5 =
      .ok ([0, 1], [1 / 2, 1 / 2]) := by
    norm_num [topK, topKLess, insertionSortSlice, List.range, List.range.loop,
      List.orderedInsert]
  refine ⟨roundedExp_nonneg, roundedExp_zero, roundedExp_monotone, hsm, htk, ?_, ?_⟩
  · simp only [selectToken, hsm, htk]
    rfl
  · norm_num

/-- C6 (amended): selection is greedy on the distribution. For every
non-empty logits vector `l`, the token `Generate` selects, `idx[0]` of
`topK(softmax(l), 5)`, exists and is an argmax of the distribution
(`p[i] ≤ p[t]` for every `i`); it is an argmax of the logits (`l[i] ≤ l[t]` for
every `i`) when the computed exponentials separate every smaller logit from
the maximum `m` (`exp (v - m) < exp 0` for `v < m`), which float32 does not give
for logits within rounding distance of the maximum; and it is `idx[0]` of
`topK(softmax(l), k)` for every `k ≥ 1`, so the other candidates have no
influence on it. `exp` is non-negative with `exp 0 = 1`. -/
theorem sample_greedy (exp : α → α)
    (sortSlice : (Nat → Nat → Bool) → List Nat → List Nat)
    (hs : SortSliceSpec sortSlice) (hnn : ∀ x, 0 ≤ exp x) (h0 : exp 0 = 1)
    (l : List α) (hl : l ≠ []) :
    ∃ (m : α) (p : List α) (idx : List Nat) (topP : List α) (t : Nat),
      slicesMax l = some m ∧
      softmax exp l = .ok p ∧ topK sortSlice p 5 = .ok (idx, topP) ∧
      idx[0]? = some t ∧ selectToken exp sortSlice l = some (t : Int) ∧
      p.length = l.length ∧ t < l.length ∧
      (∀ i (hi : i < p.length) (ht : t < p.length), p[i] ≤ p[t]) ∧
      ((∀ v ∈ l, v < m → exp (v - m) < exp 0) →
        ∀ i (hi : i < l.length) (ht : t < l.length), l[i] ≤ l[t]) ∧
      (∀ k : Int, 1 ≤ k →
        ∃ idx' topP', topK sortSlice p k = .ok (idx', topP') ∧ idx'[0]? = some t) :=
  sample_greedy_aux exp sortSlice hs hnn h0 l hl

/-- C6 (amended) at the logits `[1, 3, 2]` with `expQ`, which separates them:
the selected token is an argmax of the distribution and of the logits. -/
theorem sample_greedy_witness :
    ∃ (p : List ℚ) (t : Nat),
      softmax expQ [1, 3, 2] = .ok p ∧
      selectToken expQ insertionSortSlice [1, 3, 2] = some (t : Int) ∧
      (∀ i (hi : i < p.length) (ht : t < p.length), p[i] ≤ p[t]) ∧
      (∀ i (hi : i < ([1, 3, 2] : List ℚ).length) (ht : t < ([1, 3, 2] : List ℚ).length),
        ([1, 3, 2] : List ℚ)[i] ≤ ([1, 3, 2] : List ℚ)[t]) := by
  obtain ⟨m, p, idx, topP, t, -, hsm, -, -, hsel, -, -, hp, hsep, -⟩ :=
    sample_greedy expQ insertionSortSlice insertionSortSlice_spec
      (fun x => le_of_lt (expQ_pos x)) expQ_zero [1, 3, 2] (by simp)
  exact ⟨p, t, hsm, hsel, hp, hsep (fun v _ hvm => expQ_strictMono (by linarith))⟩

/-- C7: for every vector `p` and every `k ≥ 0`, `topK p k` returns
`(topIdx, topP)` with `min k n` distinct indices and as many probabilities,
`topP[i] = p[topIdx[i]]` for every `i`, the probabilities in non-increasing
order (`topP[i+1] ≤ topP[i]` for every consecutive pair), and every index that
is not returned has a probability at most every returned one, the last in
particular: the result is the `min k n` highest. -/
theorem topK_ranked (sortSlice : (Nat → Nat → Bool) → List Nat → List Nat)
    (hs : SortSliceSpec sortSlice) (p : List α) (k : Int) (hk : 0 ≤ k) :
    ∃ topIdx topP, topK sortSlice p k = .ok (topIdx, topP) ∧
      topIdx.length = min k.toNat p.length ∧
      topP.length = min k.toNat p.length ∧
      topIdx.Nodup ∧
      topP.length = topIdx.length ∧
      (∀ a ∈ topIdx, a < p.length) ∧
      (∀ i (hi : i < topIdx.length) (hp : i < topP.length) (ha : topIdx[i] < p.length),
        topP[i] = p[topIdx[i]]) ∧
      (∀ i (h : i + 1 < topP.length), topP[i + 1] ≤ topP[i]) ∧
      (∀ j (hj : j < p.length), j ∉ topIdx → ∀ x ∈ topP, p[j] ≤ x) ∧
      (∀ j (hj : j < p.length), j ∉ topIdx →
        ∀ x, topP.getLast? = some x → p[j] ≤ x) :=
  topK_ranked_aux sortSlice hs p k hk

/-- C7 at `p = [1/4, 1/2, 1/4]`, `k = 2`. -/
theorem topK_ranked_witness :
    ∃ topIdx topP,
      topK insertionSortSlice ([1/4, 1/2, 1/4] : List ℚ) 2 = .ok (topIdx, topP) ∧
      topIdx.length = min (2 : Int).toNat ([1/4, 1/2, 1/4] : List ℚ).length ∧
      topP.length = min (2 : Int).toNat ([1/4, 1/2, 1/4] : List ℚ).length ∧
      topIdx.Nodup ∧
      topP.length = topIdx.length ∧
      (∀ a ∈ topIdx, a < ([1/4, 1/2, 1/4] : List ℚ).length) ∧
      (∀ i (hi : i < topIdx.length) (hp : i < topP.length)
          (ha : topIdx[i] < ([1/4, 1/2, 1/4] : List ℚ).length),
        topP[i] = ([1/4, 1/2, 1/4] : List ℚ)[topIdx[i]]) ∧
      (∀ i (h : i + 1 < topP.length), topP[i + 1] ≤ topP[i]) ∧
      (∀ j (hj : j < ([1/4, 1/2, 1/4] : List ℚ).length), j ∉ topIdx →
        ∀ x ∈ topP, ([1/4, 1/2, 1/4] : List ℚ)[j] ≤ x) ∧
      (∀ j (hj : j < ([1/4, 1/2, 1/4] : List ℚ).length), j ∉ topIdx →
        ∀ x, topP.getLast? = some x → ([1/4, 1/2, 1/4] : List ℚ)[j] ≤ x) :=
  topK_ranked insertionSortSlice insertionSortSlice_spec [1/4, 1/2, 1/4] 2 (by decide)

/-- C8: for every vector `p` of length `n` and every `k ≥ 0`, `topK p k`
returns (without a panic) exactly `min k n` pairwise distinct indices, each
below `n`; when `k` is at least `n` the returned indices are a permutation of
`0..n-1`. -/
theorem topK_indices (sortSlice : (Nat → Nat → Bool) → List Nat → List Nat)
    (hs : SortSliceSpec sortSlice) (p : List α) (k : Int) (hk : 0 ≤ k) :
    ∃ topIdx topP, topK sortSlice p k = .ok (topIdx, topP) ∧
      topIdx.length = min k.toNat p.length ∧
      topIdx.Nodup ∧
      (∀ a ∈ topIdx, a < p.length) ∧
      ((p.length : Int) ≤ k → topIdx.Perm (List.range p.length)) :=
  topK_indices_aux sortSlice hs p k hk

/-- C8 at `p = [1/4, 1/2, 1/4]`, `k = 5`: `k` exceeds the vocabulary. -/
theorem topK_indices_witness :
    ∃ topIdx topP,
      topK insertionSortSlice ([1/4, 1/2, 1/4] : List ℚ) 5 = .ok (topIdx, topP) ∧
      topIdx.length = min (5 : Int).toNat ([1/4, 1/2, 1/4] : List ℚ).length ∧
      topIdx.Nodup ∧
      (∀ a ∈ topIdx, a < ([1/4, 1/2, 1/4] : List ℚ).length) ∧
      ((([1/4, 1/2, 1/4] : List ℚ).length : Int) ≤ 5 →
        topIdx.Perm (List.range ([1/4, 1/2, 1/4] : List ℚ).length)) :=
  topK_indices insertionSortSlice insertionSortSlice_spec [1/4, 1/2, 1/4] 5 (by decide)

/-- C9 (counterexample): a sort that fulfils the contract of `sort.Slice`
returns, for twelve tokens of probability `1/14` followed by one of
probability `1/7`, the candidates `[12, 11, 10, 9, 8]`: the ranks 1 and 2 hold
the indices 11 and 10, of equal probability and in decreasing order. -/
theorem topK_ties_counterexample :
    SortSliceSpec reversingSortSlice ∧
    topK reversingSortSlice
      ([1/14, 1/14, 1/14, 1/14, 1/14, 1/14, 1/14, 1/14, 1/14, 1/14, 1/14, 1/14, 1/7] : List ℚ)
      5 = .ok ([12, 11, 10, 9, 8], [1/7, 1/14, 1/14, 1/14, 1/14]) := by
  refine ⟨reversingSortSlice_spec, ?_⟩
  norm_num [topK, topKLess, reversingSortSlice, List.range, List.range.loop,
    List.orderedInsert]
  constructor <;> rfl

/-- C9 (amended): `topK` leaves ties in the order `sort.Slice` leaves them,
which its contract does not fix: two returned candidates are always distinct
indices and `idx[0]` is some index of maximal probability; the candidates of
equal probability are in increasing index order, and `idx[0]` is the smallest
index of maximal probability, whenever the sort is stable. -/
theorem topK_ties (sortSlice : (Nat → Nat → Bool) → List Nat → List Nat)
    (hs : SortSliceSpec sortSlice) (p : List α) (k : Int) (hk : 0 ≤ k) :
    ∃ topIdx topP, topK sortSlice p k = .ok (topIdx, topP) ∧
      (∀ i j a b : Nat, i < j → topIdx[i]? = some a → topIdx[j]? = some b → a ≠ b) ∧
      (∀ t, topIdx[0]? = some t →
        t < p.length ∧ ∀ c, c < p.length → p.getD c 0 ≤ p.getD t 0) ∧
      (StableSort sortSlice →
        (∀ i j a b : Nat, i < j → topIdx[i]? = some a → topIdx[j]? = some b →
          p.getD a 0 = p.getD b 0 → a < b) ∧
        (∀ t, topIdx[0]? = some t →
          ∀ c, c < p.length → p.getD c 0 = p.getD t 0 → t ≤ c)) :=
  topK_ties_aux sortSlice hs p k hk

/-- C9 (amended) at `p = [1/4, 1/2, 1/4]`, `k = 5`. -/
theorem topK_ties_witness :
    ∃ topIdx topP,
      topK insertionSortSlice ([1/4, 1/2, 1/4] : List ℚ) 5 = .ok (topIdx, topP) ∧
      (∀ i j a b : Nat, i < j → topIdx[i]? = some a → topIdx[j]? = some b → a ≠ b) ∧
      (∀ t, topIdx[0]? = some t →
        t < ([1/4, 1/2, 1/4] : List ℚ).length ∧
        ∀ c, c < ([1/4, 1/2, 1/4] : List ℚ).length →
          ([1/4, 1/2, 1/4] : List ℚ).getD c 0 ≤ ([1/4, 1/2, 1/4] : List ℚ).getD t 0) ∧
      (StableSort insertionSortSlice →
        (∀ i j a b : Nat, i < j → topIdx[i]? = some a → topIdx[j]? = some b →
          ([1/4, 1/2, 1/4] : List ℚ).getD a 0 = ([1/4, 1/2, 1/4] : List ℚ).getD b 0 → a < b) ∧
        (∀ t, topIdx[0]? = some t →
          ∀ c, c < ([1/4, 1/2, 1/4] : List ℚ).length →
            ([1/4, 1/2, 1/4] : List ℚ).getD c 0 = ([1/4, 1/2, 1/4] : List ℚ).getD t 0 →
            t ≤ c)) :=
  topK_ties insertionSortSlice insertionSortSlice_spec [1/4, 1/2, 1/4] 5 (by decide)

/-- C10: for every non-empty logits vector, `softmax` returns a vector of
the same length whose entries are non-negative and sum to `1`; the normaliser
`s` is at least `1`, because the maximal logit contributes `exp 0 = 1`, so the
division is never by zero. Exact arithmetic, for any `exp` that is
non-negative with `exp 0 = 1`. -/
theorem softmax_distribution (exp : α → α) (hnonneg : ∀ x, 0 ≤ exp x)
    (hzero : exp 0 = 1) (l : List α) (hl : l ≠ []) :
    ∃ m p, slicesMax l = some m ∧ softmax exp l = .ok p ∧ p.length = l.length ∧
      1 ≤ (l.map (fun v => exp (v - m))).foldl (fun s e => s + e) 0 ∧
      (∀ x ∈ p, 0 ≤ x) ∧ p.sum = 1 :=
  softmax_distribution_aux exp hnonneg hzero l hl

/-- C10 at the logits `[1, 3, 2]`. -/
theorem softmax_distribution_witness :
    ∃ m p, slicesMax ([1, 3, 2] : List ℚ) = some m ∧ softmax expQ [1, 3, 2] = .ok p ∧
      p.length = ([1, 3, 2] : List ℚ).length ∧
      1 ≤ (([1, 3, 2] : List ℚ).map (fun v => expQ (v - m))).foldl (fun s e => s + e) 0 ∧
      (∀ x ∈ p, 0 ≤ x) ∧ p.sum = 1 :=
  softmax_distribution expQ (fun x => le_of_lt (expQ_pos x)) expQ_zero [1, 3, 2] (by simp)

/-- C11 (counterexample): float32 addition rounds. `13421773/2^27` and
`13421773/2^26` are the float32 values of `0.1` and `0.2`, and `10^8` is a
float32 value whose neighbours are `10^8 - 8` and `10^8 + 8`: both sums round
to `10^8`, so the shifted vector is `[10^8, 10^8]`, whose softmax `[1/2, 1/2]`
is not the softmax of the vector itself. -/
theorem softmax_shift_counterexample :
    roundFloat32 (13421773 / 2 ^ 27) = 13421773 / 2 ^ 27 ∧
    roundFloat32 (13421773 / 2 ^ 26) = 13421773 / 2 ^ 26 ∧
    roundFloat32 (10 ^ 8) = 10 ^ 8 ∧
    ([13421773 / 2 ^ 27, 13421773 / 2 ^ 26] : List ℚ).map (fun v => addFloat32 v (10 ^ 8)) =
      [10 ^ 8, 10 ^ 8] ∧
    softmax expQ
      (([13421773 / 2 ^ 27, 13421773 / 2 ^ 26] : List ℚ).map (fun v => addFloat32 v (10 ^ 8))) =
      .ok [1 / 2, 1 / 2] ∧
    softmax expQ [13421773 / 2 ^ 27, 13421773 / 2 ^ 26] ≠ .ok [1 / 2, 1 / 2] := by
  have ha : roundFloat32 (13421773 / 2 ^ 27) = 13421773 / 2 ^ 27 := by
    rw [roundFloat32_eq _ (-4) 13421773 (by norm_num) (by norm_num) (by norm_num)
      (by norm_num) (by norm_num) (by norm_num)]
    norm_num
  have hb : roundFloat32 (13421773 / 2 ^ 26) = 13421773 / 2 ^ 26 := by
    rw [roundFloat32_eq _ (-3) 13421773 (by norm_num) (by norm_num) (by norm_num)
      (by norm_num) (by norm_num) (by norm_num)]
    norm_num
  have hc : roundFloat32 (10 ^ 8) = 10 ^ 8 := by
    rw [roundFloat32_eq _ 26 12500000 (by norm_num) (by norm_num) (by norm_num)
      (by norm_num) (by norm_num) (by norm_num)]
    norm_num
  have h1 : addFloat32 (13421773 / 2 ^ 27) (10 ^ 8) = 10 ^ 8 := by
    unfold addFloat32
    rw [roundFloat32_eq _ 26 12500000 (by norm_num) (by norm_num) (by norm_num)
      (by norm_num) (by norm_num) (by norm_num)]
    norm_num
  have h2 : addFloat32 (13421773 / 2 ^ 26) (10 ^ 8) = 10 ^ 8 := by
    unfold addFloat32
    rw [roundFloat32_eq _ 26 12500000 (by norm_num) (by norm_num) (by norm_num)
      (by norm_num) (by norm_num) (by norm_num)]
    norm_num
  have hmap : ([13421773 / 2 ^ 27, 13421773 / 2 ^ 26] : List ℚ).map
      (fun v => addFloat32 v (10 ^ 8)) = [10 ^ 8, 10 ^ 8] := by
    simp only [List.map_cons, List.map_nil, h1, h2]
  refine ⟨ha, hb, hc, hmap, ?_, ?_⟩
  · rw [hmap]
    norm_num [softmax, slicesMax, expQ]
  · norm_num [softmax, slicesMax, expQ]

/-- C11 (amended): softmax is invariant under adding a constant to every
logit when the sums are exact. For every non-empty logits vector `l`, every
constant `c` and every addition `add` (Go's `+` on float32) whose results
`add l[i] c` are the exact sums `l[i] + c`, the softmax of the shifted vector
and the softmax of `l` are the same vector, entry by entry. For any `exp`. -/
theorem softmax_shift_invariant (exp : α → α) (add : α → α → α) (l : List α) (c : α)
    (hl : l ≠ []) (hexact : ∀ v ∈ l, add v c = v + c) :
    ∃ p, softmax exp l = .ok p ∧ softmax exp (l.map (fun v => add v c)) = .ok p ∧
      p.length = l.length ∧
      ∀ i (h1 : i < p.length) (h2 : i < l.length),
        ∃ m, slicesMax l = some m ∧
          p[i] = exp (l[i] - m) / (l.map (fun v => exp (v - m))).foldl (fun s e => s + e) 0 := by
  obtain ⟨m, hm, -, -⟩ := slicesMax_spec l hl
  have hmap : l.map (fun v => add v c) = l.map (fun v => v + c) := List.map_congr_left hexact
  refine ⟨(l.map (fun v => exp (v - m))).map
    (fun e => e / (l.map (fun v => exp (v - m))).foldl (fun s e => s + e) 0), ?_, ?_, ?_, ?_⟩
  · simp [softmax, hm]
  · rw [hmap, softmax_shift]
    simp [softmax, hm]
  · simp
  · intro i h1 h2
    exact ⟨m, hm, by simp⟩

/-- C11 (amended) at the logits `[1, 3, 2]` shifted by `5` in float32: the
sums `6`, `8` and `7` are exact. -/
theorem softmax_shift_invariant_witness :
    ∃ p, softmax expQ [1, 3, 2] = .ok p ∧
      softmax expQ (([1, 3, 2] : List ℚ).map (fun v => addFloat32 v 5)) = .ok p ∧
      p.length = ([1, 3, 2] : List ℚ).length ∧
      ∀ i (h1 : i < p.length) (h2 : i < ([1, 3, 2] : List ℚ).length),
        ∃ m, slicesMax ([1, 3, 2] : List ℚ) = some m ∧
          p[i] = expQ (([1, 3, 2] : List ℚ)[i] - m) /
            (([1, 3, 2] : List ℚ).map (fun v => expQ (v - m))).foldl (fun s e => s + e) 0 :=
  softmax_shift_invariant expQ addFloat32 [1, 3, 2] 5 (by simp) (by
    intro v hv
    simp only [List.mem_cons, List.mem_singleton, List.not_mem_nil, or_false] at hv
    unfold addFloat32
    rcases hv with rfl | rfl | rfl
    · rw [roundFloat32_eq _ 2 12582912 (by norm_num) (by norm_num) (by norm_num)
        (by norm_num) (by norm_num) (by norm_num)]
      norm_num
    · rw [roundFloat32_eq _ 3 8388608 (by norm_num) (by norm_num) (by norm_num)
        (by norm_num) (by norm_num) (by norm_num)]
      norm_num
    · rw [roundFloat32_eq _ 2 14680064 (by norm_num) (by norm_num) (by norm_num)
        (by norm_num) (by norm_num) (by norm_num)]
      norm_num)

/-- C12: for every non-empty prompt and `steps ≥ 0` (with
`len(prompt) + steps` an int64 that `make` accepts as a length, so that
`Generate` enters its loop), if the loop reaches
position `p` and `forward` returns an error there, `Generate` returns that
error and no tokens, whatever was selected so far; the loop stops at `p`
whatever its bound, and the log of forward passes is the one the loop had
when it reached `p`: no pass is run for a later position. -/
theorem Generate_forward_error (e : Env α) (m : Model) (prompt : List Int)
    (hp : prompt ≠ []) (steps : Int) (hsteps : 0 ≤ steps)
    (hmax : (prompt.length : Int) + steps < 2 ^ 63)
    (hmake : (prompt.length : Int) + steps ≤ e.makeLimit)
    (logits : Option (List (List α))) (w : World α) (p : Nat) (st : LoopState α)
    (err : String) (w' : World α)
    (hlt : p < prompt.length + steps.toNat)
    (hloop : Model.Generate.loop e m prompt p 0 (initialState prompt logits w) = (none, st))
    (hfwd : m.forward e st.token p st.cacheValues st.world = (.error (.error err), w')) :
    (m.Generate e prompt steps logits w).result = .error (.error err) ∧
    (m.Generate e prompt steps logits w).world = destroyValues st.cacheValues w' ∧
    (m.Generate e prompt steps logits w).world.runs = st.world.runs ∧
    ∀ q, p < q → Model.Generate.loop e m prompt q 0 (initialState prompt logits w) =
      (some (.error err), { st with world := w' }) := by
  have hfit := Fits_of_bounds e prompt steps hsteps hmax hmake
  obtain ⟨h1, h2⟩ := Generate_forward_error_aux e m prompt hp steps hsteps hfit logits w p st
    (.error err) w' hlt hloop hfwd
  rw [h1]
  exact ⟨rfl, rfl, by
    simp [destroyValues_eq,
      forward_error_runs e m _ _ _ _ _ _ (Fits_of_le e _ _ hfit (by omega)) hfwd], h2⟩

/-- C12 at the prompt `[464, 2068, 7586, 21831]` with `steps = 5` and an
engine that fails at position 5, after five iterations without a fault and
two selected tokens. -/
theorem Generate_forward_error_witness :
    Model.Generate.loop (failAtEnv 5) (NewModel "gpt2" "").Init [464, 2068, 7586, 21831] 5 0
        (initialState [464, 2068, 7586, 21831] none World.empty) =
      (none, stateAfter (failAtEnv 5) (NewModel "gpt2" "").Init [464, 2068, 7586, 21831] 5 0
        (initialState [464, 2068, 7586, 21831] none World.empty)) ∧
    ((NewModel "gpt2" "").Init.Generate (failAtEnv 5) [464, 2068, 7586, 21831] 5 none
      World.empty).result = .error (.error "forward pass failed") :=
  ⟨failAtEnv_loop 5 (NewModel "gpt2" "") [464, 2068, 7586, 21831] 5 0 _
      (initialState_cache_length _ _ _) (by decide) ⟨by decide, by decide⟩,
   (Generate_forward_error (failAtEnv 5) (NewModel "gpt2" "").Init [464, 2068, 7586, 21831]
    (by simp) 5 (by decide) (by decide) (by decide) none World.empty 5
    (stateAfter (failAtEnv 5) (NewModel "gpt2" "").Init [464, 2068, 7586, 21831] 5 0
      (initialState [464, 2068, 7586, 21831] none World.empty))
    "forward pass failed" _
    (by decide)
    (failAtEnv_loop 5 (NewModel "gpt2" "") [464, 2068, 7586, 21831] 5 0 _
      (initialState_cache_length _ _ _) (by decide) ⟨by decide, by decide⟩)
    (failAtEnv_forward_error 5 (NewModel "gpt2" "") _ _ _
      (stateAfter_cache_length _ _ _ 5 0 _ (initialState_cache_length _ _ _))
      ⟨by decide, by decide⟩)).1⟩

/-- C13: on every successful run of `Generate` (non-empty prompt,
`steps ≥ 0`, `len(prompt) + steps` an int64 that `make` accepts as a length,
nothing fails), the `Destroy` calls made during the call (`D`)
are a permutation of the tensors created during it, the `2 * nLayers` of the
empty cache and the `3 + 1 + 2 * nLayers` of each of the `len(prompt) + steps`
steps: each is destroyed exactly once, none is leaked. And at every step the
values bound as inputs, the three fresh tensors and the cache, have not been
destroyed before. -/
theorem Generate_buffers_destroyed_once (e : Env α) (hnf : e.NeverFails)
    (hs : SortSliceSpec e.sortSlice) (m : Model)
    (prompt : List Int) (hp : prompt ≠ []) (steps : Int) (hsteps : 0 ≤ steps)
    (hmax : (prompt.length : Int) + steps < 2 ^ 63)
    (hmake : (prompt.length : Int) + steps ≤ e.makeLimit)
    (logits : Option (List (List α))) (w : World α) :
    ∃ D, (m.Init.Generate e prompt steps logits w).world.destroyed = w.destroyed ++ D ∧
      (m.Init.Generate e prompt steps logits w).world.tensors.length =
        w.tensors.length +
          (2 * nLayers + (3 + 1 + 2 * nLayers) * (prompt.length + steps.toNat)) ∧
      D.Perm (List.range' w.tensors.length
        (2 * nLayers + (3 + 1 + 2 * nLayers) * (prompt.length + steps.toNat))) ∧
      D.Nodup ∧
      (∀ v, v ∈ D ↔ w.tensors.length ≤ v ∧
        v < (m.Init.Generate e prompt steps logits w).world.tensors.length) ∧
      ∀ i, i < prompt.length + steps.toNat →
        ∃ st Di,
          Model.Generate.loop e m.Init prompt i 0 (initialState prompt logits w) = (none, st) ∧
          st.world.destroyed = w.destroyed ++ Di ∧
          ∀ v ∈ stepInputs st.world st.cacheValues, v ∉ Di := by
  obtain ⟨hin, hout⟩ := Init_names_length m
  have hfit := Fits_of_bounds e prompt steps hsteps hmax hmake
  obtain ⟨D, h1, h2, h3, h4⟩ :=
    Generate_buffers_aux e hnf hs m.Init hin hout prompt hp steps hsteps hfit logits w
  have h34 : 3 + 1 + 2 * nLayers = 4 + 2 * nLayers := by omega
  rw [h34]
  refine ⟨D, h1, h2, h3, h3.nodup_iff.mpr (List.nodup_range' _ _), ?_, h4⟩
  intro v
  rw [h3.mem_iff, List.mem_range'_1, h2]

/-- C13 at the prompt `[464, 2068, 7586, 21831]` with `steps = 5` and the
stub engine: `24 + 28 * 9` tensors, each destroyed once. -/
theorem Generate_buffers_destroyed_once_witness :
    ∃ D, ((NewModel "gpt2" "").Init.Generate (constEnv 21831) [464, 2068, 7586, 21831] 5 none
        World.empty).world.destroyed = (World.empty : World ℚ).destroyed ++ D ∧
      ((NewModel "gpt2" "").Init.Generate (constEnv 21831) [464, 2068, 7586, 21831] 5 none
        World.empty).world.tensors.length =
        (World.empty : World ℚ).tensors.length +
          (2 * nLayers + (3 + 1 + 2 * nLayers) *
            ([(464 : Int), 2068, 7586, 21831].length + (5 : Int).toNat)) ∧
      D.Perm (List.range' (World.empty : World ℚ).tensors.length
        (2 * nLayers + (3 + 1 + 2 * nLayers) *
          ([(464 : Int), 2068, 7586, 21831].length + (5 : Int).toNat))) ∧
      D.Nodup ∧
      (∀ v, v ∈ D ↔ (World.empty : World ℚ).tensors.length ≤ v ∧
        v < ((NewModel "gpt2" "").Init.Generate (constEnv 21831) [464, 2068, 7586, 21831] 5
          none World.empty).world.tensors.length) ∧
      ∀ i, i < [(464 : Int), 2068, 7586, 21831].length + (5 : Int).toNat →
        ∃ st Di,
          Model.Generate.loop (constEnv 21831) (NewModel "gpt2" "").Init
            [464, 2068, 7586, 21831] i 0
            (initialState [464, 2068, 7586, 21831] none World.empty) = (none, st) ∧
          st.world.destroyed = (World.empty : World ℚ).destroyed ++ Di ∧
          ∀ v ∈ stepInputs st.world st.cacheValues, v ∉ Di :=
  Generate_buffers_destroyed_once (constEnv 21831) (constEnv_neverFails 21831)
    insertionSortSlice_spec (NewModel "gpt2" "") [464, 2068, 7586, 21831] (by simp) 5
    (by decide) (by decide) (by decide) none World.empty

/-- C14 (failing inputs): when `BindInput` fails at step 0 of the prompt
`[464]`, `Generate` returns the error with 52 tensors created, the 24 of the
empty cache, the 3 inputs and the 25 outputs of the step, and only 27 of
them destroyed: the 25 outputs, values 27 to 51, are leaked. When `NewTensor`
fails for the position tensor, the token tensor created just before, value
24, is leaked. -/
theorem Generate_failure_leaks :
    (((NewModel "gpt2" "").Init.Generate bindInputFailEnv [464] 0 none World.empty).result =
        .error (.error "bind input failed") ∧
      ((NewModel "gpt2" "").Init.Generate bindInputFailEnv [464] 0 none
        World.empty).world.tensors.length = 52 ∧
      ((NewModel "gpt2" "").Init.Generate bindInputFailEnv [464] 0 none
        World.empty).world.destroyed = [24, 25, 26] ++ List.range' 0 24 ∧
      ∀ v, 27 ≤ v → v < 52 →
        v ∉ ((NewModel "gpt2" "").Init.Generate bindInputFailEnv [464] 0 none
          World.empty).world.destroyed) ∧
    (((NewModel "gpt2" "").Init.Generate positionTensorFailEnv [464] 0 none
        World.empty).result = .error (.error "new tensor failed") ∧
      ((NewModel "gpt2" "").Init.Generate positionTensorFailEnv [464] 0 none
        World.empty).world.tensors.length = 25 ∧
      ((NewModel "gpt2" "").Init.Generate positionTensorFailEnv [464] 0 none
        World.empty).world.destroyed = List.range' 0 24 ∧
      24 ∉ ((NewModel "gpt2" "").Init.Generate positionTensorFailEnv [464] 0 none
        World.empty).world.destroyed) := by
  have hA := (Generate_forward_error_aux bindInputFailEnv (NewModel "gpt2" "").Init [464]
    (by simp) 0 (by decide) ⟨by decide, by decide⟩ none World.empty 0
    (initialState [464] none World.empty)
    (.error "bind input failed") _ (by decide) rfl
    (bindInputFailEnv_forward (NewModel "gpt2" "") _ 0 _ (initialState_cache_length _ _ _) _
      ⟨by decide, by decide⟩)).1
  have hB := (Generate_forward_error_aux positionTensorFailEnv (NewModel "gpt2" "").Init [464]
    (by simp) 0 (by decide) ⟨by decide, by decide⟩ none World.empty 0
    (initialState [464] none World.empty)
    (.error "new tensor failed") _ (by decide) rfl
    (positionTensorFailEnv_forward (NewModel "gpt2" "").Init _ _)).1
  have hdA : ((NewModel "gpt2" "").Init.Generate bindInputFailEnv [464] 0 none
      World.empty).world.destroyed = [24, 25, 26] ++ List.range' 0 24 := by
    rw [hA]
    simp [destroyValues_eq, destroyBinding, runWorld, initialState, emptyCache_eq,
      World.empty, nLayers]
  have hdB : ((NewModel "gpt2" "").Init.Generate positionTensorFailEnv [464] 0 none
      World.empty).world.destroyed = List.range' 0 24 := by
    rw [hB]
    simp [destroyValues_eq, destroyBinding, initialState, emptyCache_eq, World.empty, nLayers]
  refine ⟨⟨by rw [hA], ?_, hdA, ?_⟩, ⟨by rw [hB], ?_, hdB, ?_⟩⟩
  · rw [hA]
    simp [destroyValues_eq, destroyBinding, runWorld, initialState, emptyCache_eq,
      World.empty, stepTensors_length, nLayers]
  · intro v h1 h2
    rw [hdA]
    simp only [List.mem_append, List.mem_cons, List.mem_singleton, List.not_mem_nil,
      or_false, List.mem_range'_1]
    omega
  · rw [hB]
    simp [destroyValues_eq, destroyBinding, initialState, emptyCache_eq, World.empty, nLayers]
  · rw [hdB]
    simp [List.mem_range'_1]

/-- C15: for every non-empty prompt, every `steps ≥ 0` (with
`len(prompt) + steps` an int64 that `make` accepts as a length) and every
runtime in which nothing fails, `Generate` runs the engine exactly
`len(prompt) + steps` times, in order (the log of `RunWithBinding` grows by
the bindings of the iterations `0, 1, ...`). With `st i` the loop variables
when iteration `i` starts: the `i`-th call of `forward` is made with position
`i`, its token tensor holds `(st i).token` and its position tensor holds `i`;
the cache of iteration `0` is the empty cache and the cache of iteration
`i + 1` is what the forward pass of iteration `i` returned after the logits
(`outputs[1:]`); the token is `prompt[i]` while `i < len(prompt)`, and from
then on the token selected from the logits of the pass of iteration `i - 1`. -/
theorem Generate_invocations (e : Env α) (hnf : e.NeverFails)
    (hs : SortSliceSpec e.sortSlice) (m : Model)
    (prompt : List Int) (hp : prompt ≠ []) (steps : Int) (hsteps : 0 ≤ steps)
    (hmax : (prompt.length : Int) + steps < 2 ^ 63)
    (hmake : (prompt.length : Int) + steps ≤ e.makeLimit)
    (logits : Option (List (List α))) (w : World α) :
    ∃ (st : Nat → LoopState α) (fill : Nat → Nat → Nat → α),
      (m.Init.Generate e prompt steps logits w).world.runs =
        w.runs ++ (List.range (prompt.length + steps.toNat)).map
          (fun i => stepBindings m.Init (st i)) ∧
      (st 0).cacheValues = (emptyCache w).1 ∧
      ∀ i, i < prompt.length + steps.toNat →
        Model.Generate.loop e m.Init prompt i 0 (initialState prompt logits w) =
          (none, st i) ∧
        (m.Init.forward e (st i).token i (st i).cacheValues (st i).world).1 =
          .ok (stepOutputs (st i).world) ∧
        e.runWithBinding (runWorld (st i).token i (st i).world)
          (stepBindings m.Init (st i)).1 (stepBindings m.Init (st i)).2 = .ok (fill i) ∧
        (stepBindings m.Init (st i)).1 =
          m.Init.inputNames.zip
            ([(st i).world.tensors.length, (st i).world.tensors.length + 1,
              (st i).world.tensors.length + 2] ++ (st i).cacheValues) ∧
        (runWorld (st i).token i (st i).world).tensors[(st i).world.tensors.length]? =
          some ⟨[1, 1], .int64 [(st i).token]⟩ ∧
        (runWorld (st i).token i (st i).world).tensors[(st i).world.tensors.length + 1]? =
          some ⟨[1, 1], .int64 [(i : Int)]⟩ ∧
        (i < prompt.length → prompt[i]? = some (st i).token) ∧
        (prompt.length ≤ i →
          selectToken e.exp e.sortSlice (logitsOf (fill (i - 1))) = some (st i).token) ∧
        (st (i + 1)).cacheValues = (stepOutputs (st i).world).tail := by
  obtain ⟨hin, hout⟩ := Init_names_length m
  have hlen : 0 < prompt.length := List.length_pos.mpr hp
  have hfit := Fits_of_bounds e prompt steps hsteps hmax hmake
  refine ⟨fun i => stateAfter e m.Init prompt i 0 (initialState prompt logits w),
    fun i => stepFill e m.Init i
      (stateAfter e m.Init prompt i 0 (initialState prompt logits w)), ?_, rfl, ?_⟩
  · rw [Generate_eq e hnf hs m.Init hin hout prompt hp steps hsteps hfit logits w]
    simp only [destroyValues_eq]
    rw [stateAfter_runs_eq]
    simp [initialState, emptyCache_eq]
  · intro i hi
    have hc := stateAfter_cache_length e m.Init prompt i 0 (initialState prompt logits w)
      (initialState_cache_length _ _ _)
    obtain ⟨ht, hpos, -⟩ := runWorld_inputs
      (stateAfter e m.Init prompt i 0 (initialState prompt logits w)).token i
      (stateAfter e m.Init prompt i 0 (initialState prompt logits w)).world
    refine ⟨loop_eq_stateAfter e hnf hs m.Init hin hout prompt i 0 _
        (initialState_cache_length _ _ _) (Fits_of_le e _ _ hfit (by omega)),
      forward_ok e hnf m.Init hin hout i _ hc (Fits_of_le e _ _ hfit (by omega)), stepFill_ok e hnf m.Init i _, rfl, ht, hpos,
      fun hi => stateAfter_token_prompt e m.Init prompt logits w i hi, ?_,
      stateAfter_cache_succ e m.Init prompt i _⟩
    intro hi
    obtain ⟨k, rfl⟩ : ∃ k, i = k + 1 := ⟨i - 1, by omega⟩
    simp only [Nat.add_sub_cancel]
    exact stateAfter_token_selected e hs m.Init prompt k _ hi

/-- C15 at the prompt `[464, 2068, 7586, 21831]` with `steps = 5` and the
stub engine: nine invocations. -/
theorem Generate_invocations_witness :
    ∃ (st : Nat → LoopState ℚ) (fill : Nat → Nat → Nat → ℚ),
      ((NewModel "gpt2" "").Init.Generate (constEnv 21831) [464, 2068, 7586, 21831] 5 none
          World.empty).world.runs =
        (World.empty : World ℚ).runs ++
          (List.range ([(464 : Int), 2068, 7586, 21831].length + (5 : Int).toNat)).map
            (fun i => stepBindings (NewModel "gpt2" "").Init (st i)) ∧
      (st 0).cacheValues = (emptyCache (World.empty : World ℚ)).1 ∧
      ∀ i, i < [(464 : Int), 2068, 7586, 21831].length + (5 : Int).toNat →
        Model.Generate.loop (constEnv 21831) (NewModel "gpt2" "").Init
            [464, 2068, 7586, 21831] i 0
            (initialState [464, 2068, 7586, 21831] none World.empty) = (none, st i) ∧
        ((NewModel "gpt2" "").Init.forward (constEnv 21831) (st i).token i (st i).cacheValues
          (st i).world).1 = .ok (stepOutputs (st i).world) ∧
        (constEnv 21831).runWithBinding (runWorld (st i).token i (st i).world)
          (stepBindings (NewModel "gpt2" "").Init (st i)).1
          (stepBindings (NewModel "gpt2" "").Init (st i)).2 = .ok (fill i) ∧
        (stepBindings (NewModel "gpt2" "").Init (st i)).1 =
          (NewModel "gpt2" "").Init.inputNames.zip
            ([(st i).world.tensors.length, (st i).world.tensors.length + 1,
              (st i).world.tensors.length + 2] ++ (st i).cacheValues) ∧
        (runWorld (st i).token i (st i).world).tensors[(st i).world.tensors.length]? =
          some ⟨[1, 1], .int64 [(st i).token]⟩ ∧
        (runWorld (st i).token i (st i).world).tensors[(st i).world.tensors.length + 1]? =
          some ⟨[1, 1], .int64 [(i : Int)]⟩ ∧
        (i < [(464 : Int), 2068, 7586, 21831].length →
          [(464 : Int), 2068, 7586, 21831][i]? = some (st i).token) ∧
        ([(464 : Int), 2068, 7586, 21831].length ≤ i →
          selectToken (constEnv 21831).exp (constEnv 21831).sortSlice
            (logitsOf (fill (i - 1))) = some (st i).token) ∧
        (st (i + 1)).cacheValues = (stepOutputs (st i).world).tail :=
  Generate_invocations (constEnv 21831) (constEnv_neverFails 21831)
    insertionSortSlice_spec (NewModel "gpt2" "") [464, 2068, 7586, 21831] (by simp) 5
    (by decide) (by decide) (by decide) none World.empty

/-- C16 (counterexample): the position `2^63 - 1` is a non-negative int64.
`initInputs` creates the token tensor and the position tensor, then
`position + 1` wraps to `-2^63` and `make` panics: no attention mask is
built and no tensors are returned. -/
theorem initInputs_tensors_counterexample :
    (0 : Int) ≤ 2 ^ 63 - 1 ∧ wrapInt64 (2 ^ 63 - 1) = 2 ^ 63 - 1 ∧
    (initInputs (constEnv 21831) 464 (2 ^ 63 - 1) World.empty).1 =
      .error (.panic "makeslice: len out of range") ∧
    (initInputs (constEnv 21831) 464 (2 ^ 63 - 1) World.empty).2.tensors =
      [⟨[1, 1], .int64 [464]⟩, ⟨[1, 1], .int64 [2 ^ 63 - 1]⟩] :=
  ⟨by decide, by decide, rfl, rfl⟩

/-- C16 (amended): for every token and every position `≥ 0` such that
`position + 1` is an int64 that `make` accepts as a length, when `NewTensor`
does not fail, `initInputs` creates exactly three tensors and returns them in
this order: the token tensor of shape `[1, 1]` holding `[token]`, the position
tensor of shape `[1, 1]` holding `[position]`, and the attention mask of shape
`[1, position + 1]` whose `position + 1` entries are all `1`. -/
theorem initInputs_tensors {β : Type} (e : Env β)
    (h : ∀ w shape data, e.newTensor w shape data = none)
    (token position : Int) (hpos : 0 ≤ position) (hmax : position + 1 < 2 ^ 63)
    (hmake : position + 1 ≤ e.makeLimit) (w : World β) :
    ∃ (tokens positions attentionMask : Nat) (maskData : List Int) (w' : World β),
      initInputs e token position w = (.ok [tokens, positions, attentionMask], w') ∧
      w'.tensors = w.tensors ++
        [⟨[1, 1], .int64 [token]⟩, ⟨[1, 1], .int64 [position]⟩,
         ⟨[1, position + 1], .int64 maskData⟩] ∧
      w'.tensors[tokens]? = some ⟨[1, 1], .int64 [token]⟩ ∧
      w'.tensors[positions]? = some ⟨[1, 1], .int64 [position]⟩ ∧
      w'.tensors[attentionMask]? = some ⟨[1, position + 1], .int64 maskData⟩ ∧
      (maskData.length : Int) = position + 1 ∧ (∀ x ∈ maskData, x = 1) ∧
      w'.destroyed = w.destroyed ∧ w'.runs = w.runs := by
  obtain ⟨n, rfl⟩ := Int.eq_ofNat_of_zero_le hpos
  have hfit : e.Fits (n + 1) := ⟨by push_cast; exact hmax, by exact_mod_cast hmake⟩
  refine ⟨w.tensors.length, w.tensors.length + 1, w.tensors.length + 2,
    List.replicate (n + 1) 1, _, initInputs_eq e h token n w hfit, rfl, ?_, ?_, ?_,
    by simp, ?_, rfl, rfl⟩
  · rw [List.getElem?_append_right (Nat.le_refl _)]
    simp
  · rw [List.getElem?_append_right (Nat.le_add_right _ _)]
    simp
  · rw [List.getElem?_append_right (Nat.le_add_right _ _)]
    simp
  · intro x hx
    exact (List.mem_replicate.mp hx).2

/-- C16 (amended) at token `464`, position `2`: the mask is `[1, 1, 1]`. -/
theorem initInputs_tensors_witness :
    ∃ (tokens positions attentionMask : Nat) (maskData : List Int) (w' : World ℚ),
      initInputs (constEnv 21831) 464 2 World.empty =
        (.ok [tokens, positions, attentionMask], w') ∧
      w'.tensors = (World.empty : World ℚ).tensors ++
        [⟨[1, 1], .int64 [464]⟩, ⟨[1, 1], .int64 [2]⟩,
         ⟨[1, 2 + 1], .int64 maskData⟩] ∧
      w'.tensors[tokens]? = some ⟨[1, 1], .int64 [464]⟩ ∧
      w'.tensors[positions]? = some ⟨[1, 1], .int64 [2]⟩ ∧
      w'.tensors[attentionMask]? = some ⟨[1, 2 + 1], .int64 maskData⟩ ∧
      (maskData.length : Int) = 2 + 1 ∧ (∀ x ∈ maskData, x = 1) ∧
      w'.destroyed = (World.empty : World ℚ).destroyed ∧
      w'.runs = (World.empty : World ℚ).runs :=
  initInputs_tensors (constEnv 21831) (fun _ _ _ => rfl) 464 2 (by decide) (by decide)
    (by decide) World.empty

/-- C17: the name lists built by `Init` are the 27 input names
`input_ids, position_ids, attention_mask, past_key_values.0.key,
past_key_values.0.value, ..., past_key_values.11.value` and the 25 output names
`logits, present.0.key, present.0.value, ..., present.11.value`. Consequently,
in the log `calls` of the forward passes of a `Generate` call in which nothing
fails (non-empty prompt, `steps ≥ 0`, `len(prompt) + steps` an int64 that
`make` accepts as a length), for every layer `k < nLayers` the tensor bound to output
`present.k.key` (resp. `present.k.value`) in one pass is the tensor bound to
input `past_key_values.k.key` (resp. `past_key_values.k.value`) in the next
pass, and the tensor bound to output `logits` is an input of no pass. -/
theorem Generate_cache_wiring (e : Env α) (hnf : e.NeverFails)
    (hs : SortSliceSpec e.sortSlice) (m : Model)
    (prompt : List Int) (hp : prompt ≠ []) (steps : Int) (hsteps : 0 ≤ steps)
    (hmax : (prompt.length : Int) + steps < 2 ^ 63)
    (hmake : (prompt.length : Int) + steps ≤ e.makeLimit)
    (logits : Option (List (List α))) (w : World α) :
    m.Init.inputNames =
      ["input_ids", "position_ids", "attention_mask",
       "past_key_values.0.key", "past_key_values.0.value",
       "past_key_values.1.key", "past_key_values.1.value",
       "past_key_values.2.key", "past_key_values.2.value",
       "past_key_values.3.key", "past_key_values.3.value",
       "past_key_values.4.key", "past_key_values.4.value",
       "past_key_values.5.key", "past_key_values.5.value",
       "past_key_values.6.key", "past_key_values.6.value",
       "past_key_values.7.key", "past_key_values.7.value",
       "past_key_values.8.key", "past_key_values.8.value",
       "past_key_values.9.key", "past_key_values.9.value",
       "past_key_values.10.key", "past_key_values.10.value",
       "past_key_values.11.key", "past_key_values.11.value"] ∧
    m.Init.outputNames =
      ["logits",
       "present.0.key", "present.0.value", "present.1.key", "present.1.value",
       "present.2.key", "present.2.value", "present.3.key", "present.3.value",
       "present.4.key", "present.4.value", "present.5.key", "present.5.value",
       "present.6.key", "present.6.value", "present.7.key", "present.7.value",
       "present.8.key", "present.8.value", "present.9.key", "present.9.value",
       "present.10.key", "present.10.value", "present.11.key", "present.11.value"] ∧
    m.Init.inputNames.length = 27 ∧ m.Init.outputNames.length = 25 ∧
    ∃ calls : List (List (String × Nat) × List (String × Nat)),
      (m.Init.Generate e prompt steps logits w).world.runs = w.runs ++ calls ∧
      calls.length = prompt.length + steps.toNat ∧
      (∀ (i : Nat) (c c' : List (String × Nat) × List (String × Nat)),
        calls[i]? = some c → calls[i + 1]? = some c' → ∀ k, k < nLayers →
        ∃ key value : Nat,
          c.2[1 + 2 * k]? = some ("present." ++ toString k ++ ".key", key) ∧
          c.2[2 + 2 * k]? = some ("present." ++ toString k ++ ".value", value) ∧
          c'.1[3 + 2 * k]? = some ("past_key_values." ++ toString k ++ ".key", key) ∧
          c'.1[4 + 2 * k]? = some ("past_key_values." ++ toString k ++ ".value", value)) ∧
      (∀ (i : Nat) (c : List (String × Nat) × List (String × Nat)), calls[i]? = some c →
        ∃ lg : Nat, c.2[0]? = some ("logits", lg) ∧
          ∀ (j : Nat) (c' : List (String × Nat) × List (String × Nat)),
            calls[j]? = some c' → ∀ x ∈ c'.1, x.2 ≠ lg) := by
  obtain ⟨hin, hout⟩ := Init_names_length m
  obtain ⟨hn1, hn2⟩ := Init_names m
  have hfit := Fits_of_bounds e prompt steps hsteps hmax hmake
  refine ⟨hn1, hn2, by rw [hin]; rfl, by rw [hout]; rfl,
    (List.range (prompt.length + steps.toNat)).map
      (fun i => stepBindings m.Init
        (stateAfter e m.Init prompt i 0 (initialState prompt logits w))), ?_, by simp, ?_, ?_⟩
  · rw [Generate_eq e hnf hs m.Init hin hout prompt hp steps hsteps hfit logits w]
    simp only [destroyValues_eq]
    rw [stateAfter_runs_eq]
    simp [initialState, emptyCache_eq]
  · intro i c c' hc hc' k hk
    obtain ⟨-, rfl⟩ := map_range_getElem? _ _ _ _ hc
    obtain ⟨-, rfl⟩ := map_range_getElem? _ _ _ _ hc'
    obtain ⟨-, ho1, ho2⟩ := stepBindings_outputs m
      (stateAfter e m.Init prompt i 0 (initialState prompt logits w)) k hk
    have hcache : (stateAfter e m.Init prompt (i + 1) 0
        (initialState prompt logits w)).cacheValues =
        List.range' ((stateAfter e m.Init prompt i 0
          (initialState prompt logits w)).world.tensors.length + 4) (2 * nLayers) := by
      rw [stateAfter_succ]
      simp only [nextState]
    obtain ⟨hi1, hi2⟩ := stepBindings_inputs m _ _ hcache k hk
    have h5 : (stateAfter e m.Init prompt i 0
        (initialState prompt logits w)).world.tensors.length + 4 + 1 + 2 * k =
        (stateAfter e m.Init prompt i 0
          (initialState prompt logits w)).world.tensors.length + 5 + 2 * k := by omega
    rw [h5] at hi2
    exact ⟨_, _, ho1, ho2, hi1, hi2⟩
  · intro i c hc
    obtain ⟨-, rfl⟩ := map_range_getElem? _ _ _ _ hc
    obtain ⟨ho0, -, -⟩ := stepBindings_outputs m
      (stateAfter e m.Init prompt i 0 (initialState prompt logits w)) 0 (by decide)
    refine ⟨_, ho0, ?_⟩
    intro j c' hc' x hx
    obtain ⟨-, rfl⟩ := map_range_getElem? _ _ _ _ hc'
    exact stepInputs_ne_logits e m.Init prompt logits w i j x hx

/-- C17 at the prompt `[464, 2068, 7586, 21831]` with `steps = 5` and the
stub engine: nine passes, each fed the cache the previous one wrote. -/
theorem Generate_cache_wiring_witness :
    ∃ calls : List (List (String × Nat) × List (String × Nat)),
      ((NewModel "gpt2" "").Init.Generate (constEnv 21831) [464, 2068, 7586, 21831] 5 none
        World.empty).world.runs = (World.empty : World ℚ).runs ++ calls ∧
      calls.length = [(464 : Int), 2068, 7586, 21831].length + (5 : Int).toNat ∧
      (∀ (i : Nat) (c c' : List (String × Nat) × List (String × Nat)),
        calls[i]? = some c → calls[i + 1]? = some c' → ∀ k, k < nLayers →
        ∃ key value : Nat,
          c.2[1 + 2 * k]? = some ("present." ++ toString k ++ ".key", key) ∧
          c.2[2 + 2 * k]? = some ("present." ++ toString k ++ ".value", value) ∧
          c'.1[3 + 2 * k]? = some ("past_key_values." ++ toString k ++ ".key", key) ∧
          c'.1[4 + 2 * k]? = some ("past_key_values." ++ toString k ++ ".value", value)) ∧
      (∀ (i : Nat) (c : List (String × Nat) × List (String × Nat)), calls[i]? = some c →
        ∃ lg : Nat, c.2[0]? = some ("logits", lg) ∧
          ∀ (j : Nat) (c' : List (String × Nat) × List (String × Nat)),
            calls[j]? = some c' → ∀ x ∈ c'.1, x.2 ≠ lg) :=
  (Generate_cache_wiring (constEnv 21831) (constEnv_neverFails 21831)
    insertionSortSlice_spec (NewModel "gpt2" "") [464, 2068, 7586, 21831] (by simp) 5
    (by decide) (by decide) (by decide) none World.empty).2.2.2.2

/-- C18: when `Generate` is given a logits history and nothing fails
(non-empty prompt, `steps ≥ 0`, `len(prompt) + steps` an int64 that `make`
accepts as a length), the history it leaves is the previous one,
unchanged, followed by exactly `len(prompt) + steps` vectors `ls`, and the
`i`-th of them is the logits the engine wrote in the pass of position `i`,
the steps over the prompt included. With a nil history the same tokens are
returned and there is still no history. -/
theorem Generate_logits_history (e : Env α) (hnf : e.NeverFails)
    (hs : SortSliceSpec e.sortSlice) (m : Model)
    (prompt : List Int) (hp : prompt ≠ []) (steps : Int) (hsteps : 0 ≤ steps)
    (hmax : (prompt.length : Int) + steps < 2 ^ 63)
    (hmake : (prompt.length : Int) + steps ≤ e.makeLimit)
    (history : List (List α)) (w : World α) :
    ∃ (ls : List (List α)) (out : List Int),
      ls.length = prompt.length + steps.toNat ∧
      (m.Init.Generate e prompt steps (some history) w).result = .ok out ∧
      (m.Init.Generate e prompt steps (some history) w).logits = some (history ++ ls) ∧
      (m.Init.Generate e prompt steps none w).result = .ok out ∧
      (m.Init.Generate e prompt steps none w).logits = none ∧
      ∀ i, i < prompt.length + steps.toNat →
        ∃ (st : LoopState α) (fill : Nat → Nat → α),
          Model.Generate.loop e m.Init prompt i 0 (initialState prompt (some history) w) =
            (none, st) ∧
          (runWorld st.token i st.world).tensors[st.world.tensors.length + 1]? =
            some ⟨[1, 1], .int64 [(i : Int)]⟩ ∧
          e.runWithBinding (runWorld st.token i st.world) (stepBindings m.Init st).1
            (stepBindings m.Init st).2 = .ok fill ∧
          (history ++ ls)[history.length + i]? = some (logitsOf fill) := by
  obtain ⟨hin, hout⟩ := Init_names_length m
  have hfit := Fits_of_bounds e prompt steps hsteps hmax hmake
  obtain ⟨h1, h3, -, -⟩ := initialState_congr prompt none (some history) w e m.Init
    (prompt.length + steps.toNat)
  refine ⟨traceLogits e m.Init prompt (prompt.length + steps.toNat) 0
      (initialState prompt (some history) w),
    (stateAfter e m.Init prompt (prompt.length + steps.toNat) 0
      (initialState prompt (some history) w)).out.take steps.toNat,
    traceLogits_length _ _ _ _ _ _, ?_, ?_, ?_, ?_, ?_⟩
  · rw [Generate_eq e hnf hs m.Init hin hout prompt hp steps hsteps hfit (some history) w]
  · rw [Generate_eq e hnf hs m.Init hin hout prompt hp steps hsteps hfit (some history) w]
    simp only []
    rw [stateAfter_logits]
    simp [initialState]
  · rw [Generate_eq e hnf hs m.Init hin hout prompt hp steps hsteps hfit none w]
    simp only []
    rw [h3]
  · rw [Generate_eq e hnf hs m.Init hin hout prompt hp steps hsteps hfit none w]
    simp only []
    rw [stateAfter_logits]
    simp [initialState]
  · intro i hi
    refine ⟨stateAfter e m.Init prompt i 0 (initialState prompt (some history) w),
      stepFill e m.Init i
        (stateAfter e m.Init prompt i 0 (initialState prompt (some history) w)),
      loop_eq_stateAfter e hnf hs m.Init hin hout prompt i 0 _
        (initialState_cache_length _ _ _) (Fits_of_le e _ _ hfit (by omega)),
      (runWorld_inputs _ _ _).2.1, stepFill_ok e hnf m.Init i _, ?_⟩
    rw [List.getElem?_append_right (Nat.le_add_right _ _), Nat.add_sub_cancel_left]
    exact traceLogits_getElem? e m.Init prompt _ _ i hi

/-- C18 at the prompt `[464, 2068, 7586, 21831]` with `steps = 5`, the stub
engine and a history of one vector: nine vectors are appended. -/
theorem Generate_logits_history_witness :
    ∃ (ls : List (List ℚ)) (out : List Int),
      ls.length = [(464 : Int), 2068, 7586, 21831].length + (5 : Int).toNat ∧
      ((NewModel "gpt2" "").Init.Generate (constEnv 21831) [464, 2068, 7586, 21831] 5
        (some [[1, 3, 2]]) World.empty).result = .ok out ∧
      ((NewModel "gpt2" "").Init.Generate (constEnv 21831) [464, 2068, 7586, 21831] 5
        (some [[1, 3, 2]]) World.empty).logits = some ([[1, 3, 2]] ++ ls) ∧
      ((NewModel "gpt2" "").Init.Generate (constEnv 21831) [464, 2068, 7586, 21831] 5
        none World.empty).result = .ok out ∧
      ((NewModel "gpt2" "").Init.Generate (constEnv 21831) [464, 2068, 7586, 21831] 5
        none World.empty).logits = none ∧
      ∀ i, i < [(464 : Int), 2068, 7586, 21831].length + (5 : Int).toNat →
        ∃ (st : LoopState ℚ) (fill : Nat → Nat → ℚ),
          Model.Generate.loop (constEnv 21831) (NewModel "gpt2" "").Init
            [464, 2068, 7586, 21831] i 0
            (initialState [464, 2068, 7586, 21831] (some [[1, 3, 2]]) World.empty) =
            (none, st) ∧
          (runWorld st.token i st.world).tensors[st.world.tensors.length + 1]? =
            some ⟨[1, 1], .int64 [(i : Int)]⟩ ∧
          (constEnv 21831).runWithBinding (runWorld st.token i st.world)
            (stepBindings (NewModel "gpt2" "").Init st).1
            (stepBindings (NewModel "gpt2" "").Init st).2 = .ok fill ∧
          ([[1, 3, 2]] ++ ls)[([[1, 3, 2]] : List (List ℚ)).length + i]? =
            some (logitsOf fill) :=
  Generate_logits_history (constEnv 21831) (constEnv_neverFails 21831)
    insertionSortSlice_spec (NewModel "gpt2" "") [464, 2068, 7586, 21831] (by simp) 5
    (by decide) (by decide) (by decide) [[1, 3, 2]] World.empty

/-- C19: for every non-empty prompt, every `steps ≥ 0` (with
`len(prompt) + steps` an int64 that `make` accepts as a length) and every
runtime in which nothing fails, `Generate` selects `steps + 1` tokens, one in
each iteration from position `len(prompt) - 1` on, and returns the first
`steps` of them: `out[i]` is the greedy choice of the sampler from the logits
of the pass at position `len(prompt) - 1 + i`, the value of `sample`, an index
of a largest entry of the distribution `p` that `softmax` computes from these
logits; it is the token variable, and the content of the token tensor, of the
pass at position `len(prompt) + i`; and the token `last` selected from the
logits of the final pass, at position `len(prompt) + steps - 1`, is collected
but not returned. For any `exp`. -/
theorem Generate_selected_tokens (e : Env α) (hnf : e.NeverFails)
    (hs : SortSliceSpec e.sortSlice)
    (m : Model) (prompt : List Int) (hp : prompt ≠ []) (steps : Int) (hsteps : 0 ≤ steps)
    (hmax : (prompt.length : Int) + steps < 2 ^ 63)
    (hmake : (prompt.length : Int) + steps ≤ e.makeLimit)
    (logits : Option (List (List α))) (w : World α) :
    ∃ (out : List Int) (last : Int) (st : Nat → LoopState α) (fill : Nat → Nat → Nat → α),
      (m.Init.Generate e prompt steps logits w).result = .ok out ∧
      out.length = steps.toNat ∧
      (∀ i, i ≤ prompt.length + steps.toNat →
        Model.Generate.loop e m.Init prompt i 0 (initialState prompt logits w) =
          (none, st i)) ∧
      (∀ i, i < prompt.length + steps.toNat →
        e.runWithBinding (runWorld (st i).token i (st i).world)
          (stepBindings m.Init (st i)).1 (stepBindings m.Init (st i)).2 = .ok (fill i)) ∧
      (st (prompt.length + steps.toNat)).out = out ++ [last] ∧
      (∀ i, i < steps.toNat →
        ∃ t : Nat, out[i]? = some (t : Int) ∧
          selectToken e.exp e.sortSlice (logitsOf (fill (prompt.length - 1 + i))) =
            some (t : Int) ∧
          t < vocabSize ∧
          (∃ p, softmax e.exp (logitsOf (fill (prompt.length - 1 + i))) = .ok p ∧
            p.length = vocabSize ∧ ∀ j, j < vocabSize → p.getD j 0 ≤ p.getD t 0) ∧
          (st (prompt.length + i)).token = (t : Int) ∧
          (runWorld (st (prompt.length + i)).token (prompt.length + i)
            (st (prompt.length + i)).world).tensors[
              (st (prompt.length + i)).world.tensors.length]? =
            some ⟨[1, 1], .int64 [(t : Int)]⟩) ∧
      selectToken e.exp e.sortSlice
        (logitsOf (fill (prompt.length + steps.toNat - 1))) = some last := by
  obtain ⟨hin, hout⟩ := Init_names_length m
  have hlen : 0 < prompt.length := List.length_pos.mpr hp
  have hfit := Fits_of_bounds e prompt steps hsteps hmax hmake
  have hout_eq := stateAfter_out_range e m.Init prompt (prompt.length + steps.toNat)
    (initialState prompt logits w)
  have hk : prompt.length + steps.toNat - (prompt.length - 1) = steps.toNat + 1 := by omega
  have hinit : (initialState prompt logits w).out = [] := rfl
  rw [hk, List.range'_concat, List.map_append, hinit, List.nil_append] at hout_eq
  simp only [List.map_cons, List.map_nil, Nat.mul_one, one_mul] at hout_eq
  refine ⟨(List.range' (prompt.length - 1) steps.toNat).map
      (fun i => selected e (stepLogits e m.Init i
        (stateAfter e m.Init prompt i 0 (initialState prompt logits w)))),
    selected e (stepLogits e m.Init (prompt.length - 1 + steps.toNat)
      (stateAfter e m.Init prompt (prompt.length - 1 + steps.toNat) 0
        (initialState prompt logits w))),
    fun i => stateAfter e m.Init prompt i 0 (initialState prompt logits w),
    fun i => stepFill e m.Init i
      (stateAfter e m.Init prompt i 0 (initialState prompt logits w)),
    ?_, by simp, ?_, ?_, hout_eq, ?_, ?_⟩
  · rw [Generate_eq e hnf hs m.Init hin hout prompt hp steps hsteps hfit logits w]
    simp only []
    rw [hout_eq, List.take_left' (by simp)]
  · intro i hi
    exact loop_eq_stateAfter e hnf hs m.Init hin hout prompt i 0 _
      (initialState_cache_length _ _ _) (Fits_of_le e _ _ hfit (by omega))
  · intro i _
    exact stepFill_ok e hnf m.Init i _
  · intro i hi
    obtain ⟨mx, p, t, -, -, -, hpe, hsm, -, hsel, htlt, hle, -⟩ :=
      sample_ok e.exp e.sortSlice hs
        (logitsOf (stepFill e m.Init (prompt.length - 1 + i)
          (stateAfter e m.Init prompt (prompt.length - 1 + i) 0
            (initialState prompt logits w))))
        (logitsOf_ne_nil _)
    have hselected : selected e (stepLogits e m.Init (prompt.length - 1 + i)
        (stateAfter e m.Init prompt (prompt.length - 1 + i) 0
          (initialState prompt logits w))) = (t : Int) := by
      simp only [selected, stepLogits, hsel, Option.getD_some]
    have hsucc : prompt.length + i = (prompt.length - 1 + i) + 1 := by omega
    have htok : (stateAfter e m.Init prompt (prompt.length + i) 0
        (initialState prompt logits w)).token = (t : Int) := by
      rw [hsucc, stateAfter_token, if_neg (by omega), hselected]
    have hpl : p.length = vocabSize := by
      rw [hpe, List.length_map, logitsOf_length]
    rw [logitsOf_length] at htlt hle
    refine ⟨t, ?_, hsel, htlt, ⟨p, hsm, hpl, hle⟩, htok, ?_⟩
    · rw [List.getElem?_map, List.getElem?_range' _ _ hi]
      simp only [Option.map_some', one_mul, hselected]
    · rw [← htok]
      exact (runWorld_inputs _ _ _).1
  · have hlast : prompt.length + steps.toNat - 1 = prompt.length - 1 + steps.toNat := by omega
    rw [hlast]
    exact selectToken_eq_selected e hs _ (logitsOf_ne_nil _)

/-- C19 at the prompt `[464, 2068, 7586, 21831]` with `steps = 5` and the
stub engine: six tokens are selected, five are returned. -/
theorem Generate_selected_tokens_witness :
    ∃ (out : List Int) (last : Int) (st : Nat → LoopState ℚ) (fill : Nat → Nat → Nat → ℚ),
      ((NewModel "gpt2" "").Init.Generate (constEnv 21831) [464, 2068, 7586, 21831] 5 none
        World.empty).result = .ok out ∧
      out.length = (5 : Int).toNat ∧
      (∀ i, i ≤ [(464 : Int), 2068, 7586, 21831].length + (5 : Int).toNat →
        Model.Generate.loop (constEnv 21831) (NewModel "gpt2" "").Init
            [464, 2068, 7586, 21831] i 0
            (initialState [464, 2068, 7586, 21831] none World.empty) = (none, st i)) ∧
      (∀ i, i < [(464 : Int), 2068, 7586, 21831].length + (5 : Int).toNat →
        (constEnv 21831).runWithBinding (runWorld (st i).token i (st i).world)
          (stepBindings (NewModel "gpt2" "").Init (st i)).1
          (stepBindings (NewModel "gpt2" "").Init (st i)).2 = .ok (fill i)) ∧
      (st ([(464 : Int), 2068, 7586, 21831].length + (5 : Int).toNat)).out = out ++ [last] ∧
      (∀ i, i < (5 : Int).toNat →
        ∃ t : Nat, out[i]? = some (t : Int) ∧
          selectToken (constEnv 21831).exp (constEnv 21831).sortSlice
            (logitsOf (fill ([(464 : Int), 2068, 7586, 21831].length - 1 + i))) =
            some (t : Int) ∧
          t < vocabSize ∧
          (∃ p, softmax (constEnv 21831).exp
              (logitsOf (fill ([(464 : Int), 2068, 7586, 21831].length - 1 + i))) = .ok p ∧
            p.length = vocabSize ∧ ∀ j, j < vocabSize → p.getD j 0 ≤ p.getD t 0) ∧
          (st ([(464 : Int), 2068, 7586, 21831].length + i)).token = (t : Int) ∧
          (runWorld (st ([(464 : Int), 2068, 7586, 21831].length + i)).token
            ([(464 : Int), 2068, 7586, 21831].length + i)
            (st ([(464 : Int), 2068, 7586, 21831].length + i)).world).tensors[
              (st ([(464 : Int), 2068, 7586, 21831].length + i)).world.tensors.length]? =
            some ⟨[1, 1], .int64 [(t : Int)]⟩) ∧
      selectToken (constEnv 21831).exp (constEnv 21831).sortSlice
        (logitsOf (fill ([(464 : Int), 2068, 7586, 21831].length + (5 : Int).toNat - 1))) =
        some last :=
  Generate_selected_tokens (constEnv 21831) (constEnv_neverFails 21831)
    insertionSortSlice_spec (NewModel "gpt2" "")
    [464, 2068, 7586, 21831] (by simp) 5 (by decide) (by decide) (by decide) none World.empty

/-- C20 (counterexample): with the prompt `[464, 2068, 7586, 21831]` and
`steps = 2^63 - 1`, a non-negative int64, and a model whose names were built
by `Init`, `steps + 1` wraps to `-2^63` and `Generate` panics in `make`,
before the loop: no forward pass is run. -/
theorem Generate_no_panic_counterexample :
    (0 : Int) ≤ 2 ^ 63 - 1 ∧ wrapInt64 (2 ^ 63 - 1) = 2 ^ 63 - 1 ∧
    ((NewModel "gpt2" "").Init.Generate (constEnv 21831) [464, 2068, 7586, 21831]
      (2 ^ 63 - 1) none World.empty).result = .error (.panic "makeslice: cap out of range") ∧
    ((NewModel "gpt2" "").Init.Generate (constEnv 21831) [464, 2068, 7586, 21831]
      (2 ^ 63 - 1) none World.empty).world.runs = [] :=
  ⟨by decide, by decide, rfl, rfl⟩

/-- C20 (amended): `Generate` cannot panic when the lengths fit. For every
non-empty prompt, every `steps ≥ 0` such that `len(prompt) + steps` is an
int64 that `make` accepts as a length, and a model whose names were built by
`Init` (27 input names, 25 output names), whatever the calls to the runtime
return (the allocations whose error the source discards are taken to succeed),
`Generate` ends with tokens or with a returned error, never with a panic:
`make`, `prompt[step+1]`, the maximum of `softmax`, `idx[0]`, `out[:steps]`
and the two length checks of `forward` are all within bounds. -/
theorem Generate_no_panic (e : Env α) (hs : SortSliceSpec e.sortSlice) (m : Model)
    (prompt : List Int) (hp : prompt ≠ []) (steps : Int) (hsteps : 0 ≤ steps)
    (hmax : (prompt.length : Int) + steps < 2 ^ 63)
    (hmake : (prompt.length : Int) + steps ≤ e.makeLimit)
    (logits : Option (List (List α))) (w : World α) :
    m.Init.inputNames.length = 27 ∧ m.Init.outputNames.length = 25 ∧
    ((∃ out, (m.Init.Generate e prompt steps logits w).result = .ok out) ∨
      (∃ err, (m.Init.Generate e prompt steps logits w).result = .error (.error err))) ∧
    ∀ msg, (m.Init.Generate e prompt steps logits w).result ≠ .error (.panic msg) := by
  obtain ⟨hin, hout⟩ := Init_names_length m
  have hfit := Fits_of_bounds e prompt steps hsteps hmax hmake
  have hc := Generate_cases_aux e hs m.Init hin hout prompt hp steps hsteps hfit logits w
  refine ⟨by rw [hin]; rfl, by rw [hout]; rfl, hc, ?_⟩
  intro msg hmsg
  rcases hc with ⟨out, h⟩ | ⟨err, h⟩
  · rw [h] at hmsg
    exact Except.noConfusion hmsg
  · rw [h] at hmsg
    have := Except.error.inj hmsg
    exact Fault.noConfusion this

/-- C20 (amended) at the prompt `[464, 2068, 7586, 21831]` with `steps = 5`
and the stub engine. -/
theorem Generate_no_panic_witness :
    (NewModel "gpt2" "").Init.inputNames.length = 27 ∧
    (NewModel "gpt2" "").Init.outputNames.length = 25 ∧
    ((∃ out, ((NewModel "gpt2" "").Init.Generate (constEnv 21831) [464, 2068, 7586, 21831] 5
        none World.empty).result = .ok out) ∨
      (∃ err, ((NewModel "gpt2" "").Init.Generate (constEnv 21831) [464, 2068, 7586, 21831] 5
        none World.empty).result = .error (.error err))) ∧
    ∀ msg, ((NewModel "gpt2" "").Init.Generate (constEnv 21831) [464, 2068, 7586, 21831] 5
      none World.empty).result ≠ .error (.panic msg) :=
  Generate_no_panic (constEnv 21831) insertionSortSlice_spec (NewModel "gpt2" "")
    [464, 2068, 7586, 21831] (by simp) 5 (by decide) (by decide) (by decide) none World.empty

end Claims

end Gpt2
